import Mathlib

/-!
# libmigdb extensions: catchpoints, captured CLI commands, listing extractors

A shallow embedding of `src/catchpoint.c`, `src/data_ext.c` and
`src/symbol_query_ext.c`.

Conventions of the embedding

* A C string is the list of its characters before the terminating NUL
  (`List Char`, one `Char` for each `char`); a nullable `char *` is an
  `Option (List Char)`.
* A nullable handle `mi_h *` is an `Option (mi_h σ)`; functions return the
  handle state they leave behind next to their C return value.
* `int` values are `Int`; where the C library converts digits into an `int`
  or a pointer the 32-bit / 64-bit range (LP64, glibc) is explicit.
* A chain linked through `next` is the `List` of its records in chain order;
  the null chain is `[]`.
* Node and string allocation (`mi_calloc1`, `strdup`, `strndup`) is taken to
  succeed, except in the `*_rounds` loops, where an oracle decides each node
  allocation.
* `Option` around an extractor state means: `none` = the C program has no
  defined behaviour on this input (a write or read outside an array).
-/

namespace Libmigdb

/-! ## C library -/

/-- The text that `snprintf(buf, size, ...)` leaves in `buf` when the complete
formatted text is `text`: at most `size - 1` characters are stored. -/
def snprintf (size : Nat) (text : List Char) : List Char :=
  text.take (size - 1)

/-! ## Handle and transport (`mi_gdb.h`) -/

/-- The two fields of `mi_h` that the sources touch, and the rest of the
handle together with the debugger behind it (`ext`). -/
structure mi_h (σ : Type) where
  catch_console : Int
  catched_console : Option (List Char)
  ext : σ

/-- Modelled from the spec: `enum mi_bkp_disp` of `mi_gdb.h` (the header is
not among the sources); `d_del` is the delete-on-hit disposition. -/
inductive mi_bkp_disp where
  | d_unknown
  | d_keep
  | d_del
  deriving DecidableEq, Repr

/-- Modelled from the spec: the fields of `mi_bkpt` (`mi_gdb.h`) read by
`send_catch_command`. -/
structure mi_bkpt where
  number : Int
  enabled : Int
  times : Int
  cond : Option (List Char)
  disp : mi_bkp_disp
  deriving DecidableEq, Repr

/-- The transport collaborator, a parameter of every operation: the library
functions `mi_send`, `mi_get_response` and `mi_res_bkpt`, whose code is not
among the sources.  `mi_send h c` stands for
`mi_send(h, "-interpreter-exec console \"%s\"\n", c)`, the only form in which
the sources call it.  Each function may read and change the whole handle. -/
structure Transport (σ : Type) where
  mi_send : mi_h σ → List Char → mi_h σ
  mi_get_response : mi_h σ → Int × mi_h σ
  mi_res_bkpt : mi_h σ → Option mi_bkpt × mi_h σ

/-! ## `send_cli_command` (symbol_query_ext.c:26, data_ext.c:57) -/

/-- `send_cli_command`; the two copies in the sources are identical. -/
def send_cli_command {σ : Type} (T : Transport σ) (h : Option (mi_h σ))
    (command : Option (List Char)) : Option (List Char) × Option (mi_h σ) :=
  match h, command with
  | none, _ => (none, none)
  | some h0, none => (none, some h0)
  | some h0, some cmd =>
    let h1 := { h0 with catch_console := 1, catched_console := none }
    let h2 := T.mi_send h1 cmd
    let r := T.mi_get_response h2
    if r.1 = 0 then
      (none, some { r.2 with catch_console := 0 })
    else
      (r.2.catched_console, some { r.2 with catched_console := none, catch_console := 0 })

/-! ## Catchpoints (catchpoint.c) -/

/-- `mi_catch_type` (catchpoint.h). -/
inductive mi_catch_type where
  | mi_catch_throw
  | mi_catch_catch
  | mi_catch_exec
  | mi_catch_fork
  | mi_catch_vfork
  | mi_catch_load
  | mi_catch_unload
  | mi_catch_syscall
  | mi_catch_signal
  | mi_catch_assert
  deriving DecidableEq, Repr

/-- `mi_catch` (catchpoint.h); `next` is the position in the chain. -/
structure mi_catch where
  number : Int
  type : mi_catch_type
  enabled : Int
  condition : Option (List Char)
  times : Int
  event : Option (List Char)
  temporary : Int
  deriving DecidableEq, Repr

/-- `mi_alloc_catch`: one zero-valued node. -/
def mi_alloc_catch : mi_catch :=
  { number := 0, type := mi_catch_type.mi_catch_throw, enabled := 0, condition := none,
    times := 0, event := none, temporary := 0 }

/-- `send_catch_command` (catchpoint.c:18), called with a non-null handle. -/
def send_catch_command {σ : Type} (T : Transport σ) (h : mi_h σ) (command : List Char) :
    Option mi_catch × mi_h σ :=
  let h1 := T.mi_send h command
  let r := T.mi_get_response h1
  if r.1 = 0 then
    (none, r.2)
  else
    let b := T.mi_res_bkpt r.2
    match b.1 with
    | some bkpt =>
      (some { mi_alloc_catch with
                number := bkpt.number
                enabled := bkpt.enabled
                times := bkpt.times
                condition := bkpt.cond
                temporary := if bkpt.disp = mi_bkp_disp.d_del then 1 else 0 }, b.2)
    | none => (none, b.2)

/-- The `%s` argument `temporary ? "t" : ""`. -/
def t_opt (temporary : Int) : List Char :=
  if temporary ≠ 0 then "t".toList else "".toList

/-- `gmi_catch_exception` (catchpoint.c:47). -/
def gmi_catch_exception {σ : Type} (T : Transport σ) (h : Option (mi_h σ))
    (is_throw temporary : Int) : Option mi_catch × Option (mi_h σ) :=
  match h with
  | none => (none, none)
  | some h0 =>
    let cmd := snprintf 256 (t_opt temporary ++ "catch ".toList ++
      (if is_throw ≠ 0 then "throw".toList else "catch".toList))
    let c := send_catch_command T h0 cmd
    (c.1.map fun r => { r with type :=
        if is_throw ≠ 0 then mi_catch_type.mi_catch_throw else mi_catch_type.mi_catch_catch },
     some c.2)

/-- `gmi_catch_exec` (catchpoint.c:65). -/
def gmi_catch_exec {σ : Type} (T : Transport σ) (h : Option (mi_h σ))
    (temporary : Int) : Option mi_catch × Option (mi_h σ) :=
  match h with
  | none => (none, none)
  | some h0 =>
    let cmd := snprintf 256 (t_opt temporary ++ "catch exec".toList)
    let c := send_catch_command T h0 cmd
    (c.1.map fun r => { r with type := mi_catch_type.mi_catch_exec }, some c.2)

/-- `gmi_catch_fork` (catchpoint.c:81). -/
def gmi_catch_fork {σ : Type} (T : Transport σ) (h : Option (mi_h σ))
    (is_vfork temporary : Int) : Option mi_catch × Option (mi_h σ) :=
  match h with
  | none => (none, none)
  | some h0 =>
    let cmd := snprintf 256 (t_opt temporary ++ "catch ".toList ++
      (if is_vfork ≠ 0 then "vfork".toList else "fork".toList))
    let c := send_catch_command T h0 cmd
    (c.1.map fun r => { r with type :=
        if is_vfork ≠ 0 then mi_catch_type.mi_catch_vfork else mi_catch_type.mi_catch_fork },
     some c.2)

/-- The body shared, word for word, by `gmi_catch_load`, `gmi_catch_unload`,
`gmi_catch_syscall` and `gmi_catch_signal`: they differ only in the keyword of
the format string (`word`) and in the type constant (`ty`). -/
def gmi_catch_filtered {σ : Type} (T : Transport σ) (word : List Char) (ty : mi_catch_type)
    (h : Option (mi_h σ)) (filter : Option (List Char)) (temporary : Int) :
    Option mi_catch × Option (mi_h σ) :=
  match h with
  | none => (none, none)
  | some h0 =>
    let cmd :=
      match filter with
      | some f => snprintf 512 (t_opt temporary ++ "catch ".toList ++ word ++ " ".toList ++ f)
      | none => snprintf 512 (t_opt temporary ++ "catch ".toList ++ word)
    let c := send_catch_command T h0 cmd
    (c.1.map fun r =>
        let r1 := { r with type := ty }
        match filter with
        | some f => { r1 with event := some f }
        | none => r1,
     some c.2)

/-- `gmi_catch_load` (catchpoint.c:99). -/
def gmi_catch_load {σ : Type} (T : Transport σ) (h : Option (mi_h σ))
    (regexp : Option (List Char)) (temporary : Int) : Option mi_catch × Option (mi_h σ) :=
  gmi_catch_filtered T "load".toList mi_catch_type.mi_catch_load h regexp temporary

/-- `gmi_catch_unload` (catchpoint.c:121). -/
def gmi_catch_unload {σ : Type} (T : Transport σ) (h : Option (mi_h σ))
    (regexp : Option (List Char)) (temporary : Int) : Option mi_catch × Option (mi_h σ) :=
  gmi_catch_filtered T "unload".toList mi_catch_type.mi_catch_unload h regexp temporary

/-- `gmi_catch_syscall` (catchpoint.c:143). -/
def gmi_catch_syscall {σ : Type} (T : Transport σ) (h : Option (mi_h σ))
    (syscall_name : Option (List Char)) (temporary : Int) : Option mi_catch × Option (mi_h σ) :=
  gmi_catch_filtered T "syscall".toList mi_catch_type.mi_catch_syscall h syscall_name temporary

/-- `gmi_catch_signal` (catchpoint.c:165). -/
def gmi_catch_signal {σ : Type} (T : Transport σ) (h : Option (mi_h σ))
    (signal_name : Option (List Char)) (temporary : Int) : Option mi_catch × Option (mi_h σ) :=
  gmi_catch_filtered T "signal".toList mi_catch_type.mi_catch_signal h signal_name temporary

/-- `gmi_catch_assert` (catchpoint.c:187). -/
def gmi_catch_assert {σ : Type} (T : Transport σ) (h : Option (mi_h σ))
    (temporary : Int) : Option mi_catch × Option (mi_h σ) :=
  match h with
  | none => (none, none)
  | some h0 =>
    let cmd := snprintf 256 (t_opt temporary ++ "catch assert".toList)
    let c := send_catch_command T h0 cmd
    (c.1.map fun r => { r with type := mi_catch_type.mi_catch_assert }, some c.2)

/-! ## C library: characters, numbers, searching -/

/-- The test `c == ' ' || c == '\t'` used to skip the indentation of a line. -/
def is_blank (c : Char) : Bool :=
  c = ' ' || c = '\t'

/-- `isspace` in the C locale: the characters a `scanf` directive skips. -/
def isspace (c : Char) : Bool :=
  c = ' ' || c = '\t' || c = '\n' || c = '\x0b' || c = '\x0c' || c = '\r'

/-- The test `c >= '0' && c <= '9'`. -/
def isdigit (c : Char) : Bool :=
  decide (48 ≤ c.toNat) && decide (c.toNat ≤ 57)

/-- `isxdigit`. -/
def isxdigit (c : Char) : Bool :=
  isdigit c || (decide (97 ≤ c.toNat) && decide (c.toNat ≤ 102)) ||
    (decide (65 ≤ c.toNat) && decide (c.toNat ≤ 70))

/-- Value of one hexadecimal (or decimal) digit. -/
def digit_value (c : Char) : Nat :=
  if isdigit c then c.toNat - 48
  else if decide (97 ≤ c.toNat) && decide (c.toNat ≤ 102) then c.toNat - 87
  else c.toNat - 55

/-- Numeric value of a string of decimal digits. -/
def dec_value (ds : List Char) : Nat :=
  ds.foldl (fun a c => 10 * a + digit_value c) 0

/-- Numeric value of a string of hexadecimal digits. -/
def hex_value (ds : List Char) : Nat :=
  ds.foldl (fun a c => 16 * a + digit_value c) 0

/-- Conversion of a `long` to `int`: the low 32 bits in two's complement. -/
def to_int32 (v : Int) : Int :=
  (v + 2 ^ 31) % 2 ^ 32 - 2 ^ 31

/-- `strtol` keeps its result inside the 64-bit `long`. -/
def clamp_long (v : Int) : Int :=
  max (-(2 ^ 63)) (min v (2 ^ 63 - 1))

/-- Decimal conversion shared by `atoi` and the `%d` directive (glibc: both run
`strtol` in base 10 and store the result in an `int`): white space is skipped,
an optional sign is read, then the longest run of digits.  `none` when no digit
is found. -/
def scan_int (s : List Char) : Option Int :=
  let s1 := s.dropWhile isspace
  let neg := decide (s1.head? = some '-')
  let s2 := if s1.head? = some '-' ∨ s1.head? = some '+' then s1.tail else s1
  let ds := s2.takeWhile isdigit
  if ds = [] then none
  else some (to_int32 (clamp_long (if neg then -(dec_value ds : Int) else (dec_value ds : Int))))

/-- `atoi`. -/
def atoi (s : List Char) : Int :=
  (scan_int s).getD 0

/-- The value stored by `sscanf(s, "%d", &n)` when it returns 1; `none` when it
does not return 1. -/
def sscanf_d (s : List Char) : Option Int :=
  scan_int s

/-- The word stored by `sscanf(s, "%31s", buf)`: white space is skipped, then at
most 31 characters that are not white space are read.  `none` when nothing is
stored (`buf` stays uninitialised). -/
def sscanf_31s (s : List Char) : Option (List Char) :=
  let w := ((s.dropWhile isspace).takeWhile fun c => !isspace c).take 31
  if w = [] then none else some w

/-- `strchr(s, c)` as the offset of the first `c`, for `c` other than NUL. -/
def strchr : List Char → Char → Option Nat
  | [], _ => none
  | x :: xs, c => if x = c then some 0 else (strchr xs c).map (· + 1)

/-- `strpbrk(s, accept)` as an offset. -/
def strpbrk : List Char → List Char → Option Nat
  | [], _ => none
  | x :: xs, accept => if x ∈ accept then some 0 else (strpbrk xs accept).map (· + 1)

/-- `strstr(s, needle)` as the offset of the first occurrence. -/
def strstr : List Char → List Char → Option Nat
  | [], needle => if needle = [] then some 0 else none
  | x :: xs, needle =>
    if needle.isPrefixOf (x :: xs) then some 0 else (strstr xs needle).map (· + 1)

/-- One result of `strtok`: the token and the byte stored just before it in
the buffer (`none` when the token starts the buffer). -/
structure Token where
  before : Option Char
  text : List Char
  deriving DecidableEq, Repr

/-- One call of `strtok(.., "\n")`.  `save` is the text from the saved position
to the end of the buffer and `before` the byte stored just before it.  Leading
newlines are skipped; at the end of the buffer there is no token; otherwise the
token runs to the next newline, which is overwritten with NUL, and the saved
position moves behind it.  Returns the token, the byte before the new saved
position and the text from there. -/
def strtok (before : Option Char) (save : List Char) :
    Option (Token × Option Char × List Char) :=
  let s := save.dropWhile (· = '\n')
  let b := if s.length < save.length then some '\n' else before
  if s = [] then none
  else
    let tok := s.takeWhile (· ≠ '\n')
    let r := s.dropWhile (· ≠ '\n')
    some ({ before := b, text := tok },
          if r = [] then tok.getLast? else some (Char.ofNat 0), r.tail)

/-- The loop `line = strtok(output, "\n"); while (line) { body;
line = strtok(NULL, "\n"); }` run for at most `fuel` tokens.  `none`: the body
has no defined behaviour on some token (or `fuel` was too small, which the
length of the text plus one never is, see `strtok_loop_eq`). -/
def strtok_loop {σ : Type} (body : σ → Token → Option σ) :
    Nat → Option Char → List Char → σ → Option σ
  | 0, _, _, _ => none
  | fuel + 1, before, save, st =>
    match strtok before save with
    | none => some st
    | some (tok, b, save1) =>
      match body st tok with
      | none => none
      | some st1 => strtok_loop body fuel b save1 st1

/-- `parse_address` (symbol_query_ext.c:55) on a non-null string: `%p` reads
the hexadecimal digits that follow the `0x` prefix (glibc) into a 64-bit
pointer, keeping the largest pointer value on overflow; without the prefix the
result stays NULL (0). -/
def parse_address (str : List Char) : Nat :=
  if str.head? = some '0' ∧ (str.tail.head? = some 'x' ∨ str.tail.head? = some 'X') then
    min (hex_value ((str.drop 2).takeWhile isxdigit)) (2 ^ 64 - 1)
  else 0

/-! ## Source listing (data_ext.c) -/

/-- `mi_source_line` (data_ext.h). -/
structure mi_source_line where
  line_num : Int
  text : Option (List Char)
  has_breakpoint : Int
  is_current : Int
  deriving DecidableEq, Repr

/-- `mi_alloc_source_line`: one zero-valued node. -/
def mi_alloc_source_line : mi_source_line :=
  { line_num := 0, text := none, has_breakpoint := 0, is_current := 0 }

/-- Body of the loop of `gmi_source_list` (data_ext.c:114-145) for one token:
`list` is the chain built so far. -/
def source_list_line (list : List mi_source_line) (line : List Char) : List mi_source_line :=
  match sscanf_d line with
  | some line_num =>
    let text_start := line.dropWhile fun c => c = ' ' || c = '\t' || isdigit c
    list ++ [{ mi_alloc_source_line with
                 line_num := line_num
                 text := if text_start = [] then none else some text_start }]
  | none => list

/-- The parsing part of `gmi_source_list` (data_ext.c:112-151): the chain
returned for the captured text `output`. -/
def gmi_source_list_parse (output : List Char) : Option (List mi_source_line) :=
  strtok_loop (fun list tok => some (source_list_line list tok.text))
    (output.length + 1) none output []

/-! ## Function listing (symbol_query_ext.c) -/

/-- `mi_function` (symbol_query_ext.h); `addr` is the pointer value, 0 for
NULL. -/
structure mi_function where
  name : Option (List Char)
  file : Option (List Char)
  line : Int
  addr : Nat
  return_type : Option (List Char)
  signature : Option (List Char)
  is_static : Int
  deriving DecidableEq, Repr

/-- `mi_alloc_function`: one zero-valued node. -/
def mi_alloc_function : mi_function :=
  { name := none, file := none, line := 0, addr := 0, return_type := none,
    signature := none, is_static := 0 }

/-- State carried by the loop of `gmi_symbol_list_functions`: the contents of
`char current_file[512]` and the chain built so far. -/
structure functions_state where
  current_file : List Char
  list : List mi_function
  deriving DecidableEq, Repr

/-- The `File ` header branch shared by the function and the variable loop
(symbol_query_ext.c:251-256, 390-395): the new contents of `current_file`
after a header whose text behind `File ` is `file_start`.  `none`: the name
before the colon has 512 characters or more, so `strncpy` and the terminator
write past the end of the 512-byte array. -/
def file_header (current_file file_start : List Char) : Option (List Char) :=
  match strchr file_start ':' with
  | some n => if n < 512 then some (file_start.take n) else none
  | none => some current_file

/-- The record built for an address-prefixed line
(symbol_query_ext.c:259-291); `addr_buf` is the word read by `%31s`. -/
def function_entry (current_file line addr_buf : List Char) : mi_function :=
  let func := { mi_alloc_function with addr := parse_address addr_buf }
  match strchr line ' ' with
  | none => func
  | some i =>
    let name_start := (line.drop (i + 1)).dropWhile (· = ' ')
    let func1 :=
      match strpbrk name_start "( ".toList with
      | some name_end => { func with name := some (name_start.take name_end) }
      | none => func
    match strstr name_start " at ".toList with
    | some k =>
      let at_str := name_start.drop (k + 4)
      match strchr at_str ':' with
      | some colon =>
        { func1 with file := some (at_str.take colon), line := atoi (at_str.drop (colon + 1)) }
      | none => func1
    | none =>
      if current_file ≠ [] then { func1 with file := some current_file } else func1

/-- Body of the loop of `gmi_symbol_list_functions`
(symbol_query_ext.c:245-302) for one token. -/
def functions_line (st : functions_state) (tok : List Char) : Option functions_state :=
  let line := tok.dropWhile is_blank
  if line.take 5 = "File ".toList then
    (file_header st.current_file (line.drop 5)).map fun cf => { st with current_file := cf }
  else if line.head? = some '0' ∧ line.tail.head? = some 'x' then
    match sscanf_31s line with
    | none => none
    | some addr_buf =>
      some { st with list := st.list ++ [function_entry st.current_file line addr_buf] }
  else some st

/-- The parsing part of `gmi_symbol_list_functions`
(symbol_query_ext.c:242-308): the chain returned for the captured text
`output`. -/
def gmi_symbol_list_functions_parse (output : List Char) : Option (List mi_function) :=
  (strtok_loop (fun st tok => functions_line st tok.text) (output.length + 1) none output
    { current_file := [], list := [] }).map fun st => st.list

/-! ## Variable listing (symbol_query_ext.c) -/

/-- `mi_variable` (symbol_query_ext.h). -/
structure mi_variable where
  name : Option (List Char)
  type : Option (List Char)
  file : Option (List Char)
  line : Int
  is_static : Int
  is_global : Int
  addr : Nat
  deriving DecidableEq, Repr

/-- `mi_alloc_variable`: one zero-valued node. -/
def mi_alloc_variable : mi_variable :=
  { name := none, type := none, file := none, line := 0, is_static := 0, is_global := 0,
    addr := 0 }

/-- State carried by the loop of `gmi_symbol_list_variables`. -/
structure variables_state where
  current_file : List Char
  list : List mi_variable
  deriving DecidableEq, Repr

/-- The loop `while (name_start > line && *name_start != ' ' &&
*name_start != '*') name_start--;` started at offset `i` of `line`; returns the
offset at which it stops. -/
def scan_back (line : List Char) : Nat → Nat
  | 0 => 0
  | i + 1 =>
    if line.get? (i + 1) ≠ some ' ' ∧ line.get? (i + 1) ≠ some '*' then scan_back line i
    else i + 1

/-- Name and type copied for a variable line whose first `;` is at offset
`semicolon` (symbol_query_ext.c:405-412).  `before` is the byte stored just
before `line`.  With `semicolon = 0` the scan starts at offset -1: the byte
before the line is read (`none` when there is none inside the buffer), and
when it is neither a space nor `*` the name is copied from there and the type
length `name_start - line = -1` becomes the largest `size_t`, so the whole line
is copied. -/
def variable_name_type (before : Option Char) (line : List Char) (semicolon : Nat) :
    Option (List Char × List Char) :=
  match semicolon with
  | 0 =>
    match before with
    | none => none
    | some c =>
      if c = ' ' ∨ c = '*' then some ([], [])
      else some (if c = Char.ofNat 0 then [] else [c], line)
  | s + 1 =>
    let stop := scan_back line s
    let name_start :=
      if line.get? stop = some ' ' ∨ line.get? stop = some '*' then stop + 1 else stop
    some ((line.drop name_start).take (s + 1 - name_start), line.take name_start)

/-- Body of the loop of `gmi_symbol_list_variables`
(symbol_query_ext.c:386-431) for one token. -/
def variables_line (st : variables_state) (tok : Token) : Option variables_state :=
  let line := tok.text.dropWhile is_blank
  let before := if line.length < tok.text.length then (tok.text.takeWhile is_blank).getLast?
                else tok.before
  if line.take 5 = "File ".toList then
    (file_header st.current_file (line.drop 5)).map fun cf => { st with current_file := cf }
  else if line ≠ [] ∧ line.head? ≠ some 'N' then
    match strchr line ';' with
    | some semicolon =>
      (variable_name_type before line semicolon).map fun nt =>
        { st with list := st.list ++ [{ mi_alloc_variable with
            name := some nt.1
            type := some nt.2
            file := if st.current_file ≠ [] then some st.current_file else none
            is_static := if (strstr line "static".toList).isSome then 1 else 0 }] }
    | none => some st
  else some st

/-- The parsing part of `gmi_symbol_list_variables`
(symbol_query_ext.c:383-437): the chain returned for the captured text
`output`. -/
def gmi_symbol_list_variables_parse (output : List Char) : Option (List mi_variable) :=
  (strtok_loop variables_line (output.length + 1) none output
    { current_file := [], list := [] }).map fun st => st.list

/-! ## Observing the transport -/

/-- The handle seen by the wrapped transport of `logged`. -/
def mi_h.inner {σ : Type} (h : mi_h (σ × List (List Char))) : mi_h σ :=
  { catch_console := h.catch_console, catched_console := h.catched_console, ext := h.ext.1 }

/-- Put a log next to a handle state. -/
def mi_h.withLog {σ : Type} (h : mi_h σ) (log : List (List Char)) :
    mi_h (σ × List (List Char)) :=
  { catch_console := h.catch_console, catched_console := h.catched_console, ext := (h.ext, log) }

/-- The transport `T` with a log of every command passed to `mi_send`, in call
order.  `T` itself neither sees nor changes the log. -/
def logged {σ : Type} (T : Transport σ) : Transport (σ × List (List Char)) where
  mi_send h c := (T.mi_send h.inner c).withLog (h.ext.2 ++ [c])
  mi_get_response h :=
    ((T.mi_get_response h.inner).1, (T.mi_get_response h.inner).2.withLog h.ext.2)
  mi_res_bkpt h := ((T.mi_res_bkpt h.inner).1, (T.mi_res_bkpt h.inner).2.withLog h.ext.2)

/-- The commands passed to `mi_send` so far, for a handle of `logged T`. -/
def sent {σ : Type} (h : Option (mi_h (σ × List (List Char)))) : List (List Char) :=
  match h with
  | some h0 => h0.ext.2
  | none => []

/-- The catchpoint command grammar of the specification,
`[t]catch <event>[ <filter>]`. -/
def catch_grammar (temporary : Int) (event : List Char) (filter : Option (List Char)) :
    List Char :=
  (if temporary ≠ 0 then ['t'] else []) ++ "catch ".toList ++ event ++
    (match filter with
     | some f => ' ' :: f
     | none => [])

/-- The request a caller makes through one of the eight catchpoint operations
(the `temporary` flag apart). -/
inductive catch_request where
  | exception (is_throw : Int)
  | exec
  | fork (is_vfork : Int)
  | load (regexp : Option (List Char))
  | unload (regexp : Option (List Char))
  | syscall (syscall_name : Option (List Char))
  | signal (signal_name : Option (List Char))
  | assertion

/-- The operation that serves a request. -/
def gmi_catch {σ : Type} (T : Transport σ) (h : Option (mi_h σ)) (temporary : Int) :
    catch_request → Option mi_catch × Option (mi_h σ)
  | catch_request.exception is_throw => gmi_catch_exception T h is_throw temporary
  | catch_request.exec => gmi_catch_exec T h temporary
  | catch_request.fork is_vfork => gmi_catch_fork T h is_vfork temporary
  | catch_request.load regexp => gmi_catch_load T h regexp temporary
  | catch_request.unload regexp => gmi_catch_unload T h regexp temporary
  | catch_request.syscall syscall_name => gmi_catch_syscall T h syscall_name temporary
  | catch_request.signal signal_name => gmi_catch_signal T h signal_name temporary
  | catch_request.assertion => gmi_catch_assert T h temporary

/-- The `<event>` keyword of a request. -/
def catch_request.keyword : catch_request → List Char
  | catch_request.exception is_throw => if is_throw ≠ 0 then "throw".toList else "catch".toList
  | catch_request.exec => "exec".toList
  | catch_request.fork is_vfork => if is_vfork ≠ 0 then "vfork".toList else "fork".toList
  | catch_request.load _ => "load".toList
  | catch_request.unload _ => "unload".toList
  | catch_request.syscall _ => "syscall".toList
  | catch_request.signal _ => "signal".toList
  | catch_request.assertion => "assert".toList

/-- The optional filter of a request. -/
def catch_request.filter : catch_request → Option (List Char)
  | catch_request.load regexp => regexp
  | catch_request.unload regexp => regexp
  | catch_request.syscall syscall_name => syscall_name
  | catch_request.signal signal_name => signal_name
  | _ => none

/-- The catchpoint type that belongs to a request. -/
def catch_request.kind : catch_request → mi_catch_type
  | catch_request.exception is_throw =>
    if is_throw ≠ 0 then mi_catch_type.mi_catch_throw else mi_catch_type.mi_catch_catch
  | catch_request.exec => mi_catch_type.mi_catch_exec
  | catch_request.fork is_vfork =>
    if is_vfork ≠ 0 then mi_catch_type.mi_catch_vfork else mi_catch_type.mi_catch_fork
  | catch_request.load _ => mi_catch_type.mi_catch_load
  | catch_request.unload _ => mi_catch_type.mi_catch_unload
  | catch_request.syscall _ => mi_catch_type.mi_catch_syscall
  | catch_request.signal _ => mi_catch_type.mi_catch_signal
  | catch_request.assertion => mi_catch_type.mi_catch_assert

/-! ## The transport of the specification -/

/-- Modelled from the spec: what the debugger delivers in answer to one
command (the transport of `mi_gdb.h` is not among the sources): the console
fragments in arrival order, whether the terminal response arrives, and the
breakpoint record that the reply parses to. -/
structure Reply where
  fragments : List (List Char)
  terminal : Bool
  bkpt : Option mi_bkpt

/-- Modelled from the spec: the debugger side of a handle: the replies to the
commands still to come and the record parsed from the reply awaited last. -/
structure Debugger where
  replies : List Reply
  last : Option mi_bkpt

/-- Modelled from the spec: arrival of one console fragment: appended to the
capture buffer while capture mode is active, discarded otherwise. -/
def deliver (h : mi_h Debugger) (fragment : List Char) : mi_h Debugger :=
  if h.catch_console ≠ 0 then
    { h with catched_console := some (h.catched_console.getD [] ++ fragment) }
  else h

/-- Modelled from the spec: the transport collaborator of the specification
(section 6): a send operation, an append-on-arrival capture buffer and a
blocking wait that reports whether the terminal response arrived. -/
def spec_transport : Transport Debugger where
  mi_send h _ := h
  mi_get_response h :=
    match h.ext.replies with
    | [] => (0, h)
    | r :: rest =>
      (if r.terminal then 1 else 0,
       { r.fragments.foldl deliver h with ext := { replies := rest, last := r.bkpt } })
  mi_res_bkpt h := (h.ext.last, h)

/-! ## Reference notions used in the statements -/

/-- The newline-separated non-empty lines of a text, in order of appearance. -/
def text_lines (s : List Char) : List (List Char) :=
  (s.splitOn '\n').filter fun l => !l.isEmpty

/-- The record that `gmi_source_list` emits for one line, if any. -/
def source_record (line : List Char) : Option mi_source_line :=
  (sscanf_d line).map fun n =>
    { mi_alloc_source_line with
        line_num := n
        text := if (line.dropWhile fun c => c = ' ' || c = '\t' || isdigit c) = [] then none
                else some (line.dropWhile fun c => c = ' ' || c = '\t' || isdigit c) }

/-- The integer that a line begins with, as the specification reads it: behind
optional white space an optional sign and a non-empty run of decimal digits,
taken at its mathematical value, however large; `none` when the line does not
begin this way. -/
def leading_integer (line : List Char) : Option Int :=
  let s1 := line.dropWhile isspace
  let s2 := if s1.head? = some '-' ∨ s1.head? = some '+' then s1.tail else s1
  let ds := s2.takeWhile isdigit
  if ds = [] then none
  else some (if s1.head? = some '-' then -(dec_value ds : Int) else (dec_value ds : Int))

/-- The integer that a line begins with, if any, lies in the range of `int`,
the type of `line_num`. -/
def line_number_in_range (line : List Char) : Bool :=
  match leading_integer line with
  | some n => decide (-(2 ^ 31) ≤ n ∧ n < 2 ^ 31)
  | none => true

/-- A character that is neither a space nor `*`. -/
def name_char (c : Char) : Bool :=
  c ≠ ' ' && c ≠ '*'

/-! ## Number formatting -/

/-- The text printed by the `%d` directive. -/
def format_d (n : Int) : List Char :=
  if n < 0 then '-' :: Nat.toDigits 10 n.natAbs else Nat.toDigits 10 n.natAbs

/-- The text printed by the `%p` directive (glibc): `0x` and the lower-case
hexadecimal digits of the pointer, `(nil)` for the null pointer. -/
def format_p (a : Nat) : List Char :=
  if a = 0 then "(nil)".toList else '0' :: 'x' :: Nat.toDigits 16 a

/-! ## Source listing operations (data_ext.c) -/

/-- `gmi_source_list` (data_ext.c:81).  The chain is the list of its records,
`[]` for NULL.  `start + count - 1` is evaluated in `int`; an overflow,
undefined in C, is modelled as wrap-around. -/
def gmi_source_list {σ : Type} (T : Transport σ) (h : Option (mi_h σ))
    (file : Option (List Char)) (start count : Int) :
    List mi_source_line × Option (mi_h σ) :=
  match h with
  | none => ([], none)
  | some h0 =>
    let cmd :=
      match file with
      | some f =>
        if start > 0 then
          if count > 0 then
            snprintf 512 ("list ".toList ++ f ++ ":".toList ++ format_d start ++ ",".toList ++
              format_d (to_int32 (start + count - 1)))
          else snprintf 512 ("list ".toList ++ f ++ ":".toList ++ format_d start)
        else snprintf 512 ("list ".toList ++ f ++ ":1".toList)
      | none =>
        if count > 0 then snprintf 512 ("list *$pc,".toList ++ format_d count)
        else snprintf 512 "list".toList
    let r := send_cli_command T (some h0) (some cmd)
    (match r.1 with
     | none => []
     | some output =>
       match gmi_source_list_parse output with
       | some list => list
       | none => [],
     r.2)

/-- `gmi_source_list_function` (data_ext.c:154).  The command written into the
local buffer `cmd` is `snprintf 512 ("list " ++ function)`; the buffer is not
used afterwards. -/
def gmi_source_list_function {σ : Type} (T : Transport σ) (h : Option (mi_h σ))
    (function : Option (List Char)) : List mi_source_line × Option (mi_h σ) :=
  match h, function with
  | none, _ => ([], none)
  | some h0, none => ([], some h0)
  | some h0, some _ => gmi_source_list T (some h0) none 0 0

/-- `gmi_source_list_address` (data_ext.c:168); `addr` is the pointer value, 0
for NULL. -/
def gmi_source_list_address {σ : Type} (T : Transport σ) (h : Option (mi_h σ))
    (addr : Nat) : List mi_source_line × Option (mi_h σ) :=
  match h with
  | none => ([], none)
  | some h0 =>
    if addr = 0 then ([], some h0)
    else
      let cmd := snprintf 512 ("list *".toList ++ format_p addr)
      let r := send_cli_command T (some h0) (some cmd)
      match r.1 with
      | none => ([], r.2)
      | some _ => gmi_source_list T r.2 none 0 10

/-- Modelled from the spec: the fields of `mi_frames` (`mi_gdb.h`, not among
the sources) read by `gmi_source_current_line`. -/
structure mi_frames where
  file : Option (List Char)
  line : Int

/-- `gmi_source_current_line` (data_ext.c:186).  `stack_info_frame` is the
library function `gmi_stack_info_frame`, whose code is not among the sources:
a parameter. -/
def gmi_source_current_line {σ : Type} (T : Transport σ)
    (stack_info_frame : mi_h σ → Option mi_frames × mi_h σ) (h : Option (mi_h σ)) :
    List mi_source_line × Option (mi_h σ) :=
  match h with
  | none => ([], none)
  | some h0 =>
    let fr := stack_info_frame h0
    match fr.1 with
    | none => ([], some fr.2)
    | some frame =>
      let r := gmi_source_list T (some fr.2) frame.file frame.line 1
      (match r.1 with
       | [] => []
       | first :: others => { first with is_current := 1 } :: others,
       r.2)

/-! ## Symbol queries (symbol_query_ext.c) -/

/-- `mi_symbol` (symbol_query_ext.h); `addr` is the pointer value, 0 for
NULL. -/
structure mi_symbol where
  name : Option (List Char)
  type : Option (List Char)
  addr : Nat
  file : Option (List Char)
  line : Int
  linkage_name : Option (List Char)
  deriving DecidableEq, Repr

/-- `mi_alloc_symbol`: one zero-valued node. -/
def mi_alloc_symbol : mi_symbol :=
  { name := none, type := none, addr := 0, file := none, line := 0, linkage_name := none }

/-- The address stored by `gmi_symbol_info_address`
(symbol_query_ext.c:97-102): the word at the first `0x` of the text is read
with `%31s` and given to `parse_address`; without `0x` the field stays NULL
(0).  The word always exists, because the text at `addr_str` begins with `0x`;
the branch without a word is never taken. -/
def symbol_address (output : List Char) : Nat :=
  match strstr output "0x".toList with
  | some addr_str =>
    match sscanf_31s (output.drop addr_str) with
    | some addr_buf => parse_address addr_buf
    | none => 0
  | none => 0

/-- The record built by `gmi_symbol_info_address` from the captured text
(symbol_query_ext.c:84-113). -/
def symbol_info_address_record (symbol output : List Char) : mi_symbol :=
  { mi_alloc_symbol with
      name := some symbol
      addr := symbol_address output
      type :=
        if (strstr output "is a function".toList).isSome then some "function".toList
        else if (strstr output "is a variable".toList).isSome then some "variable".toList
        else if (strstr output "is static".toList).isSome then some "static".toList
        else none }

/-- `gmi_symbol_info_address` (symbol_query_ext.c:66). -/
def gmi_symbol_info_address {σ : Type} (T : Transport σ) (h : Option (mi_h σ))
    (symbol : Option (List Char)) : Option mi_symbol × Option (mi_h σ) :=
  match h, symbol with
  | none, _ => (none, none)
  | some h0, none => (none, some h0)
  | some h0, some sym =>
    let cmd := snprintf 512 ("info address ".toList ++ sym)
    let r := send_cli_command T (some h0) (some cmd)
    (r.1.map fun output => symbol_info_address_record sym output, r.2)

/-- `gmi_symbol_at_address` (symbol_query_ext.c:119). -/
def gmi_symbol_at_address {σ : Type} (T : Transport σ) (h : Option (mi_h σ))
    (addr : Nat) : Option mi_symbol × Option (mi_h σ) :=
  match h with
  | none => (none, none)
  | some h0 =>
    if addr = 0 then (none, some h0)
    else
      let cmd := snprintf 512 ("info symbol ".toList ++ format_p addr)
      let r := send_cli_command T (some h0) (some cmd)
      (r.1.map fun output =>
          let sym := { mi_alloc_symbol with addr := addr }
          match strchr output ' ' with
          | some len => { sym with name := some (output.take len) }
          | none => sym,
       r.2)

/-- `mi_line_info` (symbol_query_ext.h). -/
structure mi_line_info where
  file : Option (List Char)
  line : Int
  start_addr : Nat
  end_addr : Nat
  deriving DecidableEq, Repr

/-- `mi_alloc_line_info`: one zero-valued node. -/
def mi_alloc_line_info : mi_line_info :=
  { file := none, line := 0, start_addr := 0, end_addr := 0 }

/-- The address `gmi_symbol_info_line` stores for one marker
(symbol_query_ext.c:194-200, 202-208): 0 (the field stays NULL) when the
marker is not in the text; otherwise the word behind the first marker is read
with `%31s` and given to `parse_address`.  `none`: nothing but white space
follows the marker, `sscanf` stores nothing and `parse_address` reads the
uninitialised array `addr_buf`. -/
def line_info_address (output marker : List Char) : Option Nat :=
  match strstr output marker with
  | none => some 0
  | some k =>
    match sscanf_31s (output.drop (k + marker.length)) with
    | none => none
    | some addr_buf => some (parse_address addr_buf)

/-- The record built by `gmi_symbol_info_line` from the captured text
(symbol_query_ext.c:180-211); `none`: no defined behaviour. -/
def line_info_record (file : List Char) (line : Int) (output : List Char) :
    Option mi_line_info :=
  match line_info_address output "starts at address ".toList with
  | none => none
  | some start_addr =>
    match line_info_address output "ends at ".toList with
    | none => none
    | some end_addr =>
      some { mi_alloc_line_info with
               file := some file
               line := line
               start_addr := start_addr
               end_addr := end_addr }

/-- `gmi_symbol_info_line` (symbol_query_ext.c:163).  First component: `none`
when the C program has no defined behaviour, otherwise the returned pointer
(`some none` for NULL). -/
def gmi_symbol_info_line {σ : Type} (T : Transport σ) (h : Option (mi_h σ))
    (file : Option (List Char)) (line : Int) :
    Option (Option mi_line_info) × Option (mi_h σ) :=
  match h, file with
  | none, _ => (some none, none)
  | some h0, none => (some none, some h0)
  | some h0, some f =>
    if line < 1 then (some none, some h0)
    else
      let cmd := snprintf 512 ("info line ".toList ++ f ++ ":".toList ++ format_d line)
      let r := send_cli_command T (some h0) (some cmd)
      (match r.1 with
       | none => some none
       | some output => (line_info_record f line output).map some,
       r.2)

/-- `gmi_symbol_list_functions` (symbol_query_ext.c:217).  First component:
`none` when the C program has no defined behaviour, otherwise the returned
chain (`[]` for NULL). -/
def gmi_symbol_list_functions {σ : Type} (T : Transport σ) (h : Option (mi_h σ))
    (regexp : Option (List Char)) : Option (List mi_function) × Option (mi_h σ) :=
  match h with
  | none => (some [], none)
  | some h0 =>
    let cmd :=
      match regexp with
      | some re => snprintf 512 ("info functions ".toList ++ re)
      | none => snprintf 512 "info functions".toList
    let r := send_cli_command T (some h0) (some cmd)
    (match r.1 with
     | none => some []
     | some output => gmi_symbol_list_functions_parse output,
     r.2)

/-- `mi_type_info` (symbol_query_ext.h). -/
structure mi_type_info where
  name : Option (List Char)
  kind : Option (List Char)
  size : Int
  file : Option (List Char)
  line : Int
  members : Option (List Char)
  deriving DecidableEq, Repr

/-- `mi_alloc_type_info`: one zero-valued node. -/
def mi_alloc_type_info : mi_type_info :=
  { name := none, kind := none, size := 0, file := none, line := 0, members := none }

/-- `gmi_symbol_ptype` (symbol_query_ext.c:314). -/
def gmi_symbol_ptype {σ : Type} (T : Transport σ) (h : Option (mi_h σ))
    (type_name : Option (List Char)) : Option mi_type_info × Option (mi_h σ) :=
  match h, type_name with
  | none, _ => (none, none)
  | some h0, none => (none, some h0)
  | some h0, some tn =>
    let cmd := snprintf 512 ("ptype ".toList ++ tn)
    let r := send_cli_command T (some h0) (some cmd)
    (r.1.map fun output =>
        let kind :=
          if (strstr output "type = struct".toList).isSome then "struct".toList
          else if (strstr output "type = union".toList).isSome then "union".toList
          else if (strstr output "type = enum".toList).isSome then "enum".toList
          else if (strstr output "type = class".toList).isSome then "class".toList
          else "other".toList
        { mi_alloc_type_info with
            name := some tn
            kind := some kind
            members := some output },
     r.2)

/-- `gmi_symbol_list_variables` (symbol_query_ext.c:363).  First component as
for `gmi_symbol_list_functions`. -/
def gmi_symbol_list_variables {σ : Type} (T : Transport σ) (h : Option (mi_h σ))
    (regexp : Option (List Char)) : Option (List mi_variable) × Option (mi_h σ) :=
  match h with
  | none => (some [], none)
  | some h0 =>
    let cmd :=
      match regexp with
      | some re => snprintf 512 ("info variables ".toList ++ re)
      | none => snprintf 512 "info variables".toList
    let r := send_cli_command T (some h0) (some cmd)
    (match r.1 with
     | none => some []
     | some output => gmi_symbol_list_variables_parse output,
     r.2)

/-! ## Reference notions for the operations -/

/-- The library function `gmi_stack_info_frame` seen through `logged`: it
neither sees nor changes the log. -/
def logged_frame {σ : Type} (F : mi_h σ → Option mi_frames × mi_h σ) :
    mi_h (σ × List (List Char)) → Option mi_frames × mi_h (σ × List (List Char)) :=
  fun h => ((F h.inner).1, (F h.inner).2.withLog h.ext.2)

/-- A call of one of the public operations that dispatch with capture. -/
inductive core_operation where
  | source_list (file : Option (List Char)) (start count : Int)
  | source_list_function (function : Option (List Char))
  | source_list_address (addr : Nat)
  | source_current_line
  | symbol_info_address (symbol : Option (List Char))
  | symbol_at_address (addr : Nat)
  | symbol_info_line (file : Option (List Char)) (line : Int)
  | symbol_list_functions (regexp : Option (List Char))
  | symbol_ptype (type_name : Option (List Char))
  | symbol_list_variables (regexp : Option (List Char))

/-- The handle that a call leaves behind. -/
def core_operation.after {σ : Type} (T : Transport σ)
    (stack_info_frame : mi_h σ → Option mi_frames × mi_h σ) (h : Option (mi_h σ)) :
    core_operation → Option (mi_h σ)
  | core_operation.source_list file start count => (gmi_source_list T h file start count).2
  | core_operation.source_list_function function => (gmi_source_list_function T h function).2
  | core_operation.source_list_address addr => (gmi_source_list_address T h addr).2
  | core_operation.source_current_line => (gmi_source_current_line T stack_info_frame h).2
  | core_operation.symbol_info_address symbol => (gmi_symbol_info_address T h symbol).2
  | core_operation.symbol_at_address addr => (gmi_symbol_at_address T h addr).2
  | core_operation.symbol_info_line file line => (gmi_symbol_info_line T h file line).2
  | core_operation.symbol_list_functions regexp => (gmi_symbol_list_functions T h regexp).2
  | core_operation.symbol_ptype type_name => (gmi_symbol_ptype T h type_name).2
  | core_operation.symbol_list_variables regexp => (gmi_symbol_list_variables T h regexp).2

/-- The largest number of dispatches of a call: two for
`gmi_source_list_address`, one for the others. -/
def core_operation.dispatch_bound : core_operation → Nat
  | core_operation.source_list_address _ => 2
  | _ => 1

/-- The source listing commands of the specification. -/
def list_grammar (file : Option (List Char)) (start count : Int) : List Char :=
  match file with
  | some f =>
    if 0 < start ∧ 0 < count then
      "list ".toList ++ f ++ [':'] ++ format_d start ++ [','] ++ format_d (start + count - 1)
    else if 0 < start then "list ".toList ++ f ++ [':'] ++ format_d start
    else "list ".toList ++ f ++ ":1".toList
  | none => if 0 < count then "list *$pc,".toList ++ format_d count else "list".toList

/-- The type tag of the specification for a captured text. -/
def symbol_tag (output : List Char) : Option (List Char) :=
  if "is a function".toList <:+: output then some "function".toList
  else if "is a variable".toList <:+: output then some "variable".toList
  else if "is static".toList <:+: output then some "static".toList
  else none

/-- The kind of the specification for a captured `ptype` body. -/
def ptype_kind (body : List Char) : List Char :=
  if "type = struct".toList <:+: body then "struct".toList
  else if "type = union".toList <:+: body then "union".toList
  else if "type = enum".toList <:+: body then "enum".toList
  else if "type = class".toList <:+: body then "class".toList
  else "other".toList

/-- A marker of `gmi_symbol_info_line` and the address that the specification
attaches to it: 0 (unset) when the marker is not in the text; otherwise the
value of the hexadecimal token `0x<hex>` that directly follows the first
marker, for a token of at most 31 characters that ends there (the next
character is no hexadecimal digit) and whose value is below 2^64. -/
def hex_token_after (output marker : List Char) (v : Nat) : Prop :=
  (strstr output marker = none ∧ v = 0) ∨
  ∃ (k : Nat) (hex rest : List Char),
    strstr output marker = some k ∧
    output.drop (k + marker.length) = '0' :: 'x' :: hex ++ rest ∧
    (∀ c ∈ hex, isxdigit c = true) ∧ hex.length + 2 ≤ 31 ∧
    (∀ c, rest.head? = some c → isxdigit c = false) ∧
    hex_value hex < 2 ^ 64 ∧ v = hex_value hex

/-- The reply to `info address` in the documented shape. -/
def address_reply (name hex : List Char) : List Char :=
  "Symbol \"".toList ++ name ++ "\" is at 0x".toList ++ hex ++
    " in a file compiled without debugging.".toList

/-! ## Reference notions for the listing extractors -/

/-- A token that, behind its leading spaces and tabs, is a `File ` header. -/
def is_file_header (tok : List Char) : Bool :=
  (tok.dropWhile is_blank).take 5 = "File ".toList

/-- A token that, behind its leading spaces and tabs, begins with `0x`. -/
def is_entry_line (tok : List Char) : Bool :=
  (tok.dropWhile is_blank).head? = some '0' ∧ (tok.dropWhile is_blank).tail.head? = some 'x'

/-- The name of a `File ` header fits the 512-byte array `current_file`: the
text between `File ` and the first colon has at most 511 characters (or there
is no colon, and nothing is copied). -/
def header_fits (tok : List Char) : Bool :=
  match strchr ((tok.dropWhile is_blank).drop 5) ':' with
  | some n => n < 512
  | none => true

/-- The record `f` is the one that the loop body of
`gmi_symbol_list_functions` appends for the token `tok`. -/
def function_record_of (f : mi_function) (tok : List Char) : Prop :=
  ∃ st : functions_state, functions_line st tok = some { st with list := st.list ++ [f] }

/-- A token that `gmi_symbol_list_variables` takes for a variable line with a
declaration terminator: behind its leading spaces and tabs it is not a `File `
header and does not begin with `N`, and it contains a `;`. -/
def is_variable_line (tok : List Char) : Bool :=
  !is_file_header tok && decide ((tok.dropWhile is_blank).head? ≠ some 'N') &&
    decide (';' ∈ tok)

/-- The record `v` is the one that the loop body of
`gmi_symbol_list_variables` appends for the token `tok` (for some byte stored
before the token). -/
def variable_record_of (v : mi_variable) (tok : List Char) : Prop :=
  ∃ (st : variables_state) (before : Option Char),
    variables_line st ⟨before, tok⟩ = some { st with list := st.list ++ [v] }

/-! ## The name scan of the variable listing -/

/-- What the scan for the start of the name does on a variable line
(symbol_query_ext.c:405-412): the offsets from `line` at which a character is
read, in order; the final `name_start` as an offset from `line`; and the two
lengths given to `strndup`, `semicolon - name_start` for the name and
`name_start - line` for the type, as signed differences (the second parameter
of `strndup` is a `size_t`: a negative length arrives as 2^64 plus its value). -/
structure name_scan where
  reads : List Int
  name_start : Int
  name_length : Int
  type_length : Int
  deriving DecidableEq, Repr

/-- The offsets read by the loop `while (name_start > line &&
*name_start != ' ' && *name_start != '*') name_start--;` started at offset `i`:
at offset 0 the first test fails and nothing is read. -/
def scan_back_reads (line : List Char) : Nat → List Int
  | 0 => []
  | i + 1 =>
    ((i + 1 : Nat) : Int) ::
      (if line.get? (i + 1) ≠ some ' ' ∧ line.get? (i + 1) ≠ some '*' then scan_back_reads line i
       else [])

/-- The scan of `gmi_symbol_list_variables` for a line whose first `;` is at
offset `semicolon`; `before` is the byte stored just before the line.  With
`semicolon = 0` the scan starts at `line - 1`: the loop reads nothing and the
test after it reads offset -1. -/
def variable_name_scan (before : Char) (line : List Char) (semicolon : Nat) : name_scan :=
  match semicolon with
  | 0 =>
    let name_start : Int := if before = ' ' ∨ before = '*' then 0 else -1
    { reads := [-1], name_start := name_start, name_length := 0 - name_start,
      type_length := name_start }
  | s + 1 =>
    let stop := scan_back line s
    let name_start :=
      if line.get? stop = some ' ' ∨ line.get? stop = some '*' then stop + 1 else stop
    { reads := scan_back_reads line s ++ [(stop : Int)], name_start := name_start,
      name_length := ((s + 1 : Nat) : Int) - name_start, type_length := name_start }

/-! ## Memory write (data_ext.c) -/

/-- The two characters printed by `%02x` for one `unsigned char`. -/
def format_02x (b : Nat) : List Char :=
  [Nat.digitChar (b % 256 / 16), Nat.digitChar (b % 16)]

/-- The text printed by the `%u` directive. -/
def format_u (n : Nat) : List Char :=
  Nat.toDigits 10 n

/-- The loop `for (i = 0; i < size; i++) snprintf(hex_data + i*2, 3, "%02x",
data[i]);` of `gmi_data_write_memory` with `n` rounds still to run from index
`i`; `acc` is the text written so far.  Round `i` reads `data[i]` and writes
the bytes `2i`, `2i+1` and the terminator at `2i+2` of `char hex_data[512]`.
`none`: a read behind the end of `data` or a write behind the end of
`hex_data`. -/
def hex_data_loop (data : List Nat) : Nat → Nat → List Char → Option (List Char)
  | 0, _, acc => some acc
  | n + 1, i, acc =>
    match data.get? i with
    | none => none
    | some b =>
      if 2 * i + 2 < 512 then hex_data_loop data n (i + 1) (acc ++ format_02x b) else none

/-- The complete text of the format `set {unsigned char[%u]}(%s) = {%s}` of
`gmi_data_write_memory` for the arguments `size`, `addr` and `hex_data`. -/
def write_memory_format (size : Nat) (addr hex_data : List Char) : List Char :=
  "set \x7bunsigned char[".toList ++ format_u size ++ "]\x7d(".toList ++ addr ++
    ") = \x7b".toList ++ hex_data ++ "\x7d".toList

/-- `gmi_data_write_memory` (data_ext.c:15).  `data` holds the bytes that the
pointer `data` points to, `size` is the `unsigned int` argument (below 2^32),
and `mi_res_simple_done` is the library function of that name, whose code is
not among the sources.  `size * 2` is computed in `unsigned int`.  The first
component is the `int` returned, `none` when the call has no defined
behaviour. -/
def gmi_data_write_memory {σ : Type} (T : Transport σ)
    (mi_res_simple_done : mi_h σ → Int × mi_h σ) (h : Option (mi_h σ))
    (addr : Option (List Char)) (data : Option (List Nat)) (size : Nat) :
    Option Int × Option (mi_h σ) :=
  match h, addr, data with
  | some h0, some a, some d =>
    if size = 0 then (some 0, some h0)
    else if size * 2 % 2 ^ 32 ≥ 512 then (some 0, some h0)
    else
      match hex_data_loop d size 0 [] with
      | none => (none, some h0)
      | some hex =>
        let hex_data := hex.take (size * 2 % 2 ^ 32)
        let cmd := snprintf 1024 (write_memory_format size a hex_data)
        let r := mi_res_simple_done (T.mi_send h0 cmd)
        (some r.1, some r.2)
  | _, _, _ => (some 0, h)

/-- The hexadecimal text of the specification for the bytes `data`: two
lower-case digits for each byte, high digit first. -/
def hex_text (data : List Nat) : List Char :=
  data.flatMap fun b => [Nat.digitChar (b % 256 / 16), Nat.digitChar (b % 16)]

/-! ## Deallocation -/

/-- `free(p)` as the list of blocks it releases: the block at `p`, none for
the null pointer. -/
def free (p : Option Nat) : List Nat :=
  p.toList

/-- The pointers of a `mi_catch` node in memory: its own address and the
`char *` fields of the structure (catchpoint.h), `none` for NULL. -/
structure catch_node where
  self : Nat
  condition : Option Nat
  event : Option Nat
  deriving DecidableEq, Repr

/-- The pointers of a `mi_source_line` node in memory (data_ext.h). -/
structure source_line_node where
  self : Nat
  text : Option Nat
  deriving DecidableEq, Repr

/-- The pointers of a `mi_symbol` node in memory (symbol_query_ext.h); `addr`
is a debuggee address, not a block of the library. -/
structure symbol_node where
  self : Nat
  name : Option Nat
  type : Option Nat
  file : Option Nat
  linkage_name : Option Nat
  deriving DecidableEq, Repr

/-- The pointers of a `mi_line_info` node in memory (symbol_query_ext.h). -/
structure line_info_node where
  self : Nat
  file : Option Nat
  deriving DecidableEq, Repr

/-- The pointers of a `mi_function` node in memory (symbol_query_ext.h). -/
structure function_node where
  self : Nat
  name : Option Nat
  file : Option Nat
  return_type : Option Nat
  signature : Option Nat
  deriving DecidableEq, Repr

/-- The pointers of a `mi_type_info` node in memory (symbol_query_ext.h). -/
structure type_info_node where
  self : Nat
  name : Option Nat
  kind : Option Nat
  file : Option Nat
  members : Option Nat
  deriving DecidableEq, Repr

/-- The pointers of a `mi_variable` node in memory (symbol_query_ext.h). -/
structure variable_node where
  self : Nat
  name : Option Nat
  type : Option Nat
  file : Option Nat
  deriving DecidableEq, Repr

/-- `mi_free_catch` (catchpoint.c:226) on the chain that starts at `c`: the
blocks passed to `free`, in call order. -/
def mi_free_catch : List catch_node → List Nat
  | [] => []
  | c :: next => free c.condition ++ free c.event ++ mi_free_catch next ++ free (some c.self)

/-- `mi_free_source_line` (data_ext.c:220). -/
def mi_free_source_line : List source_line_node → List Nat
  | [] => []
  | line :: next => free line.text ++ mi_free_source_line next ++ free (some line.self)

/-- `mi_free_symbol` (symbol_query_ext.c:462). -/
def mi_free_symbol : List symbol_node → List Nat
  | [] => []
  | s :: next =>
    free s.name ++ free s.type ++ free s.file ++ free s.linkage_name ++ mi_free_symbol next ++
      free (some s.self)

/-- `mi_free_line_info` (symbol_query_ext.c:472). -/
def mi_free_line_info : List line_info_node → List Nat
  | [] => []
  | l :: next => free l.file ++ mi_free_line_info next ++ free (some l.self)

/-- `mi_free_function` (symbol_query_ext.c:479). -/
def mi_free_function : List function_node → List Nat
  | [] => []
  | f :: next =>
    free f.name ++ free f.file ++ free f.return_type ++ free f.signature ++
      mi_free_function next ++ free (some f.self)

/-- `mi_free_type_info` (symbol_query_ext.c:489). -/
def mi_free_type_info : List type_info_node → List Nat
  | [] => []
  | t :: next =>
    free t.name ++ free t.kind ++ free t.file ++ free t.members ++ mi_free_type_info next ++
      free (some t.self)

/-- `mi_free_variable` (symbol_query_ext.c:499). -/
def mi_free_variable : List variable_node → List Nat
  | [] => []
  | v :: next =>
    free v.name ++ free v.type ++ free v.file ++ mi_free_variable next ++ free (some v.self)

/-- The blocks that a chain owns: the nodes themselves and, behind them, the
strings held by the non-null string fields `strings` of each node. -/
def owned_blocks {α : Type} (self : α → Nat) (strings : α → List (Option Nat))
    (chain : List α) : List Nat :=
  chain.map self ++ chain.flatMap fun n => (strings n).reduceOption

/-! ## Extractor loops with failing allocation -/

/-- How a run of the parsing loop of an extractor stands after a number of
rounds, when node allocation may fail: `returned chain`, the loop ended and
`return list` was reached with this chain; `failed released`, the
chain-deallocation function was called on `released` and NULL was returned;
`undefined`, the run left defined behaviour; `running`, the loop has not ended
within the rounds given. -/
inductive Outcome (α : Type) where
  | returned (chain : List α)
  | failed (released : List α)
  | undefined
  | running
  deriving DecidableEq, Repr

/-- The loop of `gmi_source_list` (data_ext.c:112-148) when
`mi_alloc_source_line` may return NULL: `alloc n` tells whether its call
number `n` (from 0) succeeds, `calls` counts the calls made so far, the third
argument is the result of the last `strtok` call and `rounds` bounds the
number of passes through the loop condition. -/
def source_list_rounds (alloc : Nat → Bool) :
    Nat → Nat → Option (Token × Option Char × List Char) → List mi_source_line →
      Outcome mi_source_line
  | 0, _, _, _ => Outcome.running
  | _ + 1, _, none, list => Outcome.returned list
  | rounds + 1, calls, some (tok, b, save), list =>
    if alloc calls then
      source_list_rounds alloc rounds (calls + 1) (strtok b save) (source_list_line list tok.text)
    else Outcome.failed list

/-- The loop of `gmi_symbol_list_functions` (symbol_query_ext.c:245-305) when
`mi_alloc_function` may return NULL; arguments as in `source_list_rounds`.
After `continue` the loop condition sees the same `line` again: `strtok` has
not been called, and the blanks have been skipped already. -/
def functions_rounds (alloc : Nat → Bool) :
    Nat → Nat → Option (Token × Option Char × List Char) → functions_state →
      Outcome mi_function
  | 0, _, _, _ => Outcome.running
  | _ + 1, _, none, st => Outcome.returned st.list
  | rounds + 1, calls, some (tok, b, save), st =>
    let line := tok.text.dropWhile is_blank
    if line.take 5 = "File ".toList then
      match functions_line st tok.text with
      | none => Outcome.undefined
      | some st1 => functions_rounds alloc rounds calls (strtok b save) st1
    else if line.head? = some '0' ∧ line.tail.head? = some 'x' then
      if alloc calls then
        match functions_line st tok.text with
        | none => Outcome.undefined
        | some st1 => functions_rounds alloc rounds (calls + 1) (strtok b save) st1
      else functions_rounds alloc rounds (calls + 1) (some (tok, b, save)) st
    else functions_rounds alloc rounds calls (strtok b save) st

/-- The loop of `gmi_symbol_list_variables` (symbol_query_ext.c:386-434) when
`mi_alloc_variable` may return NULL; arguments as in `source_list_rounds`. -/
def variables_rounds (alloc : Nat → Bool) :
    Nat → Nat → Option (Token × Option Char × List Char) → variables_state →
      Outcome mi_variable
  | 0, _, _, _ => Outcome.running
  | _ + 1, _, none, st => Outcome.returned st.list
  | rounds + 1, calls, some (tok, b, save), st =>
    let line := tok.text.dropWhile is_blank
    if line.take 5 = "File ".toList then
      match variables_line st tok with
      | none => Outcome.undefined
      | some st1 => variables_rounds alloc rounds calls (strtok b save) st1
    else if line ≠ [] ∧ line.head? ≠ some 'N' then
      if alloc calls then
        match variables_line st tok with
        | none => Outcome.undefined
        | some st1 => variables_rounds alloc rounds (calls + 1) (strtok b save) st1
      else variables_rounds alloc rounds (calls + 1) (some (tok, b, save)) st
    else variables_rounds alloc rounds calls (strtok b save) st

/-- The parsing part of `gmi_source_list` for the captured text `output`,
observed after `rounds` passes. -/
def gmi_source_list_rounds (alloc : Nat → Bool) (rounds : Nat) (output : List Char) :
    Outcome mi_source_line :=
  source_list_rounds alloc rounds 0 (strtok none output) []

/-- The parsing part of `gmi_symbol_list_functions`, observed after `rounds`
passes. -/
def gmi_symbol_list_functions_rounds (alloc : Nat → Bool) (rounds : Nat) (output : List Char) :
    Outcome mi_function :=
  functions_rounds alloc rounds 0 (strtok none output) { current_file := [], list := [] }

/-- The parsing part of `gmi_symbol_list_variables`, observed after `rounds`
passes. -/
def gmi_symbol_list_variables_rounds (alloc : Nat → Bool) (rounds : Nat) (output : List Char) :
    Outcome mi_variable :=
  variables_rounds alloc rounds 0 (strtok none output) { current_file := [], list := [] }

/-- What the specification asks of a chain-producing loop over the lines
`lines` when allocation number `calls`, `calls + 1`, ... may fail and every
line allocates: the first failure ends the run with the chain built so far
released. -/
def lines_until_failure {α : Type} (alloc : Nat → Bool) (step : List α → List Char → List α) :
    Nat → List (List Char) → List α → Outcome α
  | _, [], list => Outcome.returned list
  | calls, l :: ls, list =>
    if alloc calls then lines_until_failure alloc step (calls + 1) ls (step list l)
    else Outcome.failed list

/-! # Theorems -/

/-! ## Catchpoint commands -/

theorem snprintf_of_fits (size : Nat) (text : List Char) (h : text.length ≤ size - 1) :
    snprintf size text = text := by
  unfold snprintf
  exact List.take_of_length_le h

theorem sent_send_catch_command {σ : Type} (T : Transport σ)
    (h : mi_h (σ × List (List Char))) (command : List Char) :
    (send_catch_command (logged T) h command).2.ext.2 = h.ext.2 ++ [command] := by
  unfold send_catch_command
  simp only [logged, mi_h.withLog, mi_h.inner]
  split
  · rfl
  · split <;> rfl

theorem t_opt_length (temporary : Int) : (t_opt temporary).length ≤ 1 := by
  unfold t_opt
  split <;> simp

theorem catch_grammar_eq (temporary : Int) (event : List Char) (filter : Option (List Char)) :
    catch_grammar temporary event filter =
      t_opt temporary ++ "catch ".toList ++ event ++
        (match filter with
         | some f => " ".toList ++ f
         | none => []) := by
  unfold catch_grammar t_opt
  split <;> rfl

theorem sent_gmi_catch_filtered {σ : Type} (T : Transport σ) (word : List Char)
    (ty : mi_catch_type) (h : mi_h (σ × List (List Char))) (filter : Option (List Char))
    (temporary : Int) :
    sent (gmi_catch_filtered (logged T) word ty (some h) filter temporary).2 =
      h.ext.2 ++ [(catch_grammar temporary word filter).take 511] := by
  cases filter <;>
    simp [gmi_catch_filtered, sent, sent_send_catch_command, snprintf, catch_grammar_eq]

/-- C1 (as amended): for every catchpoint operation, every transport behaviour,
every non-null handle, every value of the temporary flag and every optional
filter, exactly one command is handed to the sender and it is the first 511
characters of `[t]catch <event>[ <filter>]`; so it is that text in full
whenever the text has at most 511 characters. -/
theorem catch_command_sent {σ : Type} (T : Transport σ) (h : mi_h (σ × List (List Char)))
    (temporary : Int) (req : catch_request) :
    sent (gmi_catch (logged T) (some h) temporary req).2 =
        h.ext.2 ++ [(catch_grammar temporary req.keyword req.filter).take 511] ∧
      ((catch_grammar temporary req.keyword req.filter).length ≤ 511 →
        sent (gmi_catch (logged T) (some h) temporary req).2 =
          h.ext.2 ++ [catch_grammar temporary req.keyword req.filter]) := by
  have key : sent (gmi_catch (logged T) (some h) temporary req).2 =
      h.ext.2 ++ [(catch_grammar temporary req.keyword req.filter).take 511] := by
    have ht := t_opt_length temporary
    cases req with
    | exception is_throw =>
      simp only [gmi_catch, gmi_catch_exception, sent, sent_send_catch_command,
        catch_request.keyword, catch_request.filter, catch_grammar_eq, List.append_nil]
      rw [snprintf_of_fits, List.take_of_length_le]
      · split <;> simp <;> omega
      · split <;> simp <;> omega
    | exec =>
      simp only [gmi_catch, gmi_catch_exec, sent, sent_send_catch_command,
        catch_request.keyword, catch_request.filter, catch_grammar_eq, List.append_nil]
      rw [snprintf_of_fits, List.take_of_length_le]
      · simp
      · simp; omega
      · simp; omega
    | fork is_vfork =>
      simp only [gmi_catch, gmi_catch_fork, sent, sent_send_catch_command,
        catch_request.keyword, catch_request.filter, catch_grammar_eq, List.append_nil]
      rw [snprintf_of_fits, List.take_of_length_le]
      · split <;> simp <;> omega
      · split <;> simp <;> omega
    | load regexp => exact sent_gmi_catch_filtered T _ _ h regexp temporary
    | unload regexp => exact sent_gmi_catch_filtered T _ _ h regexp temporary
    | syscall syscall_name => exact sent_gmi_catch_filtered T _ _ h syscall_name temporary
    | signal signal_name => exact sent_gmi_catch_filtered T _ _ h signal_name temporary
    | assertion =>
      simp only [gmi_catch, gmi_catch_assert, sent, sent_send_catch_command,
        catch_request.keyword, catch_request.filter, catch_grammar_eq, List.append_nil]
      rw [snprintf_of_fits, List.take_of_length_le]
      · simp
      · simp; omega
      · simp; omega
  refine ⟨key, fun hlen => ?_⟩
  rw [key, List.take_of_length_le hlen]

/-- C1 witness: `tcatch load libc` is the one command sent for a temporary
load catchpoint filtered by `libc`. -/
theorem catch_command_sent_witness :
    sent (gmi_catch (logged spec_transport)
        (some { catch_console := 0, catched_console := none,
                ext := ({ replies := [], last := none }, []) })
        1 (catch_request.load (some "libc".toList))).2 = ["tcatch load libc".toList] :=
  ((catch_command_sent spec_transport
      { catch_console := 0, catched_console := none, ext := ({ replies := [], last := none }, []) }
      1 (catch_request.load (some "libc".toList))).2 (by decide)).trans (by decide)

/-- C1 counterexample: with a filter of 600 characters the command handed to
the sender by `gmi_catch_load` is not `catch load <filter>`: the filter is not
reproduced in full. -/
theorem catch_command_truncated :
    sent (gmi_catch_load (logged spec_transport)
        (some { catch_console := 0, catched_console := none,
                ext := ({ replies := [], last := none }, []) })
        (some (List.replicate 600 'a')) 0).2 ≠
      [catch_grammar 0 "load".toList (some (List.replicate 600 'a'))] := by
  unfold gmi_catch_load
  rw [sent_gmi_catch_filtered]
  have hf : (List.replicate 600 'a').length = 600 := List.length_replicate 600 'a'
  generalize List.replicate 600 'a' = f at hf ⊢
  intro hEq
  have hlen := congrArg (fun l => l.map List.length) hEq
  simp only [catch_grammar, List.nil_append, List.map_cons, List.map_nil, List.length_take,
    List.length_append, List.length_cons, hf, List.cons.injEq, and_true] at hlen
  simp at hlen

/-! ## Captured CLI commands -/

/-- C2: whatever the transport did to the handle meanwhile, when
`mi_get_response` reports no terminal response `send_cli_command` returns the
absent value and leaves the handle with `catch_console = 0`. -/
theorem send_cli_command_no_response {σ : Type} (T : Transport σ) (h : mi_h σ)
    (cmd : List Char)
    (hfail : (T.mi_get_response
      (T.mi_send { h with catch_console := 1, catched_console := none } cmd)).1 = 0) :
    (send_cli_command T (some h) (some cmd)).1 = none ∧
      ∃ h1, (send_cli_command T (some h) (some cmd)).2 = some h1 ∧ h1.catch_console = 0 := by
  simp [send_cli_command, hfail]

/-- C2 witness: fragments arrive, the terminal response does not. -/
theorem send_cli_command_no_response_witness :
    (send_cli_command spec_transport
        (some { catch_console := 0, catched_console := none,
                ext := { replies := [{ fragments := ["lost".toList], terminal := false,
                                       bkpt := none }], last := none } })
        (some "list".toList)).1 = none ∧
      ∃ h1, (send_cli_command spec_transport
        (some { catch_console := 0, catched_console := none,
                ext := { replies := [{ fragments := ["lost".toList], terminal := false,
                                       bkpt := none }], last := none } })
        (some "list".toList)).2 = some h1 ∧ h1.catch_console = 0 :=
  send_cli_command_no_response spec_transport _ _ (by decide)

theorem foldl_deliver {fs : List (List Char)} (h : mi_h Debugger) (hflag : h.catch_console ≠ 0) :
    fs.foldl deliver h =
      { h with catched_console :=
          if fs = [] then h.catched_console
          else some (h.catched_console.getD [] ++ fs.flatten) } := by
  induction fs generalizing h with
  | nil => rfl
  | cons f fs ih =>
    have hd : deliver h f =
        { h with catched_console := some (h.catched_console.getD [] ++ f) } := by
      simp [deliver, hflag]
    rw [List.foldl_cons, hd,
      ih { h with catched_console := some (h.catched_console.getD [] ++ f) } hflag]
    by_cases hfs : fs = [] <;> simp [hfs]

theorem spec_transport_capture (g : mi_h Debugger) (cmd : List Char) (r : Reply)
    (rest : List Reply) (hr : g.ext.replies = r :: rest) (ht : r.terminal = true) :
    (send_cli_command spec_transport (some g) (some cmd)).1 =
      if r.fragments = [] then none else some r.fragments.flatten := by
  simp only [send_cli_command, spec_transport, hr, ht, if_true]
  rw [foldl_deliver _ (by simp)]
  by_cases hfs : r.fragments = [] <;> simp [hfs]

/-- C3: when the transport signals the terminal response, `send_cli_command`
returns exactly what the transport left in the capture buffer, and the handle
it leaves behind has `catch_console = 0` and an empty capture buffer (and is
otherwise as the transport left it).  For the transport of the specification
the returned text is the concatenation, in arrival order, of the fragments of
this reply (absent when no fragment arrived). -/
theorem send_cli_command_success {σ : Type} (T : Transport σ) (h : mi_h σ) (cmd : List Char)
    (hterm : (T.mi_get_response
      (T.mi_send { h with catch_console := 1, catched_console := none } cmd)).1 ≠ 0) :
    ((send_cli_command T (some h) (some cmd)).1 =
        (T.mi_get_response
          (T.mi_send { h with catch_console := 1, catched_console := none } cmd)).2.catched_console ∧
      ∃ h1, (send_cli_command T (some h) (some cmd)).2 = some h1 ∧
        h1.catch_console = 0 ∧ h1.catched_console = none ∧
        h1.ext = (T.mi_get_response
          (T.mi_send { h with catch_console := 1, catched_console := none } cmd)).2.ext) ∧
      ∀ (g : mi_h Debugger) (r : Reply) (rest : List Reply),
        g.ext.replies = r :: rest → r.terminal = true →
        (send_cli_command spec_transport (some g) (some cmd)).1 =
          if r.fragments = [] then none else some r.fragments.flatten := by
  refine ⟨?_, fun g r rest hr ht => spec_transport_capture g cmd r rest hr ht⟩
  simp [send_cli_command, hterm]

/-- C3 witness: two fragments and the terminal response. -/
theorem send_cli_command_success_witness :
    (send_cli_command spec_transport
        (some { catch_console := 0, catched_console := none,
                ext := { replies := [{ fragments := ["42\t".toList, "int x;\n".toList],
                                       terminal := true, bkpt := none }], last := none } })
        (some "list".toList)).1 = some "42\tint x;\n".toList :=
  (send_cli_command_success spec_transport
      { catch_console := 0, catched_console := none,
        ext := { replies := [{ fragments := ["42\t".toList, "int x;\n".toList],
                               terminal := true, bkpt := none }], last := none } }
      "list".toList (by decide)).1.1.trans (by decide)

/-- C4: the result of `send_cli_command` (text and handle left behind) is the
same for two handles that differ only in `catch_console` and
`catched_console`; and for the transport of the specification the text is made
of the fragments of this reply only, whatever the capture buffer held before
the call. -/
theorem send_cli_command_ignores_old_capture {σ : Type} (T : Transport σ) (e : σ)
    (flag1 flag2 : Int) (buffer1 buffer2 : Option (List Char)) (cmd : List Char) :
    send_cli_command T
        (some { catch_console := flag1, catched_console := buffer1, ext := e }) (some cmd) =
      send_cli_command T
        (some { catch_console := flag2, catched_console := buffer2, ext := e }) (some cmd) ∧
      ∀ (d : Debugger) (r : Reply) (rest : List Reply),
        d.replies = r :: rest → r.terminal = true →
        (send_cli_command spec_transport
          (some { catch_console := flag1, catched_console := buffer1, ext := d })
          (some cmd)).1 = if r.fragments = [] then none else some r.fragments.flatten := by
  refine ⟨rfl, fun d r rest hr ht => ?_⟩
  exact spec_transport_capture _ cmd r rest hr ht

/-! ## Catchpoint records -/

theorem send_catch_command_event {σ : Type} (T : Transport σ) (h : mi_h σ)
    (command : List Char) (r : mi_catch) (hr : (send_catch_command T h command).1 = some r) :
    r.event = none := by
  unfold send_catch_command at hr
  simp only at hr
  split at hr
  · simp at hr
  · split at hr
    · simp only [Option.some.injEq] at hr
      rw [← hr]
      rfl
    · simp at hr

theorem gmi_catch_filtered_record {σ : Type} (T : Transport σ) (word : List Char)
    (ty : mi_catch_type) (h : Option (mi_h σ)) (filter : Option (List Char))
    (temporary : Int) (c : mi_catch)
    (hret : (gmi_catch_filtered T word ty h filter temporary).1 = some c) :
    c.type = ty ∧ c.event = filter := by
  unfold gmi_catch_filtered at hret
  cases h with
  | none => simp at hret
  | some h0 =>
    simp only [Option.map_eq_some'] at hret
    obtain ⟨r, hr, rfl⟩ := hret
    have hev : r.event = none := send_catch_command_event T _ _ r hr
    cases filter <;> simp [hev]

/-- C10: whenever a catchpoint operation returns a record, for every transport
behaviour (so whatever breakpoint record was parsed), the record's type is the
one that belongs to the request and its event is the supplied filter, absent
when none was supplied. -/
theorem catch_record_from_request {σ : Type} (T : Transport σ) (h : Option (mi_h σ))
    (temporary : Int) (req : catch_request) (c : mi_catch)
    (hret : (gmi_catch T h temporary req).1 = some c) :
    c.type = req.kind ∧ c.event = req.filter := by
  cases req with
  | load regexp => exact gmi_catch_filtered_record T _ _ h regexp temporary c hret
  | unload regexp => exact gmi_catch_filtered_record T _ _ h regexp temporary c hret
  | syscall syscall_name => exact gmi_catch_filtered_record T _ _ h syscall_name temporary c hret
  | signal signal_name => exact gmi_catch_filtered_record T _ _ h signal_name temporary c hret
  | exception is_throw =>
    cases h with
    | none => simp [gmi_catch, gmi_catch_exception] at hret
    | some h0 =>
      simp only [gmi_catch, gmi_catch_exception, Option.map_eq_some'] at hret
      obtain ⟨r, hr, rfl⟩ := hret
      exact ⟨rfl, send_catch_command_event T _ _ r hr⟩
  | fork is_vfork =>
    cases h with
    | none => simp [gmi_catch, gmi_catch_fork] at hret
    | some h0 =>
      simp only [gmi_catch, gmi_catch_fork, Option.map_eq_some'] at hret
      obtain ⟨r, hr, rfl⟩ := hret
      exact ⟨rfl, send_catch_command_event T _ _ r hr⟩
  | exec =>
    cases h with
    | none => simp [gmi_catch, gmi_catch_exec] at hret
    | some h0 =>
      simp only [gmi_catch, gmi_catch_exec, Option.map_eq_some'] at hret
      obtain ⟨r, hr, rfl⟩ := hret
      exact ⟨rfl, send_catch_command_event T _ _ r hr⟩
  | assertion =>
    cases h with
    | none => simp [gmi_catch, gmi_catch_assert] at hret
    | some h0 =>
      simp only [gmi_catch, gmi_catch_assert, Option.map_eq_some'] at hret
      obtain ⟨r, hr, rfl⟩ := hret
      exact ⟨rfl, send_catch_command_event T _ _ r hr⟩

/-- C10 witness: the debugger answers a `catch syscall write` request with a
breakpoint record; the operation returns a record, whose type is
`mi_catch_syscall` and whose event is `write`. -/
theorem catch_record_from_request_witness :
    (gmi_catch spec_transport
        (some { catch_console := 0, catched_console := none,
                ext := { replies := [{ fragments := [], terminal := true,
                                       bkpt := some ⟨3, 1, 0, none, mi_bkp_disp.d_keep⟩ }],
                         last := none } })
        0 (catch_request.syscall (some "write".toList))).1 =
      some ⟨3, mi_catch_type.mi_catch_syscall, 1, none, 0, some "write".toList, 0⟩ ∧
    (⟨3, mi_catch_type.mi_catch_syscall, 1, none, 0, some "write".toList, 0⟩ : mi_catch).type =
        (catch_request.syscall (some "write".toList)).kind ∧
      (⟨3, mi_catch_type.mi_catch_syscall, 1, none, 0, some "write".toList, 0⟩ : mi_catch).event =
        (catch_request.syscall (some "write".toList)).filter :=
  ⟨by decide,
   catch_record_from_request spec_transport
    (some { catch_console := 0, catched_console := none,
            ext := { replies := [{ fragments := [], terminal := true,
                                   bkpt := some ⟨3, 1, 0, none, mi_bkp_disp.d_keep⟩ }],
                     last := none } })
    0 (catch_request.syscall (some "write".toList))
    ⟨3, mi_catch_type.mi_catch_syscall, 1, none, 0, some "write".toList, 0⟩ (by decide)⟩

/-! ## Source listing -/

theorem splitOnP_eq (p : Char → Bool) (s : List Char) :
    s.splitOnP p = s.takeWhile (fun c => !p c) ::
      (match s.dropWhile (fun c => !p c) with
       | [] => []
       | _ :: r => r.splitOnP p) := by
  induction s with
  | nil => simp
  | cons x xs ih =>
    rw [List.splitOnP_cons]
    by_cases hx : p x = true
    · simp [hx]
    · simp only [hx, if_false]
      rw [ih]
      simp [hx]

theorem text_lines_nil : text_lines [] = [] := by
  simp [text_lines, List.splitOn]

theorem text_lines_newline (s : List Char) : text_lines ('\n' :: s) = text_lines s := by
  simp [text_lines, List.splitOn, List.splitOnP_cons]

theorem text_lines_dropWhile (s : List Char) :
    text_lines (s.dropWhile (· = '\n')) = text_lines s := by
  induction s with
  | nil => rfl
  | cons x xs ih =>
    by_cases hx : x = '\n'
    · subst hx
      rw [text_lines_newline, ← ih]
      simp
    · simp [hx]

theorem text_lines_token (s : List Char) (hs : s ≠ []) (hhead : s.head? ≠ some '\n') :
    text_lines s =
      s.takeWhile (· ≠ '\n') :: text_lines (s.dropWhile (· ≠ '\n')).tail := by
  cases s with
  | nil => exact absurd rfl hs
  | cons x xs =>
    have hx : x ≠ '\n' := by simpa using hhead
    unfold text_lines List.splitOn
    rw [splitOnP_eq]
    have e1 : (fun c : Char => !(c == '\n')) = (fun c : Char => decide (c ≠ '\n')) := by
      funext c
      by_cases hc : c = '\n' <;> simp [hc]
    rw [e1]
    have hne : List.takeWhile (fun c : Char => decide (c ≠ '\n')) (x :: xs) ≠ [] := by
      simp [hx]
    rw [List.filter_cons_of_pos (by simpa using hne)]
    congr 1
    cases hd : List.dropWhile (fun c : Char => decide (c ≠ '\n')) (x :: xs) with
    | nil => simp
    | cons y r => simp

theorem strtok_loop_eq {σ : Type} (f : σ → List Char → Option σ) :
    ∀ (fuel : Nat) (before : Option Char) (save : List Char) (st : σ),
      save.length < fuel →
      strtok_loop (fun st tok => f st tok.text) fuel before save st =
        (text_lines save).foldlM f st := by
  intro fuel
  induction fuel with
  | zero => intro _ _ _ h; omega
  | succ n ih =>
    intro before save st hlen
    rw [← text_lines_dropWhile save]
    unfold strtok_loop strtok
    by_cases hs : save.dropWhile (· = '\n') = []
    · simp [hs, text_lines_nil]
    · have hhead : (save.dropWhile (· = '\n')).head? ≠ some '\n' := by
        intro hh
        have := List.head?_dropWhile_not (fun c : Char => decide (c = '\n')) save
        rw [hh] at this
        simp at this
      rw [text_lines_token _ hs hhead]
      simp only [hs, if_false, List.foldlM_cons]
      cases hb : f st ((save.dropWhile (· = '\n')).takeWhile (· ≠ '\n')) with
      | none => rfl
      | some st1 =>
        simp only [Option.bind_eq_bind, Option.some_bind]
        apply ih
        have h1 : ((save.dropWhile (· = '\n')).dropWhile (· ≠ '\n')).tail.length ≤
            ((save.dropWhile (· = '\n')).dropWhile (· ≠ '\n')).length := by simp
        have h2 := (List.dropWhile_sublist (fun c : Char => decide (c ≠ '\n'))
          (l := save.dropWhile (· = '\n'))).length_le
        have h3 := (List.dropWhile_sublist (fun c : Char => decide (c = '\n')) (l := save)).length_le
        -- the token is not empty
        have h4 : ((save.dropWhile (· = '\n')).dropWhile (· ≠ '\n')).length <
            (save.dropWhile (· = '\n')).length := by
          cases hd : save.dropWhile (· = '\n') with
          | nil => exact absurd hd hs
          | cons y ys =>
            have hy : y ≠ '\n' := by
              rw [hd] at hhead; simpa using hhead
            simp only [List.dropWhile_cons, hy, ne_eq, not_false_eq_true, decide_True, if_true,
              List.length_cons]
            have := (List.dropWhile_sublist (fun c : Char => decide (c ≠ '\n')) (l := ys)).length_le
            simp only [ne_eq] at this
            omega
        omega

theorem foldlM_source_list_line (lines : List (List Char)) (acc : List mi_source_line) :
    lines.foldlM (fun list line => some (source_list_line list line)) acc =
      some (acc ++ lines.filterMap source_record) := by
  induction lines generalizing acc with
  | nil => simp
  | cons l ls ih =>
    rw [List.foldlM_cons]
    simp only [Option.bind_eq_bind, Option.some_bind]
    rw [ih]
    unfold source_list_line source_record
    cases hd : sscanf_d l with
    | none => simp [hd]
    | some n => simp [hd]

theorem gmi_source_list_parse_eq (output : List Char) :
    gmi_source_list_parse output = some ((text_lines output).filterMap source_record) := by
  unfold gmi_source_list_parse
  rw [strtok_loop_eq (fun list line => some (source_list_line list line)) _ _ _ _
    (Nat.lt_succ_self _), foldlM_source_list_line]
  simp

/-- For every captured text `gmi_source_list` returns a chain, and the line
numbers of its records are, in order, the values stored by `%d` for those
newline-separated non-empty lines on which `%d` stores one; a line on which
`%d` reads nothing contributes no record and does not end the scan. -/
theorem source_list_stored_numbers (output : List Char) :
    ∃ chain, gmi_source_list_parse output = some chain ∧
      chain.map (fun r => r.line_num) = (text_lines output).filterMap sscanf_d := by
  refine ⟨_, gmi_source_list_parse_eq output, ?_⟩
  rw [List.map_filterMap]
  congr 1
  funext l
  unfold source_record
  cases sscanf_d l <;> rfl

/-! ## Variable and function listing -/

theorem strchr_append (pre post : List Char) (c : Char) (h : c ∉ pre) :
    strchr (pre ++ c :: post) c = some pre.length := by
  induction pre with
  | nil => simp [strchr]
  | cons x xs ih =>
    have hx : x ≠ c := fun e => h (by simp [e])
    have hxs : c ∉ xs := fun e => h (by simp [e])
    simp [strchr, hx, ih hxs]

theorem strstr_isSome_iff (s needle : List Char) :
    (strstr s needle).isSome = true ↔ needle <:+: s := by
  induction s with
  | nil =>
    unfold strstr
    by_cases hn : needle = [] <;> simp [hn]
  | cons x xs ih =>
    unfold strstr
    rw [List.infix_cons_iff, ← ih]
    by_cases hp : needle.isPrefixOf (x :: xs) = true
    · simp [hp, List.isPrefixOf_iff_prefix.mp hp]
    · have hp2 : ¬ needle <+: x :: xs := fun e => hp (List.isPrefixOf_iff_prefix.mpr e)
      simp [hp, hp2]

theorem rdropWhile_append_rtakeWhile (p : Char → Bool) (l : List Char) :
    l.rdropWhile p ++ l.rtakeWhile p = l := by
  unfold List.rdropWhile List.rtakeWhile
  rw [← List.reverse_append, List.takeWhile_append_dropWhile, List.reverse_reverse]

theorem scan_back_spec (line : List Char) :
    ∀ (j : Nat), j < line.length →
      (if line.get? (scan_back line j) = some ' ' ∨ line.get? (scan_back line j) = some '*'
        then scan_back line j + 1 else scan_back line j) =
        ((line.take (j + 1)).rdropWhile name_char).length := by
  intro j
  induction j with
  | zero =>
    intro hj
    cases line with
    | nil => simp at hj
    | cons x xs =>
      have e : List.take (0 + 1) (x :: xs) = [] ++ [x] := rfl
      rw [e, List.rdropWhile_concat]
      by_cases h1 : x = ' '
      · simp [h1, name_char, scan_back]
      · by_cases h2 : x = '*'
        · simp [h2, name_char, scan_back]
        · simp [h1, h2, name_char, scan_back]
  | succ j ih =>
    intro hj
    have hj' : j < line.length := by omega
    obtain ⟨x, hx⟩ : ∃ x, line.get? (j + 1) = some x := ⟨line.get ⟨j + 1, hj⟩, List.get?_eq_get hj⟩
    have htake : line.take (j + 1 + 1) = line.take (j + 1) ++ [x] := by
      rw [List.take_succ, ← List.get?_eq_getElem?, hx]
      rfl
    rw [htake, List.rdropWhile_concat]
    by_cases hd : x = ' ' ∨ x = '*'
    · have hsb : scan_back line (j + 1) = j + 1 := by
        show (if line.get? (j + 1) ≠ some ' ' ∧ line.get? (j + 1) ≠ some '*'
          then scan_back line j else j + 1) = j + 1
        rw [hx]
        rcases hd with hd | hd <;> simp [hd]
      have hnc : name_char x = false := by
        rcases hd with hd | hd <;> simp [name_char, hd]
      rw [hsb, hx, hnc]
      have hlen : (line.take (j + 1)).length = j + 1 := by
        rw [List.length_take]; omega
      rcases hd with hd | hd <;> simp [hd, hlen]
    · have hd1 : x ≠ ' ' := fun e => hd (Or.inl e)
      have hd2 : x ≠ '*' := fun e => hd (Or.inr e)
      have hsb : scan_back line (j + 1) = scan_back line j := by
        show (if line.get? (j + 1) ≠ some ' ' ∧ line.get? (j + 1) ≠ some '*'
          then scan_back line j else j + 1) = scan_back line j
        rw [hx]
        simp [hd1, hd2]
      have hnc : name_char x = true := by
        simp [name_char, hd1, hd2]
      rw [hsb, hnc]
      exact ih hj'

theorem variable_name_type_eq (before : Option Char) (pre post : List Char) (hpre : pre ≠ []) :
    variable_name_type before (pre ++ ';' :: post) pre.length =
      some (pre.rtakeWhile name_char, pre.rdropWhile name_char) := by
  obtain ⟨s, hs⟩ : ∃ s, pre.length = s + 1 :=
    ⟨pre.length - 1, by have := List.length_pos.mpr hpre; omega⟩
  have hlt : s < (pre ++ ';' :: post).length := by simp; omega
  have key := scan_back_spec (pre ++ ';' :: post) s hlt
  have htk : (pre ++ ';' :: post).take (s + 1) = pre := by
    rw [← hs]; simp
  rw [htk] at key
  rw [hs]
  unfold variable_name_type
  simp only
  rw [key]
  have hsplit := rdropWhile_append_rtakeWhile name_char pre
  have hlen : (pre.rdropWhile name_char).length + (pre.rtakeWhile name_char).length = s + 1 := by
    rw [← List.length_append, hsplit, hs]
  congr 2
  · -- the name
    have e1 : pre ++ ';' :: post =
        pre.rdropWhile name_char ++ (pre.rtakeWhile name_char ++ ';' :: post) := by
      rw [← List.append_assoc, hsplit]
    rw [e1, List.drop_left, List.take_left']
    omega
  · -- the type
    have e1 : pre ++ ';' :: post =
        pre.rdropWhile name_char ++ (pre.rtakeWhile name_char ++ ';' :: post) := by
      rw [← List.append_assoc, hsplit]
    rw [e1, List.take_left]

/-- C9: let `line` be what the source calls `line` in the variable branch, the
token behind its leading spaces and tabs.  When `line` is
`pre ++ ";" ++ post` with no `;` in `pre` and `pre` not empty, and is processed
as a variable line (no `File ` header, first character not `N`), the loop body
appends one record: its name is
the longest run of characters other than space and `*` that ends `pre`, its
type is the rest of `pre` before the name (so type, name, `;` is a prefix of
the line), and `is_static` is 1 exactly when the line contains `static`. -/
theorem variables_line_record (st : variables_state) (tok : Token) (pre post : List Char)
    (hline : tok.text.dropWhile is_blank = pre ++ ';' :: post)
    (hpre : ';' ∉ pre) (hfirst : pre ≠ [])
    (hfile : (pre ++ ';' :: post).take 5 ≠ "File ".toList)
    (hN : pre.head? ≠ some 'N') :
    ∃ v : mi_variable,
      variables_line st tok = some { st with list := st.list ++ [v] } ∧
      v.name = some (pre.rtakeWhile name_char) ∧
      v.type = some (pre.rdropWhile name_char) ∧
      pre.rdropWhile name_char ++ pre.rtakeWhile name_char ++ [';'] <+:
        tok.text.dropWhile is_blank ∧
      (v.is_static = 1 ↔ "static".toList <:+: tok.text.dropWhile is_blank) := by
  have hne : pre ++ ';' :: post ≠ [] := by simp
  have hhead : (pre ++ ';' :: post).head? ≠ some 'N' := by
    cases pre with
    | nil => exact absurd rfl hfirst
    | cons x xs => simpa using hN
  refine ⟨{ mi_alloc_variable with
      name := some (pre.rtakeWhile name_char)
      type := some (pre.rdropWhile name_char)
      file := if st.current_file ≠ [] then some st.current_file else none
      is_static := if (strstr (pre ++ ';' :: post) "static".toList).isSome then 1 else 0 },
    ?_, rfl, rfl, ?_, ?_⟩
  · unfold variables_line
    simp only [hline, hfile, if_false, hne, hhead, ne_eq, not_false_eq_true, and_self, if_true,
      strchr_append pre post ';' hpre, variable_name_type_eq _ pre post hfirst, Option.map_some']
  · rw [hline, rdropWhile_append_rtakeWhile]
    exact ⟨post, by simp⟩
  · rw [hline, ← strstr_isSome_iff]
    generalize strstr (pre ++ ';' :: post) "static".toList = o
    cases o <;> simp

/-- C9 witness: `static char *name;` gives name `name`, type `static char *`
and `is_static = 1`. -/
theorem variables_line_record_witness :
    ∃ v : mi_variable,
      variables_line { current_file := [], list := [] }
          { before := none, text := "static char *name;".toList } =
        some { current_file := [], list := [v] } ∧
      v.name = some "name".toList ∧ v.type = some "static char *".toList ∧ v.is_static = 1 := by
  obtain ⟨v, h1, h2, h3, _, h5⟩ :=
    variables_line_record { current_file := [], list := [] }
      { before := none, text := "static char *name;".toList } "static char *name".toList []
      (by decide) (by decide) (by decide) (by decide) (by decide)
  exact ⟨v, h1, h2.trans (by decide), h3.trans (by decide), h5.mpr (by decide)⟩

theorem strpbrk_append (pre post accept : List Char) (c : Char)
    (hpre : ∀ x ∈ pre, x ∉ accept) (hc : c ∈ accept) :
    strpbrk (pre ++ c :: post) accept = some pre.length := by
  induction pre with
  | nil => simp [strpbrk, hc]
  | cons x xs ih =>
    have hx : x ∉ accept := hpre x (by simp)
    have hxs : ∀ y ∈ xs, y ∉ accept := fun y hy => hpre y (by simp [hy])
    simp [strpbrk, hx, ih hxs]

theorem strstr_skip (pre rest : List Char) (n : Char) (ns : List Char)
    (hpre : ∀ x ∈ pre, x ≠ n) :
    strstr (pre ++ rest) (n :: ns) = (strstr rest (n :: ns)).map (· + pre.length) := by
  induction pre with
  | nil => simp
  | cons x xs ih =>
    have hx : x ≠ n := hpre x (by simp)
    have hxs : ∀ y ∈ xs, y ≠ n := fun y hy => hpre y (by simp [hy])
    have hp : (n :: ns).isPrefixOf (x :: (xs ++ rest)) = false := by
      simp [List.isPrefixOf, Ne.symm hx]
    rw [List.cons_append, strstr, hp, ih hxs]
    cases strstr rest (n :: ns) <;> simp
    omega

theorem strstr_at_here (tail : List Char) :
    strstr (' ' :: 'a' :: 't' :: ' ' :: tail) " at ".toList = some 0 := by
  simp [strstr, List.isPrefixOf]

theorem strstr_at_params (params tail : List Char) (hparams : ¬ " at ".toList <:+: params) :
    strstr (params ++ ')' :: ' ' :: 'a' :: 't' :: ' ' :: tail) " at ".toList =
      some (params.length + 1) := by
  induction params with
  | nil =>
    have h0 := strstr_at_here tail
    simp only [String.toList] at h0
    simp [strstr, List.isPrefixOf, h0]
  | cons p ps ih =>
    have hps : ¬ " at ".toList <:+: ps := fun e => hparams (List.infix_cons e)
    have hnp : " at ".toList.isPrefixOf (p :: (ps ++ ')' :: ' ' :: 'a' :: 't' :: ' ' :: tail)) =
        false := by
      rw [Bool.eq_false_iff]
      intro hp
      rw [List.isPrefixOf_iff_prefix] at hp
      apply hparams
      match ps, hp with
      | [], hp => simp at hp
      | [a], hp => simp at hp
      | [a, b], hp => simp at hp
      | a :: b :: c :: r, hp =>
        simp at hp
        obtain ⟨rfl, rfl, rfl, rfl⟩ := hp
        exact ⟨[], r, by simp⟩
    rw [List.cons_append, strstr, hnp, ih hps]
    simp

theorem isdigit_not_isspace (c : Char) (h : isdigit c = true) : isspace c = false := by
  simp only [isdigit, Bool.and_eq_true, decide_eq_true_eq] at h
  simp only [isspace, Bool.or_eq_false_iff, decide_eq_false_iff_not]
  refine ⟨⟨⟨⟨⟨?_, ?_⟩, ?_⟩, ?_⟩, ?_⟩, ?_⟩ <;> intro e <;> subst e <;> revert h <;> decide

theorem isxdigit_not_isspace (c : Char) (h : isxdigit c = true) : isspace c = false := by
  simp only [isxdigit, isdigit, Bool.or_eq_true, Bool.and_eq_true, decide_eq_true_eq] at h
  simp only [isspace, Bool.or_eq_false_iff, decide_eq_false_iff_not]
  refine ⟨⟨⟨⟨⟨?_, ?_⟩, ?_⟩, ?_⟩, ?_⟩, ?_⟩ <;> intro e <;> subst e <;> revert h <;> decide

theorem isspace_space : isspace ' ' = true := by decide

theorem sscanf_31s_word (w rest : List Char) (hw : ∀ c ∈ w, isspace c = false) (hne : w ≠ [])
    (hlen : w.length ≤ 31) : sscanf_31s (w ++ ' ' :: rest) = some w := by
  unfold sscanf_31s
  have h1 : (w ++ ' ' :: rest).dropWhile isspace = w ++ ' ' :: rest := by
    cases w with
    | nil => exact absurd rfl hne
    | cons x xs => simp [List.dropWhile_cons, hw x (by simp)]
  have h2 : (w ++ ' ' :: rest).takeWhile (fun c => !isspace c) = w := by
    rw [List.takeWhile_append_of_pos (fun c hc => by simp [hw c hc])]
    simp [List.takeWhile_cons, isspace_space]
  simp only [h1, h2, List.take_of_length_le hlen, hne, if_false]

theorem parse_address_hex (hex : List Char) (hhex : ∀ c ∈ hex, isxdigit c = true)
    (hval : hex_value hex < 2 ^ 64) : parse_address ('0' :: 'x' :: hex) = hex_value hex := by
  unfold parse_address
  have h1 : (List.drop 2 ('0' :: 'x' :: hex)).takeWhile isxdigit = hex := by
    simp only [List.drop_succ_cons, List.drop_zero]
    exact List.takeWhile_eq_self_iff.mpr hhex
  rw [h1]
  simp only [List.head?_cons, List.tail_cons, true_or, and_self, if_true]
  omega

theorem atoi_digits (ds : List Char) (hds : ∀ c ∈ ds, isdigit c = true)
    (hval : dec_value ds < 2 ^ 31) : atoi ds = (dec_value ds : Int) := by
  unfold atoi scan_int
  have h1 : ds.dropWhile isspace = ds := by
    cases ds with
    | nil => rfl
    | cons x xs => simp [List.dropWhile_cons, isdigit_not_isspace x (hds x (by simp))]
  have h2 : ds.head? ≠ some '-' ∧ ds.head? ≠ some '+' := by
    cases ds with
    | nil => simp
    | cons x xs =>
      have hx := hds x (by simp)
      simp only [List.head?_cons, ne_eq, Option.some.injEq]
      constructor <;> intro e <;> subst e <;> revert hx <;> decide
  have h3 : ds.takeWhile isdigit = ds := List.takeWhile_eq_self_iff.mpr hds
  simp only [h1, h2.1, h2.2, or_self, if_false, h3, decide_False]
  by_cases hnil : ds = []
  · subst hnil
    simp [dec_value]
  · simp only [hnil, if_false, Option.getD_some, Bool.false_eq_true]
    unfold to_int32 clamp_long
    have hv : (dec_value ds : Int) < 2 ^ 31 := by exact_mod_cast hval
    have hv0 : (0 : Int) ≤ dec_value ds := Int.ofNat_nonneg _
    omega

theorem function_entry_full (current_file hex name params file digits : List Char)
    (hhex : ∀ c ∈ hex, isxdigit c = true)
    (hname : name ≠ []) (hname2 : ∀ c ∈ name, c ≠ ' ' ∧ c ≠ '(')
    (hparams : ¬ " at ".toList <:+: params) (hfile : ':' ∉ file)
    (hdigits : ∀ c ∈ digits, isdigit c = true)
    (haddr : hex_value hex < 2 ^ 64) (hline : dec_value digits < 2 ^ 31) :
    function_entry current_file
        ('0' :: 'x' :: hex ++ ' ' :: (name ++ '(' :: (params ++
          ')' :: ' ' :: 'a' :: 't' :: ' ' :: (file ++ ':' :: digits))))
        ('0' :: 'x' :: hex) =
      { mi_alloc_function with
          name := some name
          file := some file
          line := (dec_value digits : Int)
          addr := hex_value hex } := by
  have hsp : ' ' ∉ '0' :: 'x' :: hex := by
    intro hmem
    rcases List.mem_cons.mp hmem with e | hmem
    · exact absurd e (by decide)
    · rcases List.mem_cons.mp hmem with e | hmem
      · exact absurd e (by decide)
      · have := isxdigit_not_isspace _ (hhex _ hmem)
        rw [isspace_space] at this
        exact absurd this (by decide)
  have h1 := strchr_append ('0' :: 'x' :: hex)
    (name ++ '(' :: (params ++ ')' :: ' ' :: 'a' :: 't' :: ' ' :: (file ++ ':' :: digits))) ' ' hsp
  have h2 : (name ++ '(' :: (params ++ ')' :: ' ' :: 'a' :: 't' :: ' ' ::
      (file ++ ':' :: digits))).dropWhile (· = ' ') =
      name ++ '(' :: (params ++ ')' :: ' ' :: 'a' :: 't' :: ' ' :: (file ++ ':' :: digits)) := by
    cases name with
    | nil => exact absurd rfl hname
    | cons x xs => simp [List.dropWhile_cons, (hname2 x (by simp)).1]
  have h3 := strpbrk_append name
    (params ++ ')' :: ' ' :: 'a' :: 't' :: ' ' :: (file ++ ':' :: digits)) "( ".toList '('
    (fun x hx => by
      have := hname2 x hx
      simp [this.1, this.2]) (by decide)
  have h4 : strstr (name ++ '(' :: (params ++ ')' :: ' ' :: 'a' :: 't' :: ' ' ::
      (file ++ ':' :: digits))) " at ".toList = some (name.length + 1 + params.length + 1) := by
    have e : name ++ '(' :: (params ++ ')' :: ' ' :: 'a' :: 't' :: ' ' ::
        (file ++ ':' :: digits)) =
        (name ++ ['(']) ++ (params ++ ')' :: ' ' :: 'a' :: 't' :: ' ' ::
          (file ++ ':' :: digits)) := by simp
    rw [e]
    show strstr _ (' ' :: "at ".toList) = _
    rw [strstr_skip]
    · show Option.map _ (strstr _ " at ".toList) = _
      rw [strstr_at_params _ _ hparams]
      simp
      omega
    · intro x hx
      rcases List.mem_append.mp hx with hx | hx
      · exact (hname2 x hx).1
      · rw [List.mem_singleton.mp hx]
        decide
  have h5 : (name ++ '(' :: (params ++ ')' :: ' ' :: 'a' :: 't' :: ' ' ::
      (file ++ ':' :: digits))).drop (name.length + 1 + params.length + 1 + 4) =
      file ++ ':' :: digits := by
    have e : name ++ '(' :: (params ++ ')' :: ' ' :: 'a' :: 't' :: ' ' ::
        (file ++ ':' :: digits)) =
        (name ++ '(' :: (params ++ [')', ' ', 'a', 't', ' '])) ++ (file ++ ':' :: digits) := by
      simp
    rw [e]
    apply List.drop_left'
    simp
    omega
  have h6 := strchr_append file digits ':' hfile
  have h7 := atoi_digits digits hdigits hline
  have h8 := parse_address_hex hex hhex haddr
  unfold function_entry
  rw [List.cons_append, List.cons_append] at h1
  simp only [List.cons_append, h1]
  have h9 : List.drop (('0' :: 'x' :: hex).length + 1)
      ('0' :: 'x' :: (hex ++ ' ' :: (name ++ '(' :: (params ++ ')' :: ' ' :: 'a' :: 't' :: ' ' ::
        (file ++ ':' :: digits))))) =
      name ++ '(' :: (params ++ ')' :: ' ' :: 'a' :: 't' :: ' ' :: (file ++ ':' :: digits)) := by
    have e : '0' :: 'x' :: (hex ++ ' ' :: (name ++ '(' :: (params ++ ')' :: ' ' :: 'a' :: 't' ::
        ' ' :: (file ++ ':' :: digits)))) =
        ('0' :: 'x' :: (hex ++ [' '])) ++ (name ++ '(' :: (params ++ ')' :: ' ' :: 'a' :: 't' ::
          ' ' :: (file ++ ':' :: digits))) := by simp
    rw [e]
    apply List.drop_left'
    simp
  rw [h9]
  simp only [h2, h3, h4, h5, h6, h7, h8, List.take_left, List.drop_left',
    List.take_left' rfl]
  have h10 : List.drop (file.length + 1) (file ++ ':' :: digits) = digits := by
    have e : file ++ ':' :: digits = (file ++ [':']) ++ digits := by simp
    rw [e]
    apply List.drop_left'
    simp
  rw [h10, h7]

/-- C5 (as amended): for the line `0x<hex> <name>(<params>) at <file>:<line>`
(address word of at most 31 characters, `<name>` non-empty without space or
`(`, `<params>` without ` at `, `<file>` without `:`, `<line>` decimal digits)
with the value of `<hex>` below 2^64 and the value of `<line>` below 2^31, the
loop body of `gmi_symbol_list_functions` appends one record with that address,
name, file and line. -/
theorem functions_line_entry (st : functions_state) (hex name params file digits : List Char)
    (hhex : ∀ c ∈ hex, isxdigit c = true) (hlen : ("0x".toList ++ hex).length ≤ 31)
    (hname : name ≠ []) (hname2 : ∀ c ∈ name, c ≠ ' ' ∧ c ≠ '(')
    (hparams : ¬ " at ".toList <:+: params) (hfile : ':' ∉ file)
    (hdigits : ∀ c ∈ digits, isdigit c = true)
    (haddr : hex_value hex < 2 ^ 64) (hline : dec_value digits < 2 ^ 31) :
    functions_line st ("0x".toList ++ hex ++ " ".toList ++ name ++ "(".toList ++ params ++
        ")".toList ++ " at ".toList ++ file ++ ":".toList ++ digits) =
      some { st with list := st.list ++ [{ mi_alloc_function with
          name := some name
          file := some file
          line := (dec_value digits : Int)
          addr := hex_value hex }] } := by
  have e : "0x".toList ++ hex ++ " ".toList ++ name ++ "(".toList ++ params ++
        ")".toList ++ " at ".toList ++ file ++ ":".toList ++ digits =
      '0' :: 'x' :: hex ++ ' ' :: (name ++ '(' :: (params ++
          ')' :: ' ' :: 'a' :: 't' :: ' ' :: (file ++ ':' :: digits))) := by
    simp
  rw [e]
  have hw : sscanf_31s ('0' :: 'x' :: hex ++ ' ' :: (name ++ '(' :: (params ++
          ')' :: ' ' :: 'a' :: 't' :: ' ' :: (file ++ ':' :: digits)))) =
      some ('0' :: 'x' :: hex) := by
    apply sscanf_31s_word
    · intro c hc
      rcases List.mem_cons.mp hc with e | hc
      · rw [e]; decide
      · rcases List.mem_cons.mp hc with e | hc
        · rw [e]; decide
        · exact isxdigit_not_isspace c (hhex c hc)
    · simp
    · simpa using hlen
  have hentry := function_entry_full st.current_file hex name params file digits hhex hname
    hname2 hparams hfile hdigits haddr hline
  unfold functions_line
  have hdw : List.dropWhile is_blank ('0' :: 'x' :: hex ++ ' ' :: (name ++ '(' :: (params ++
          ')' :: ' ' :: 'a' :: 't' :: ' ' :: (file ++ ':' :: digits)))) =
      '0' :: 'x' :: hex ++ ' ' :: (name ++ '(' :: (params ++
          ')' :: ' ' :: 'a' :: 't' :: ' ' :: (file ++ ':' :: digits))) := by
    rw [List.cons_append, List.dropWhile_cons]
    have : is_blank '0' = false := by decide
    rw [this]
    rfl
  simp only [hdw, hw, hentry]
  simp

theorem gmi_symbol_list_functions_parse_eq (output : List Char) :
    gmi_symbol_list_functions_parse output =
      ((text_lines output).foldlM functions_line { current_file := [], list := [] }).map
        fun st => st.list := by
  unfold gmi_symbol_list_functions_parse
  rw [strtok_loop_eq functions_line _ _ _ _ (Nat.lt_succ_self _)]

theorem file_header_fits (current_file name rest : List Char) (hname : ':' ∉ name)
    (hlen : name.length < 512) :
    file_header current_file (name ++ ':' :: rest) = some name := by
  unfold file_header
  rw [strchr_append name rest ':' hname]
  simp [hlen]

theorem functions_line_header (st : functions_state) (name rest : List Char)
    (hname : ':' ∉ name) (hlen : name.length < 512) :
    functions_line st ("File ".toList ++ name ++ ':' :: rest) =
      some { st with current_file := name } := by
  have e : "File ".toList ++ name ++ ':' :: rest =
      'F' :: 'i' :: 'l' :: 'e' :: ' ' :: (name ++ ':' :: rest) := by simp
  have hb : is_blank 'F' = false := by decide
  unfold functions_line
  rw [e]
  simp only [List.dropWhile_cons, hb]
  simp [file_header_fits st.current_file name rest hname hlen]

theorem functions_line_other (st : functions_state) (tok : List Char)
    (hnh : (tok.dropWhile is_blank).take 5 ≠ "File ".toList) :
    ∃ st1, functions_line st tok = some st1 ∧ st1.current_file = st.current_file := by
  unfold functions_line
  simp only [hnh, if_false]
  by_cases h0 : (tok.dropWhile is_blank).head? = some '0' ∧
      (tok.dropWhile is_blank).tail.head? = some 'x'
  · simp only [h0, and_self, if_true]
    cases hw : sscanf_31s (tok.dropWhile is_blank) with
    | some w => exact ⟨_, rfl, rfl⟩
    | none =>
      exfalso
      cases hl : tok.dropWhile is_blank with
      | nil => rw [hl] at h0; simp at h0
      | cons x xs =>
        rw [hl] at h0 hw
        have hx : x = '0' := by simpa using h0.1
        subst hx
        have hs : isspace '0' = false := by decide
        simp [sscanf_31s, List.dropWhile_cons, List.takeWhile_cons, hs] at hw
  · simp only [h0, if_false]
    exact ⟨st, rfl, rfl⟩

theorem functions_between (between : List (List Char))
    (hbetween : ∀ t ∈ between, (t.dropWhile is_blank).take 5 ≠ "File ".toList)
    (st : functions_state) :
    ∃ st1, between.foldlM functions_line st = some st1 ∧
      st1.current_file = st.current_file := by
  induction between generalizing st with
  | nil => exact ⟨st, rfl, rfl⟩
  | cons t ts ih =>
    obtain ⟨s1, h1, h2⟩ := functions_line_other st t (hbetween t (by simp))
    obtain ⟨s2, h3, h4⟩ := ih (fun u hu => hbetween u (by simp [hu])) s1
    refine ⟨s2, ?_, h4.trans h2⟩
    rw [List.foldlM_cons, h1]
    exact h3

theorem function_entry_file_default (current_file line addr_buf : List Char) (i : Nat)
    (hsp : strchr line ' ' = some i)
    (hat : strstr ((line.drop (i + 1)).dropWhile (· = ' ')) " at ".toList = none)
    (hcf : current_file ≠ []) :
    (function_entry current_file line addr_buf).file = some current_file := by
  unfold function_entry
  simp only [hsp, hat, hcf, ne_eq, not_false_eq_true, if_true]

/-- The file of an entry defaults to the header seen last: when the name in the
header `File <name>:` has at most 511 characters, no line between the header
and the entry is a `File ` header, and the entry has a space after its address
word and no ` at ` clause, the record appended for the entry has file
`<name>`. -/
theorem functions_file_default (st : functions_state) (name rest entry : List Char)
    (between : List (List Char)) (i : Nat)
    (hname : ':' ∉ name) (hne : name ≠ []) (hlen : name.length < 512)
    (hbetween : ∀ t ∈ between, (t.dropWhile is_blank).take 5 ≠ "File ".toList)
    (h0 : (entry.dropWhile is_blank).head? = some '0')
    (hx : (entry.dropWhile is_blank).tail.head? = some 'x')
    (hsp : strchr (entry.dropWhile is_blank) ' ' = some i)
    (hat : strstr (((entry.dropWhile is_blank).drop (i + 1)).dropWhile (· = ' '))
      " at ".toList = none) :
    ∃ st1 f, (("File ".toList ++ name ++ ':' :: rest) :: (between ++ [entry])).foldlM
        functions_line st = some st1 ∧
      st1.list.getLast? = some f ∧ f.file = some name := by
  obtain ⟨s1, h1, h2⟩ := functions_between between hbetween { st with current_file := name }
  have hnh : (entry.dropWhile is_blank).take 5 ≠ "File ".toList := by
    cases hl : entry.dropWhile is_blank with
    | nil => simp
    | cons c cs =>
      rw [hl] at h0
      have hc : c = '0' := by simpa using h0
      subst hc
      simp
  obtain ⟨w, hw⟩ : ∃ w, sscanf_31s (entry.dropWhile is_blank) = some w := by
    cases hl : entry.dropWhile is_blank with
    | nil => rw [hl] at h0; simp at h0
    | cons c cs =>
      rw [hl] at h0
      have hc : c = '0' := by simpa using h0
      subst hc
      have hs : isspace '0' = false := by decide
      simp [sscanf_31s, List.dropWhile_cons, List.takeWhile_cons, hs]
  have hentry : functions_line s1 entry =
      some { s1 with list := s1.list ++
        [function_entry s1.current_file (entry.dropWhile is_blank) w] } := by
    unfold functions_line
    simp only [hnh, if_false, h0, hx, and_self, if_true, hw]
  refine ⟨{ s1 with list := s1.list ++
      [function_entry s1.current_file (entry.dropWhile is_blank) w] },
    function_entry s1.current_file (entry.dropWhile is_blank) w, ?_, ?_, ?_⟩
  · rw [List.foldlM_cons, functions_line_header st name rest hname hlen]
    simp only [Option.bind_eq_bind, Option.some_bind]
    rw [List.foldlM_append, h1]
    simp only [Option.bind_eq_bind, Option.some_bind, List.foldlM_cons, hentry, List.foldlM_nil]
    rfl
  · simp
  · rw [h2]
    exact function_entry_file_default _ _ _ i hsp hat hne

theorem sscanf_d_digits (ds rest : List Char) (hds : ∀ c ∈ ds, isdigit c = true)
    (hne : ds ≠ []) (hrest : ∀ c, rest.head? = some c → isdigit c = false)
    (hval : dec_value ds < 2 ^ 31) : sscanf_d (ds ++ rest) = some (dec_value ds : Int) := by
  unfold sscanf_d scan_int
  obtain ⟨x, xs, rfl⟩ := List.exists_cons_of_ne_nil hne
  have hx := hds x (by simp)
  have h1 : (x :: xs ++ rest).dropWhile isspace = x :: xs ++ rest := by
    simp [List.dropWhile_cons, isdigit_not_isspace x hx]
  have h2 : x ≠ '-' ∧ x ≠ '+' := by
    constructor <;> intro e <;> subst e <;> revert hx <;> decide
  have h3 : (x :: xs ++ rest).takeWhile isdigit = x :: xs := by
    rw [List.takeWhile_append_of_pos hds]
    cases rest with
    | nil => simp
    | cons r rs => simp [List.takeWhile_cons, hrest r rfl]
  have h4 : (x :: xs ++ rest).head? ≠ some '-' ∧ (x :: xs ++ rest).head? ≠ some '+' := by
    simp [h2.1, h2.2]
  simp only [h1, h3, h4.1, h4.2, or_self, if_false, decide_False, Bool.false_eq_true,
    reduceCtorEq, Option.some.injEq]
  unfold to_int32 clamp_long
  have hv : (dec_value (x :: xs) : Int) < 2 ^ 31 := by exact_mod_cast hval
  have hv0 : (0 : Int) ≤ dec_value (x :: xs) := Int.ofNat_nonneg _
  omega

/-- C5 witness: the line of the specification,
`0x0000000000401136 main(int, char**) at main.c:10`, as one token of the loop
and as the whole captured text. -/
theorem functions_line_entry_witness :
    functions_line { current_file := [], list := [] }
        ("0x".toList ++ "0000000000401136".toList ++ " ".toList ++ "main".toList ++ "(".toList ++
          "int, char**".toList ++ ")".toList ++ " at ".toList ++ "main.c".toList ++ ":".toList ++
          "10".toList) =
      some { current_file := [],
             list := [{ name := some "main".toList, file := some "main.c".toList, line := 10,
                        addr := 0x401136, return_type := none, signature := none,
                        is_static := 0 }] } ∧
    gmi_symbol_list_functions_parse
        "0x0000000000401136 main(int, char**) at main.c:10".toList =
      some [{ name := some "main".toList, file := some "main.c".toList, line := 10,
              addr := 0x401136, return_type := none, signature := none, is_static := 0 }] :=
  ⟨(functions_line_entry { current_file := [], list := [] } "0000000000401136".toList
      "main".toList "int, char**".toList "main.c".toList "10".toList
      (by decide) (by decide) (by decide) (by decide) (by decide) (by decide) (by decide)
      (by decide) (by decide)).trans (by decide), by decide⟩

/-- C5 counterexample: for `0x10000000000000000 f() at a.c:1` the record's
address is the largest 64-bit pointer, not the value 2^64 of the hexadecimal
token; for `0x1 f() at a.c:2147483648` the record's line is -2147483648, not
the value of the digits. -/
theorem functions_line_entry_overflow :
    (functions_line { current_file := [], list := [] }
        "0x10000000000000000 f() at a.c:1".toList =
      some { current_file := [],
             list := [{ name := some "f".toList, file := some "a.c".toList, line := 1,
                        addr := 2 ^ 64 - 1, return_type := none, signature := none,
                        is_static := 0 }] } ∧
      hex_value "10000000000000000".toList = 2 ^ 64) ∧
    (functions_line { current_file := [], list := [] }
        "0x1 f() at a.c:2147483648".toList =
      some { current_file := [],
             list := [{ name := some "f".toList, file := some "a.c".toList, line := -2147483648,
                        addr := 1, return_type := none, signature := none,
                        is_static := 0 }] } ∧
      dec_value "2147483648".toList = 2147483648) := by
  decide

set_option maxRecDepth 100000 in
/-- C6: failing input.  The header `File <F>:` with a name of 512 characters
makes the copy into `char current_file[512]` write past the end of the array,
so the extractor has no defined result for a text in which an address-prefixed
entry follows that header; with 511 characters the entry gets file `<F>`. -/
theorem functions_file_header_overflow :
    file_header [] (List.replicate 512 'a' ++ ":".toList) = none ∧
    gmi_symbol_list_functions_parse
        ("File ".toList ++ List.replicate 512 'a' ++ ":\n0x401136 main (void)".toList) = none ∧
    gmi_symbol_list_functions_parse
        ("File ".toList ++ List.replicate 511 'a' ++ ":\n0x401136 main (void)".toList) =
      some [{ name := some "main".toList, file := some (List.replicate 511 'a'), line := 0,
              addr := 0x401136, return_type := none, signature := none, is_static := 0 }] := by
  decide

/-- C8: failing input.  For the listing line `42<TAB>1, 2, 3` the record has
line number 42 but text `, 2, 3`: the leading digit of the source text is
skipped together with the line number; for `42<TAB>int x = 10;` the text is
`int x = 10;`. -/
theorem source_list_text_loses_digits :
    gmi_source_list_parse "42\t1, 2, 3".toList =
      some [{ line_num := 42, text := some ", 2, 3".toList, has_breakpoint := 0,
              is_current := 0 }] ∧
    gmi_source_list_parse "42\tint x = 10;".toList =
      some [{ line_num := 42, text := some "int x = 10;".toList, has_breakpoint := 0,
              is_current := 0 }] := by
  decide

/-! ## Catchpoint records from breakpoint records -/

/-- C11: when the terminal response arrived, the result of `send_catch_command`
is determined by the breakpoint record `b` that `mi_res_bkpt` parses: with a
record, the catchpoint record has its number, enabled state, hit count and
condition (absent iff `b.cond` is absent) and `temporary = 1` exactly when the
disposition is `d_del`; without one no catchpoint record is returned.  The
function is not given the temporary flag of the request: it receives only the
command text. -/
theorem send_catch_command_record {σ : Type} (T : Transport σ) (h : mi_h σ)
    (command : List Char) (b : Option mi_bkpt)
    (hresp : (T.mi_get_response (T.mi_send h command)).1 ≠ 0)
    (hb : (T.mi_res_bkpt (T.mi_get_response (T.mi_send h command)).2).1 = b) :
    (send_catch_command T h command).1 =
      b.map fun bkpt =>
        { number := bkpt.number
          type := mi_catch_type.mi_catch_throw
          enabled := bkpt.enabled
          condition := bkpt.cond
          times := bkpt.times
          event := none
          temporary := if bkpt.disp = mi_bkp_disp.d_del then 1 else 0 } := by
  unfold send_catch_command
  simp only [hresp, if_false]
  subst hb
  split
  · next bk hbk => rw [hbk]; rfl
  · next hbk => rw [hbk]; rfl

/-- C11 witness: a breakpoint record with number 7, condition `x > 0` and
disposition `d_del` parsed from the reply to `catch throw` (no `t` prefix). -/
theorem send_catch_command_record_witness :
    (send_catch_command spec_transport
        { catch_console := 0, catched_console := none,
          ext := { replies := [{ fragments := [], terminal := true,
                                 bkpt := some ⟨7, 1, 2, some "x > 0".toList,
                                   mi_bkp_disp.d_del⟩ }],
                   last := none } }
        "catch throw".toList).1 =
      some { number := 7, type := mi_catch_type.mi_catch_throw, enabled := 1,
             condition := some "x > 0".toList, times := 2, event := none, temporary := 1 } :=
  send_catch_command_record spec_transport _ _
    (some ⟨7, 1, 2, some "x > 0".toList, mi_bkp_disp.d_del⟩) (by decide) (by decide)

/-! ## Commands of the operations -/

theorem sent_send_cli_command {σ : Type} (T : Transport σ)
    (h : mi_h (σ × List (List Char))) (cmd : List Char) :
    sent (send_cli_command (logged T) (some h) (some cmd)).2 = h.ext.2 ++ [cmd] := by
  unfold send_cli_command
  simp only [logged, mi_h.withLog, mi_h.inner]
  split <;> rfl

theorem send_cli_command_handle {σ : Type} (T : Transport σ) (h : mi_h σ) (cmd : List Char) :
    ∃ h1, (send_cli_command T (some h) (some cmd)).2 = some h1 := by
  unfold send_cli_command
  simp only
  split <;> exact ⟨_, rfl⟩

theorem to_int32_of_range (v : Int) (h1 : -(2 ^ 31) ≤ v) (h2 : v < 2 ^ 31) : to_int32 v = v := by
  unfold to_int32
  omega

theorem sent_gmi_source_list {σ : Type} (T : Transport σ) (h : mi_h (σ × List (List Char)))
    (file : Option (List Char)) (start count : Int) :
    ∃ cmd, sent (gmi_source_list (logged T) (some h) file start count).2 = h.ext.2 ++ [cmd] := by
  unfold gmi_source_list
  exact ⟨_, sent_send_cli_command T h _⟩

/-- C18: for every non-null handle and every transport behaviour, when
`start + count - 1` is inside the `int` range and the text has at most 511
characters, exactly one command is sent by `gmi_source_list` and it is the
command of the specification for the given file, start and count:
`list <file>:<start>,<start+count-1>`, `list <file>:<start>`, `list <file>:1`,
`list *$pc,<count>` or `list`. -/
theorem source_list_command {σ : Type} (T : Transport σ) (h : mi_h (σ × List (List Char)))
    (file : Option (List Char)) (start count : Int)
    (hsum : -(2 ^ 31) ≤ start + count - 1 ∧ start + count - 1 < 2 ^ 31)
    (hfit : (list_grammar file start count).length ≤ 511) :
    sent (gmi_source_list (logged T) (some h) file start count).2 =
      h.ext.2 ++ [list_grammar file start count] := by
  have key : ∀ cmd : List Char, cmd = list_grammar file start count →
      snprintf 512 cmd = list_grammar file start count := by
    intro cmd hc
    rw [hc]
    exact snprintf_of_fits 512 _ hfit
  unfold gmi_source_list
  simp only
  cases file with
  | none =>
    by_cases hc : 0 < count
    · have e := key ("list *$pc,".toList ++ format_d count) (by simp [list_grammar, hc])
      simp only [gt_iff_lt, hc, if_true, e]
      exact sent_send_cli_command T h _
    · have e := key "list".toList (by simp [list_grammar, hc])
      simp only [gt_iff_lt, hc, if_false, e]
      exact sent_send_cli_command T h _
  | some f =>
    by_cases hst : 0 < start
    · by_cases hc : 0 < count
      · have e := key ("list ".toList ++ f ++ ":".toList ++ format_d start ++ ",".toList ++
            format_d (to_int32 (start + count - 1)))
          (by rw [to_int32_of_range _ hsum.1 hsum.2]; simp [list_grammar, hst, hc])
        simp only [gt_iff_lt, hst, hc, if_true, e]
        exact sent_send_cli_command T h _
      · have e := key ("list ".toList ++ f ++ ":".toList ++ format_d start)
          (by simp [list_grammar, hst, hc])
        simp only [gt_iff_lt, hst, hc, if_true, if_false, e]
        exact sent_send_cli_command T h _
    · have e := key ("list ".toList ++ f ++ ":1".toList) (by simp [list_grammar, hst])
      simp only [gt_iff_lt, hst, if_false, e]
      exact sent_send_cli_command T h _

/-- C18 witness: `list main.c:5,7` for file `main.c`, start 5 and count 3. -/
theorem source_list_command_witness :
    sent (gmi_source_list (logged spec_transport)
        (some { catch_console := 0, catched_console := none,
                ext := ({ replies := [], last := none }, []) })
        (some "main.c".toList) 5 3).2 = ["list main.c:5,7".toList] :=
  (source_list_command spec_transport
    { catch_console := 0, catched_console := none, ext := ({ replies := [], last := none }, []) }
    (some "main.c".toList) 5 3 (by decide) (by decide)).trans (by decide)

/-- C20: failing input, every function name.  For every non-null handle and
every function name `gmi_source_list_function` sends the one command `list`,
without the name, and returns what `gmi_source_list(h, NULL, 0, 0)` returns:
the chain parsed from the reply to `list`. -/
theorem source_list_function_sends_list {σ : Type} (T : Transport σ)
    (h : mi_h (σ × List (List Char))) (function : List Char) :
    sent (gmi_source_list_function (logged T) (some h) (some function)).2 =
        h.ext.2 ++ ["list".toList] ∧
      gmi_source_list_function (logged T) (some h) (some function) =
        gmi_source_list (logged T) (some h) none 0 0 := by
  refine ⟨?_, rfl⟩
  show sent (gmi_source_list (logged T) (some h) none 0 0).2 = _
  unfold gmi_source_list
  simp only [gt_iff_lt, lt_self_iff_false, if_false]
  exact sent_send_cli_command T h _

theorem sent_gmi_source_list_address {σ : Type} (T : Transport σ)
    (h : mi_h (σ × List (List Char))) (addr : Nat) :
    ∃ cmds, sent (gmi_source_list_address (logged T) (some h) addr).2 = h.ext.2 ++ cmds ∧
      cmds.length ≤ 2 := by
  unfold gmi_source_list_address
  simp only
  by_cases ha : addr = 0
  · simp only [ha, if_true]
    exact ⟨[], by simp [sent], by simp⟩
  · simp only [ha, if_false]
    have h1 := sent_send_cli_command T h (snprintf 512 ("list *".toList ++ format_p addr))
    obtain ⟨h2, hh2⟩ := send_cli_command_handle (logged T) h
      (snprintf 512 ("list *".toList ++ format_p addr))
    cases ho : (send_cli_command (logged T) (some h)
        (some (snprintf 512 ("list *".toList ++ format_p addr)))).1 with
    | none => exact ⟨_, h1, by simp⟩
    | some output =>
      simp only
      rw [hh2] at h1 ⊢
      obtain ⟨cmd, hcmd⟩ := sent_gmi_source_list T h2 none 0 10
      refine ⟨[snprintf 512 ("list *".toList ++ format_p addr), cmd], ?_, by simp⟩
      rw [hcmd]
      simp only [sent] at h1
      rw [h1]
      simp

/-- Dispatch bound of the code: for every transport behaviour, every behaviour
of `gmi_stack_info_frame`, every non-null handle and every call of a public
operation, the commands sent with capture enabled are at most one, and at most
two for `gmi_source_list_address`. -/
theorem dispatch_count {σ : Type} (T : Transport σ)
    (stack_info_frame : mi_h σ → Option mi_frames × mi_h σ)
    (h : mi_h (σ × List (List Char))) (op : core_operation) :
    ∃ cmds, sent (op.after (logged T) (logged_frame stack_info_frame) (some h)) =
        h.ext.2 ++ cmds ∧ cmds.length ≤ op.dispatch_bound := by
  have one : ∀ cmd : List Char, ∃ cmds : List (List Char),
      h.ext.2 ++ [cmd] = h.ext.2 ++ cmds ∧ cmds.length ≤ 1 := fun cmd => ⟨[cmd], rfl, by simp⟩
  have zero : ∃ cmds : List (List Char), sent (some h) = h.ext.2 ++ cmds ∧ cmds.length ≤ 1 :=
    ⟨[], by simp [sent], by simp⟩
  cases op with
  | source_list file start count =>
    obtain ⟨cmd, hcmd⟩ := sent_gmi_source_list T h file start count
    exact ⟨[cmd], hcmd, by simp [core_operation.dispatch_bound]⟩
  | source_list_function function =>
    cases function with
    | none => exact zero
    | some f =>
      obtain ⟨cmd, hcmd⟩ := sent_gmi_source_list T h none 0 0
      exact ⟨[cmd], hcmd, by simp [core_operation.dispatch_bound]⟩
  | source_list_address addr => exact sent_gmi_source_list_address T h addr
  | source_current_line =>
    simp only [core_operation.after, gmi_source_current_line, core_operation.dispatch_bound]
    cases hf : (logged_frame stack_info_frame h).1 with
    | none =>
      simp only
      refine ⟨[], ?_, by simp⟩
      simp [sent, logged_frame, mi_h.withLog]
    | some frame =>
      simp only
      obtain ⟨cmd, hcmd⟩ := sent_gmi_source_list T (logged_frame stack_info_frame h).2
        frame.file frame.line 1
      refine ⟨[cmd], ?_, by simp⟩
      rw [hcmd]
      simp [logged_frame, mi_h.withLog]
  | symbol_info_address symbol =>
    cases symbol with
    | none => exact zero
    | some sym =>
      simp only [core_operation.after, gmi_symbol_info_address, core_operation.dispatch_bound]
      rw [sent_send_cli_command]
      exact one _
  | symbol_at_address addr =>
    simp only [core_operation.after, gmi_symbol_at_address, core_operation.dispatch_bound]
    by_cases ha : addr = 0
    · simp only [ha, if_true]
      exact zero
    · simp only [ha, if_false]
      refine ⟨[snprintf 512 ("info symbol ".toList ++ format_p addr)], ?_, by simp⟩
      exact sent_send_cli_command T h _
  | symbol_info_line file line =>
    cases file with
    | none => exact zero
    | some f =>
      simp only [core_operation.after, gmi_symbol_info_line, core_operation.dispatch_bound]
      by_cases hl : line < 1
      · simp only [hl, if_true]
        exact zero
      · simp only [hl, if_false]
        refine ⟨[snprintf 512 ("info line ".toList ++ f ++ ":".toList ++ format_d line)], ?_,
          by simp⟩
        exact sent_send_cli_command T h _
  | symbol_list_functions regexp =>
    simp only [core_operation.after, gmi_symbol_list_functions, core_operation.dispatch_bound]
    refine ⟨[match regexp with
      | some re => snprintf 512 ("info functions ".toList ++ re)
      | none => snprintf 512 "info functions".toList], ?_, by simp⟩
    exact sent_send_cli_command T h _
  | symbol_ptype type_name =>
    cases type_name with
    | none => exact zero
    | some tn =>
      simp only [core_operation.after, gmi_symbol_ptype, core_operation.dispatch_bound]
      refine ⟨[snprintf 512 ("ptype ".toList ++ tn)], ?_, by simp⟩
      exact sent_send_cli_command T h _
  | symbol_list_variables regexp =>
    simp only [core_operation.after, gmi_symbol_list_variables, core_operation.dispatch_bound]
    refine ⟨[match regexp with
      | some re => snprintf 512 ("info variables ".toList ++ re)
      | none => snprintf 512 "info variables".toList], ?_, by simp⟩
    exact sent_send_cli_command T h _

/-- C19: failing input.  `gmi_source_list_address` with address 0x401136, on a
debugger that answers both commands, dispatches `list *0x401136` and then
`list *$pc,10`: two captured dispatches in one call.  The reply to the first
command (line 42) is dropped unread, and the chain returned holds the reply to
the second (line 7), which does not depend on the address. -/
theorem source_list_address_dispatches_twice :
    sent (gmi_source_list_address (logged spec_transport)
        (some { catch_console := 0, catched_console := none,
                ext := ({ replies := [{ fragments := ["42\tint x;\n".toList], terminal := true,
                                        bkpt := none },
                                      { fragments := ["7\tint y;\n".toList], terminal := true,
                                        bkpt := none }],
                          last := none }, []) })
        0x401136).2 = ["list *0x401136".toList, "list *$pc,10".toList] ∧
    (gmi_source_list_address (logged spec_transport)
        (some { catch_console := 0, catched_console := none,
                ext := ({ replies := [{ fragments := ["42\tint x;\n".toList], terminal := true,
                                        bkpt := none },
                                      { fragments := ["7\tint y;\n".toList], terminal := true,
                                        bkpt := none }],
                          last := none }, []) })
        0x401136).1 =
      [{ line_num := 7, text := some "int y;".toList, has_breakpoint := 0, is_current := 0 }] := by
  decide

/-- C17 (as amended): `gmi_symbol_info_address`, `gmi_symbol_ptype` and
`gmi_symbol_info_line` return NULL and leave the handle as it was, so that
nothing is sent, when the handle is null, when the required string is null
and, for `gmi_symbol_info_line`, when the line number is below 1. -/
theorem required_argument_checks {σ : Type} (T : Transport σ) (h : Option (mi_h σ))
    (symbol type_name file : Option (List Char)) (line : Int) :
    (gmi_symbol_info_address T none symbol = (none, none) ∧
      gmi_symbol_info_address T h none = (none, h)) ∧
    (gmi_symbol_ptype T none type_name = (none, none) ∧
      gmi_symbol_ptype T h none = (none, h)) ∧
    (gmi_symbol_info_line T none file line = (some none, none) ∧
      gmi_symbol_info_line T h none line = (some none, h) ∧
      (line < 1 → gmi_symbol_info_line T h file line = (some none, h))) := by
  refine ⟨⟨rfl, ?_⟩, ⟨rfl, ?_⟩, rfl, ?_, ?_⟩
  · cases h <;> rfl
  · cases h <;> rfl
  · cases h <;> rfl
  · intro hl
    cases h with
    | none => rfl
    | some h0 =>
      cases file with
      | none => rfl
      | some f => simp [gmi_symbol_info_line, hl]

/-- C17 witness: `gmi_symbol_info_line` with line 0 returns NULL and leaves the
log of sent commands empty. -/
theorem required_argument_checks_witness :
    gmi_symbol_info_line (logged spec_transport)
        (some { catch_console := 0, catched_console := none,
                ext := ({ replies := [], last := none }, []) })
        (some "main.c".toList) 0 =
      (some none, some { catch_console := 0, catched_console := none,
                         ext := ({ replies := [], last := none }, []) }) :=
  (required_argument_checks (logged spec_transport)
    (some { catch_console := 0, catched_console := none,
            ext := ({ replies := [], last := none }, []) })
    none none (some "main.c".toList) 0).2.2.2.2 (by decide)

/-- C17 counterexample: with an empty required string the three operations do
send a command: `info address `, `ptype ` and `info line :1`. -/
theorem empty_argument_is_sent :
    sent (gmi_symbol_info_address (logged spec_transport)
        (some { catch_console := 0, catched_console := none,
                ext := ({ replies := [], last := none }, []) })
        (some [])).2 = ["info address ".toList] ∧
    sent (gmi_symbol_ptype (logged spec_transport)
        (some { catch_console := 0, catched_console := none,
                ext := ({ replies := [], last := none }, []) })
        (some [])).2 = ["ptype ".toList] ∧
    sent (gmi_symbol_info_line (logged spec_transport)
        (some { catch_console := 0, catched_console := none,
                ext := ({ replies := [], last := none }, []) })
        (some []) 1).2 = ["info line :1".toList] := by
  decide

/-! ## Symbol records -/

/-- C13: for every captured text `gmi_symbol_info_address` returns a record
whose name is the requested symbol and whose type tag is `function` when the
text contains `is a function`, otherwise `variable` when it contains
`is a variable`, otherwise `static` when it contains `is static`, and otherwise
unset. -/
theorem symbol_info_address_tag {σ : Type} (T : Transport σ) (h : mi_h σ)
    (symbol output : List Char)
    (hout : (send_cli_command T (some h)
      (some (snprintf 512 ("info address ".toList ++ symbol)))).1 = some output) :
    ∃ sym, (gmi_symbol_info_address T (some h) (some symbol)).1 = some sym ∧
      sym.name = some symbol ∧ sym.type = symbol_tag output := by
  refine ⟨symbol_info_address_record symbol output, ?_, rfl, ?_⟩
  · unfold gmi_symbol_info_address
    simp only [hout, Option.map_some']
  · unfold symbol_info_address_record symbol_tag
    simp only [strstr_isSome_iff]

set_option maxRecDepth 100000 in
/-- C13 witness: a text that contains both `is a variable` and `is static`
gives the tag `variable`. -/
theorem symbol_info_address_tag_witness :
    ∃ sym, (gmi_symbol_info_address spec_transport
        (some { catch_console := 0, catched_console := none,
                ext := { replies := [{ fragments :=
                    ["Symbol \"n\" is a variable at frame base reg $rbp offset -4, is static.".toList],
                                       terminal := true, bkpt := none }], last := none } })
        (some "n".toList)).1 = some sym ∧
      sym.name = some "n".toList ∧ sym.type = some "variable".toList := by
  obtain ⟨sym, h1, h2, h3⟩ := symbol_info_address_tag spec_transport
    { catch_console := 0, catched_console := none,
      ext := { replies := [{ fragments :=
          ["Symbol \"n\" is a variable at frame base reg $rbp offset -4, is static.".toList],
                             terminal := true, bkpt := none }], last := none } }
    "n".toList
    "Symbol \"n\" is a variable at frame base reg $rbp offset -4, is static.".toList
    (by decide)
  exact ⟨sym, h1, h2, h3.trans (by decide)⟩

/-- C16: for every type name and every captured body `gmi_symbol_ptype` returns
a record with that name, the whole body as members, and the kind given by the
first of the tests `type = struct`, `type = union`, `type = enum`,
`type = class` that the body passes, `other` when it passes none. -/
theorem symbol_ptype_record {σ : Type} (T : Transport σ) (h : mi_h σ)
    (type_name body : List Char)
    (hout : (send_cli_command T (some h)
      (some (snprintf 512 ("ptype ".toList ++ type_name)))).1 = some body) :
    (gmi_symbol_ptype T (some h) (some type_name)).1 =
      some { mi_alloc_type_info with
               name := some type_name
               kind := some (ptype_kind body)
               members := some body } := by
  simp only [gmi_symbol_ptype, hout, Option.map_some', ptype_kind, strstr_isSome_iff]

set_option maxRecDepth 100000 in
/-- C16 witness: a body that contains `type = union` and, later,
`type = struct` has kind `struct`, the first test in the fixed order. -/
theorem symbol_ptype_record_witness :
    (gmi_symbol_ptype spec_transport
        (some { catch_console := 0, catched_console := none,
                ext := { replies := [{ fragments :=
                    ["type = union { int i; } /* not type = struct */".toList],
                                       terminal := true, bkpt := none }], last := none } })
        (some "u".toList)).1 =
      some { name := some "u".toList, kind := some "struct".toList, size := 0, file := none,
             line := 0,
             members := some "type = union { int i; } /* not type = struct */".toList } :=
  (symbol_ptype_record spec_transport
    { catch_console := 0, catched_console := none,
      ext := { replies := [{ fragments :=
          ["type = union { int i; } /* not type = struct */".toList],
                             terminal := true, bkpt := none }], last := none } }
    "u".toList "type = union { int i; } /* not type = struct */".toList
    (by decide)).trans (by decide)

/-- C14: failing input.  For the captured text `main`, which contains no
space, `gmi_symbol_at_address` returns a record with the address of the request
and no name; for `main + 4 in section .text` the name is `main`. -/
theorem symbol_at_address_without_space :
    (gmi_symbol_at_address spec_transport
        (some { catch_console := 0, catched_console := none,
                ext := { replies := [{ fragments := ["main".toList], terminal := true,
                                       bkpt := none }], last := none } })
        0x401136).1 =
      some { name := none, type := none, addr := 0x401136, file := none, line := 0,
             linkage_name := none } ∧
    (gmi_symbol_at_address spec_transport
        (some { catch_console := 0, catched_console := none,
                ext := { replies := [{ fragments := ["main + 4 in section .text".toList],
                                       terminal := true, bkpt := none }], last := none } })
        0x401136).1 =
      some { name := some "main".toList, type := none, addr := 0x401136, file := none, line := 0,
             linkage_name := none } := by
  decide

/-! ## Addresses read from the captured text -/

theorem strstr_here (needle rest : List Char) : strstr (needle ++ rest) needle = some 0 := by
  cases hn : needle ++ rest with
  | nil =>
    have : needle = [] := (List.append_eq_nil.mp hn).1
    simp [strstr, this]
  | cons x xs =>
    have hp : needle.isPrefixOf (x :: xs) = true := by
      rw [List.isPrefixOf_iff_prefix, ← hn]
      exact List.prefix_append _ _
    simp [strstr, hp]

theorem strstr_0x_after (name mid rest : List Char) (hname : ¬ "0x".toList <:+: name)
    (hmid : ∀ c ∈ mid, c ≠ '0') (hmid2 : mid.head? ≠ some 'x') :
    strstr (name ++ (mid ++ '0' :: 'x' :: rest)) "0x".toList =
      some (name.length + mid.length) := by
  induction name with
  | nil =>
    have h0 := strstr_here "0x".toList rest
    have h1 := strstr_skip mid ('0' :: 'x' :: rest) '0' ['x'] hmid
    simp only [List.nil_append, List.length_nil, Nat.zero_add]
    show strstr _ ['0', 'x'] = _
    rw [h1]
    show Option.map _ (strstr ("0x".toList ++ rest) "0x".toList) = _
    rw [h0]
    simp
  | cons p ps ih =>
    have hps : ¬ "0x".toList <:+: ps := fun e => hname (List.infix_cons e)
    have hnp : "0x".toList.isPrefixOf (p :: (ps ++ (mid ++ '0' :: 'x' :: rest))) = false := by
      rw [Bool.eq_false_iff]
      intro hp
      rw [List.isPrefixOf_iff_prefix] at hp
      match ps, mid, hmid2, hp with
      | [], [], _, hp => simp at hp
      | [], m :: ms, hm, hp =>
        simp at hp
        simp at hm
        exact hm hp.2.symm
      | q :: qs, _, _, hp =>
        simp at hp
        obtain ⟨rfl, rfl⟩ := hp
        exact hname ⟨[], qs, by simp⟩
    rw [List.cons_append, strstr, hnp, ih hps]
    simp
    omega

theorem parse_address_word (hex rest : List Char) (hhex : ∀ c ∈ hex, isxdigit c = true)
    (hlen : hex.length + 2 ≤ 31) (hrest : ∀ c, rest.head? = some c → isxdigit c = false)
    (hval : hex_value hex < 2 ^ 64) :
    (sscanf_31s ('0' :: 'x' :: hex ++ rest)).map parse_address = some (hex_value hex) := by
  have hs0 : isspace '0' = false := by decide
  have hsx : isspace 'x' = false := by decide
  have h1 : ('0' :: 'x' :: hex ++ rest).dropWhile isspace = '0' :: 'x' :: hex ++ rest := by
    simp [List.dropWhile_cons, hs0]
  have h2 : ('0' :: 'x' :: hex ++ rest).takeWhile (fun c => !isspace c) =
      '0' :: 'x' :: (hex ++ rest.takeWhile (fun c => !isspace c)) := by
    simp only [List.cons_append, List.takeWhile_cons, hs0, hsx, Bool.not_false, if_true]
    rw [List.takeWhile_append_of_pos (fun c hc => by simp [isxdigit_not_isspace c (hhex c hc)])]
  have h3 : ('0' :: 'x' :: (hex ++ rest.takeWhile (fun c => !isspace c))).take 31 =
      '0' :: 'x' :: (hex ++ (rest.takeWhile (fun c => !isspace c)).take (29 - hex.length)) := by
    simp only [List.take_succ_cons]
    rw [List.take_append_eq_append_take, List.take_of_length_le (by omega)]
  have h4 : ((rest.takeWhile (fun c => !isspace c)).take (29 - hex.length)).takeWhile isxdigit =
      [] := by
    cases rest with
    | nil => simp
    | cons c cs =>
      have hc := hrest c rfl
      by_cases hsp : isspace c = true
      · simp [List.takeWhile_cons, hsp]
      · cases hn : 29 - hex.length with
        | zero => simp
        | succ n => simp [List.takeWhile_cons, hsp, hc]
  unfold sscanf_31s
  simp only [h1, h2, h3]
  have hne : ('0' :: 'x' :: (hex ++ (rest.takeWhile (fun c => !isspace c)).take
      (29 - hex.length))) ≠ [] := by simp
  simp only [hne, if_false, Option.map_some', Option.some.injEq]
  unfold parse_address
  have h5 : (List.drop 2 ('0' :: 'x' :: (hex ++ (rest.takeWhile (fun c => !isspace c)).take
      (29 - hex.length)))).takeWhile isxdigit = hex := by
    simp only [List.drop_succ_cons, List.drop_zero]
    rw [List.takeWhile_append_of_pos hhex, h4, List.append_nil]
  rw [h5]
  simp only [List.head?_cons, List.tail_cons, true_or, and_self, if_true]
  omega

theorem line_info_address_of_token (output marker : List Char) (v : Nat)
    (h : hex_token_after output marker v) : line_info_address output marker = some v := by
  unfold line_info_address
  rcases h with ⟨hnone, rfl⟩ | ⟨k, hex, rest, hk, hdrop, hhex, hlen, hrest, hval, rfl⟩
  · rw [hnone]
  · rw [hk]
    simp only
    have := parse_address_word hex rest hhex hlen hrest hval
    rw [← hdrop] at this
    cases hw : sscanf_31s (List.drop (k + marker.length) output) with
    | none => rw [hw] at this; simp at this
    | some w => rw [hw] at this; simpa using this

/-- C15 (as amended): for every request (file, line >= 1) and every captured
text in which each of the two markers is either absent or directly followed by
a hexadecimal token `0x<hex>` of at most 31 characters and value below 2^64,
`gmi_symbol_info_line` returns a record with the file and line of the request,
`start_addr` the value of the token behind the first `starts at address `
(unset when that marker is absent) and `end_addr` the value of the token behind
the first `ends at ` (unset when that marker is absent), each independently of
the other. -/
theorem symbol_info_line_record {σ : Type} (T : Transport σ) (h : mi_h σ)
    (file output : List Char) (line : Int) (start_addr end_addr : Nat)
    (hline : 1 ≤ line)
    (hout : (send_cli_command T (some h)
      (some (snprintf 512 ("info line ".toList ++ file ++ ":".toList ++ format_d line)))).1 =
        some output)
    (hstart : hex_token_after output "starts at address ".toList start_addr)
    (hend : hex_token_after output "ends at ".toList end_addr) :
    (gmi_symbol_info_line T (some h) (some file) line).1 =
      some (some { file := some file, line := line, start_addr := start_addr,
                   end_addr := end_addr }) := by
  unfold gmi_symbol_info_line
  have hl : ¬ line < 1 := by omega
  simp only [hl, if_false, hout, line_info_record,
    line_info_address_of_token _ _ _ hstart, line_info_address_of_token _ _ _ hend,
    Option.map_some']

/-- C15 witness: the line of the specification gives start 0x401136 and end
0x401141. -/
theorem symbol_info_line_record_witness :
    (gmi_symbol_info_line spec_transport
        (some { catch_console := 0, catched_console := none,
                ext := { replies := [{ fragments := ["Line 42 of \"main.c\" starts at address 0x401136 <main+10> and ends at 0x401141 <main+21>.".toList],
                                       terminal := true, bkpt := none }], last := none } })
        (some "main.c".toList) 42).1 =
      some (some { file := some "main.c".toList, line := 42, start_addr := 0x401136,
                   end_addr := 0x401141 }) :=
  symbol_info_line_record spec_transport
    { catch_console := 0, catched_console := none,
      ext := { replies := [{ fragments := ["Line 42 of \"main.c\" starts at address 0x401136 <main+10> and ends at 0x401141 <main+21>.".toList],
                             terminal := true, bkpt := none }], last := none } }
    "main.c".toList "Line 42 of \"main.c\" starts at address 0x401136 <main+10> and ends at 0x401141 <main+21>.".toList 42 0x401136 0x401141 (by decide) (by decide)
    (Or.inr ⟨20, "401136".toList, " <main+10> and ends at 0x401141 <main+21>.".toList, by decide, by decide, by decide,
      by decide, fun c hc => by cases hc; decide, by decide, by decide⟩)
    (Or.inr ⟨61, "401141".toList, " <main+21>.".toList, by decide, by decide, by decide,
      by decide, fun c hc => by cases hc; decide, by decide, by decide⟩)

/-- C15 counterexample: for a text whose start token is `0x10000000000000000`
the record's `start_addr` is the largest 64-bit pointer, not the value 2^64 of
the token. -/
theorem symbol_info_line_overflow :
    (gmi_symbol_info_line spec_transport
        (some { catch_console := 0, catched_console := none,
                ext := { replies := [{ fragments :=
                    ["Line 1 of \"a.c\" starts at address 0x10000000000000000 <f> and ends at 0x2 <f+2>.".toList],
                                       terminal := true, bkpt := none }], last := none } })
        (some "a.c".toList) 1).1 =
      some (some { file := some "a.c".toList, line := 1, start_addr := 2 ^ 64 - 1,
                   end_addr := 2 }) ∧
    hex_value "10000000000000000".toList = 2 ^ 64 := by
  decide

/-- When nothing but white space follows a marker, `sscanf` stores no word and
`parse_address` is given the uninitialised array: no defined result. -/
theorem line_info_record_marker_last :
    line_info_record "a.c".toList 1 "Line 1 of \"a.c\" starts at address ".toList = none := by
  decide

theorem symbol_address_documented (name hex : List Char) (hname : ¬ "0x".toList <:+: name)
    (hhex : ∀ c ∈ hex, isxdigit c = true) (hlen : hex.length + 2 ≤ 31)
    (hval : hex_value hex < 2 ^ 64) :
    symbol_address (address_reply name hex) = hex_value hex := by
  have e : address_reply name hex =
      "Symbol \"".toList ++ (name ++ ("\" is at ".toList ++ '0' :: 'x' ::
        (hex ++ " in a file compiled without debugging.".toList))) := by
    simp [address_reply]
  have h1 : strstr (address_reply name hex) "0x".toList = some (name.length + 8 + 8) := by
    rw [e]
    show strstr _ ('0' :: ['x']) = _
    rw [strstr_skip _ _ '0' ['x'] (by decide)]
    show Option.map _ (strstr _ "0x".toList) = _
    rw [strstr_0x_after name _ _ hname (by decide) (by decide)]
    rfl
  have h2 : (address_reply name hex).drop (name.length + 8 + 8) =
      '0' :: 'x' :: hex ++ " in a file compiled without debugging.".toList := by
    have e2 : address_reply name hex =
        ("Symbol \"".toList ++ name ++ "\" is at ".toList) ++ ('0' :: 'x' :: hex ++
          " in a file compiled without debugging.".toList) := by
      simp [address_reply]
    rw [e2]
    apply List.drop_left'
    simp
  have h3 := parse_address_word hex " in a file compiled without debugging.".toList hhex hlen
    (fun c hc => by cases hc; decide) hval
  unfold symbol_address
  rw [h1]
  simp only [h2]
  cases hw : sscanf_31s ('0' :: 'x' :: hex ++
      " in a file compiled without debugging.".toList) with
  | none => rw [hw] at h3; simp at h3
  | some w => rw [hw] at h3; simpa using h3

/-- C12 (as amended): for every symbol name that does not contain `0x` and
every address `0x<hex>` of at most 31 characters and value below 2^64, when the
captured text has the documented shape
`Symbol "<name>" is at 0x<hex> in a file compiled without debugging.`,
`gmi_symbol_info_address` returns a record with that name and with `addr` the
value of `<hex>`. -/
theorem symbol_info_address_documented {σ : Type} (T : Transport σ) (h : mi_h σ)
    (name hex : List Char) (hname : ¬ "0x".toList <:+: name)
    (hhex : ∀ c ∈ hex, isxdigit c = true) (hlen : hex.length + 2 ≤ 31)
    (hval : hex_value hex < 2 ^ 64)
    (hout : (send_cli_command T (some h)
      (some (snprintf 512 ("info address ".toList ++ name)))).1 =
        some (address_reply name hex)) :
    ∃ sym, (gmi_symbol_info_address T (some h) (some name)).1 = some sym ∧
      sym.name = some name ∧ sym.addr = hex_value hex := by
  refine ⟨symbol_info_address_record name (address_reply name hex), ?_, rfl, ?_⟩
  · unfold gmi_symbol_info_address
    simp only [hout, Option.map_some']
  · exact symbol_address_documented name hex hname hhex hlen hval

/-- C12 witness: `Symbol "foo" is at 0x4011a0 in a file compiled without
debugging.` gives name `foo` and address 0x4011a0. -/
theorem symbol_info_address_documented_witness :
    ∃ sym, (gmi_symbol_info_address spec_transport
        (some { catch_console := 0, catched_console := none,
                ext := { replies := [{ fragments := [address_reply "foo".toList "4011a0".toList],
                                       terminal := true, bkpt := none }], last := none } })
        (some "foo".toList)).1 = some sym ∧
      sym.name = some "foo".toList ∧ sym.addr = 0x4011a0 := by
  obtain ⟨sym, h1, h2, h3⟩ := symbol_info_address_documented spec_transport
    { catch_console := 0, catched_console := none,
      ext := { replies := [{ fragments := [address_reply "foo".toList "4011a0".toList],
                             terminal := true, bkpt := none }], last := none } }
    "foo".toList "4011a0".toList (by decide) (by decide) (by decide) (by decide) (by decide)
  exact ⟨sym, h1, h2, h3.trans (by decide)⟩

/-- C12 counterexample: in the documented shape, the symbol name `a0x1f` gives
address 0x1f, taken from the name; the address `0x10000000000000000` gives the
largest 64-bit pointer; and the address `0x` + 28 zeros + `4011a0`, cut after
31 characters, gives 4. -/
theorem symbol_info_address_wrong_address :
    (symbol_info_address_record "a0x1f".toList
        (address_reply "a0x1f".toList "4011a0".toList)).addr = 0x1f ∧
    ((symbol_info_address_record "foo".toList
        (address_reply "foo".toList "10000000000000000".toList)).addr = 2 ^ 64 - 1 ∧
      hex_value "10000000000000000".toList = 2 ^ 64) ∧
    ((symbol_info_address_record "foo".toList
        (address_reply "foo".toList "00000000000000000000000000004011a0".toList)).addr = 4 ∧
      hex_value "00000000000000000000000000004011a0".toList = 0x4011a0) := by
  decide

/-! ## Function listing: which lines give a record -/

/-- One round of the function loop, for a header that fits: a token that begins
with `0x` appends one record, any other token leaves the chain as it is. -/
theorem functions_line_cases (st : functions_state) (tok : List Char)
    (hfit : is_file_header tok = true → header_fits tok = true) :
    (is_entry_line tok = false ∧
      ∃ st1, functions_line st tok = some st1 ∧ st1.list = st.list) ∨
    (is_entry_line tok = true ∧
      ∃ f, functions_line st tok = some { st with list := st.list ++ [f] }) := by
  by_cases hh : is_file_header tok = true
  · left
    have hh' : (tok.dropWhile is_blank).take 5 = "File ".toList := by
      simpa [is_file_header] using hh
    refine ⟨?_, ?_⟩
    · cases hl : tok.dropWhile is_blank with
      | nil => simp [is_entry_line, hl]
      | cons c cs =>
        rw [hl] at hh'
        have : c = 'F' := by
          simp at hh'
          exact hh'.1
        subst this
        simp [is_entry_line, hl]
    · have hf := hfit hh
      unfold functions_line
      simp only [hh', if_true]
      unfold header_fits at hf
      unfold file_header
      cases hc : strchr ((tok.dropWhile is_blank).drop 5) ':' with
      | none => exact ⟨_, rfl, rfl⟩
      | some n =>
        rw [hc] at hf
        have hn : n < 512 := by simpa using hf
        simp only [hn, if_true, Option.map_some']
        exact ⟨_, rfl, rfl⟩
  · have hh' : (tok.dropWhile is_blank).take 5 ≠ "File ".toList := by
      simpa [is_file_header] using hh
    by_cases he : is_entry_line tok = true
    · right
      refine ⟨he, ?_⟩
      have he' : (tok.dropWhile is_blank).head? = some '0' ∧
          (tok.dropWhile is_blank).tail.head? = some 'x' := by
        simpa [is_entry_line] using he
      obtain ⟨w, hw⟩ : ∃ w, sscanf_31s (tok.dropWhile is_blank) = some w := by
        cases hl : tok.dropWhile is_blank with
        | nil => rw [hl] at he'; simp at he'
        | cons c cs =>
          rw [hl] at he'
          have hc : c = '0' := by simpa using he'.1
          subst hc
          have hs : isspace '0' = false := by decide
          simp [sscanf_31s, List.dropWhile_cons, List.takeWhile_cons, hs]
      refine ⟨function_entry st.current_file (tok.dropWhile is_blank) w, ?_⟩
      unfold functions_line
      simp only [hh', if_false, he', and_self, if_true, hw]
    · left
      have he0 : is_entry_line tok = false := by simpa using he
      refine ⟨he0, st, ?_, rfl⟩
      have he' : ¬ ((tok.dropWhile is_blank).head? = some '0' ∧
          (tok.dropWhile is_blank).tail.head? = some 'x') := by
        simpa [is_entry_line] using he
      unfold functions_line
      simp only [hh', if_false, he']

/-- The function loop over a list of lines whose headers fit: it ends, and the
records appended are one for each `0x` line, in order. -/
theorem functions_fold (lines : List (List Char))
    (hfit : ∀ l ∈ lines, is_file_header l = true → header_fits l = true)
    (st : functions_state) :
    ∃ st1 recs, lines.foldlM functions_line st = some st1 ∧ st1.list = st.list ++ recs ∧
      List.Forall₂ function_record_of recs (lines.filter is_entry_line) := by
  induction lines generalizing st with
  | nil => exact ⟨st, [], rfl, by simp, by simp⟩
  | cons l ls ih =>
    have hl := hfit l (by simp)
    have hls : ∀ m ∈ ls, is_file_header m = true → header_fits m = true :=
      fun m hm => hfit m (by simp [hm])
    rcases functions_line_cases st l hl with ⟨he, s1, hs1, hlist⟩ | ⟨he, f, hf⟩
    · obtain ⟨s2, recs, h2, h3, h4⟩ := ih hls s1
      refine ⟨s2, recs, ?_, ?_, ?_⟩
      · rw [List.foldlM_cons, hs1]; exact h2
      · rw [h3, hlist]
      · rw [List.filter_cons_of_neg (by simp [he])]; exact h4
    · obtain ⟨s2, recs, h2, h3, h4⟩ := ih hls { st with list := st.list ++ [f] }
      refine ⟨s2, f :: recs, ?_, ?_, ?_⟩
      · rw [List.foldlM_cons, hf]; exact h2
      · rw [h3]; simp
      · rw [List.filter_cons_of_pos he]
        exact List.Forall₂.cons ⟨st, hf⟩ h4

/-- For every captured text in which the name of every `File ` header has at
most 511 characters, `gmi_symbol_list_functions` returns a chain with exactly
one record, in encounter order, for each line that behind its leading spaces
and tabs begins with `0x`, and no record for any other line. -/
theorem functions_chain (output : List Char)
    (hfit : ∀ l ∈ text_lines output, is_file_header l = true → header_fits l = true) :
    ∃ chain, gmi_symbol_list_functions_parse output = some chain ∧
      List.Forall₂ function_record_of chain ((text_lines output).filter is_entry_line) := by
  obtain ⟨st1, recs, h1, h2, h3⟩ := functions_fold (text_lines output) hfit
    { current_file := [], list := [] }
  refine ⟨recs, ?_, h3⟩
  rw [gmi_symbol_list_functions_parse_eq, h1]
  simp [h2]

set_option maxRecDepth 100000 in
/-- C24: a `File ` header whose name has 512 characters, met after an
address-prefixed line, leaves `gmi_symbol_list_functions` without defined
behaviour (the copy into `current_file[512]` writes behind the array), so the
record of the earlier line is not delivered; with 511 characters the chain
holds that record. -/
theorem functions_chain_lost_after_long_header :
    gmi_symbol_list_functions_parse
        ("0x401136 main (void)\nFile ".toList ++ List.replicate 512 'a' ++ ":".toList) = none ∧
    gmi_symbol_list_functions_parse
        ("0x401136 main (void)\nFile ".toList ++ List.replicate 511 'a' ++ ":".toList) =
      some [{ name := some "main".toList, file := none, line := 0, addr := 0x401136,
              return_type := none, signature := none, is_static := 0 }] := by
  decide

theorem strpbrk_none (s accept : List Char) (h : ∀ c ∈ s, c ∉ accept) :
    strpbrk s accept = none := by
  induction s with
  | nil => rfl
  | cons x xs ih =>
    have hx : x ∉ accept := h x (by simp)
    simp [strpbrk, hx, ih (fun c hc => h c (by simp [hc]))]

theorem dropWhile_spaces (k : Nat) (name : List Char) (hname : name.head? ≠ some ' ') :
    (List.replicate k ' ' ++ name).dropWhile (· = ' ') = name := by
  induction k with
  | zero =>
    cases name with
    | nil => rfl
    | cons c cs =>
      have hc : c ≠ ' ' := by simpa using hname
      simp [List.dropWhile_cons, hc]
  | succ k ih =>
    simp only [List.replicate_succ, List.cons_append, List.dropWhile_cons, decide_True, if_true]
    exact ih

/-- The record built for `0x<hex>`, spaces and a name that runs to the end of
the line has no name. -/
theorem function_entry_name_at_end (current_file hex name addr_buf : List Char) (k : Nat)
    (hhex : ∀ c ∈ hex, isxdigit c = true) (hname : name ≠ [])
    (hname2 : ∀ c ∈ name, c ≠ '(' ∧ isspace c = false) :
    (function_entry current_file
      ('0' :: 'x' :: hex ++ ' ' :: (List.replicate k ' ' ++ name)) addr_buf).name = none := by
  have hsp : ' ' ∉ '0' :: 'x' :: hex := by
    intro hmem
    rcases List.mem_cons.mp hmem with e | hmem
    · exact absurd e (by decide)
    · rcases List.mem_cons.mp hmem with e | hmem
      · exact absurd e (by decide)
      · have := isxdigit_not_isspace _ (hhex _ hmem)
        rw [isspace_space] at this
        exact absurd this (by decide)
  have hnsp : ∀ c ∈ name, c ≠ ' ' := by
    intro c hc e
    have := (hname2 c hc).2
    rw [e, isspace_space] at this
    exact absurd this (by decide)
  have h1 := strchr_append ('0' :: 'x' :: hex) (List.replicate k ' ' ++ name) ' ' hsp
  have h2 : List.drop (('0' :: 'x' :: hex).length + 1)
      ('0' :: 'x' :: hex ++ ' ' :: (List.replicate k ' ' ++ name)) =
      List.replicate k ' ' ++ name := by
    have e : '0' :: 'x' :: hex ++ ' ' :: (List.replicate k ' ' ++ name) =
        ('0' :: 'x' :: hex ++ [' ']) ++ (List.replicate k ' ' ++ name) := by simp
    rw [e]
    apply List.drop_left'
    simp
  have h3 : (List.replicate k ' ' ++ name).dropWhile (· = ' ') = name := by
    apply dropWhile_spaces
    cases name with
    | nil => exact absurd rfl hname
    | cons c cs => simpa using hnsp c (by simp)
  have h4 : strpbrk name "( ".toList = none := by
    apply strpbrk_none
    intro c hc
    have := hname2 c hc
    simp [this.1, hnsp c hc]
  unfold function_entry
  simp only [h1, h2, h3, h4]
  split
  · split <;> rfl
  · split <;> rfl

/-- C25: for every address-prefixed line `0x<hex>`, one or more spaces, then a
non-empty name without `(` and white space that runs to the end of the line,
the record appended by `gmi_symbol_list_functions` has no name:
`strpbrk(name_start, "( ")` finds nothing and `name` stays NULL. -/
theorem functions_line_name_at_end (st : functions_state) (hex name : List Char) (k : Nat)
    (hhex : ∀ c ∈ hex, isxdigit c = true) (hname : name ≠ [])
    (hname2 : ∀ c ∈ name, c ≠ '(' ∧ isspace c = false) :
    ∃ f, functions_line st
        ("0x".toList ++ hex ++ List.replicate (k + 1) ' ' ++ name) =
          some { st with list := st.list ++ [f] } ∧
      f.name = none := by
  have e : "0x".toList ++ hex ++ List.replicate (k + 1) ' ' ++ name =
      '0' :: 'x' :: hex ++ ' ' :: (List.replicate k ' ' ++ name) := by
    simp [List.replicate_succ]
  rw [e]
  have hent : is_entry_line ('0' :: 'x' :: hex ++ ' ' :: (List.replicate k ' ' ++ name)) =
      true := by
    have hb : is_blank '0' = false := by decide
    simp [is_entry_line, List.dropWhile_cons, hb]
  have hhead : is_file_header ('0' :: 'x' :: hex ++ ' ' :: (List.replicate k ' ' ++ name)) =
      false := by
    have hb : is_blank '0' = false := by decide
    simp [is_file_header, List.dropWhile_cons, hb]
  have hdw : List.dropWhile is_blank
      ('0' :: 'x' :: hex ++ ' ' :: (List.replicate k ' ' ++ name)) =
      '0' :: 'x' :: hex ++ ' ' :: (List.replicate k ' ' ++ name) := by
    have hb : is_blank '0' = false := by decide
    simp [List.dropWhile_cons, hb]
  obtain ⟨w, hw⟩ : ∃ w, sscanf_31s
      ('0' :: 'x' :: hex ++ ' ' :: (List.replicate k ' ' ++ name)) = some w := by
    have hs : isspace '0' = false := by decide
    simp [sscanf_31s, List.dropWhile_cons, List.takeWhile_cons, hs]
  refine ⟨function_entry st.current_file
    ('0' :: 'x' :: hex ++ ' ' :: (List.replicate k ' ' ++ name)) w, ?_, ?_⟩
  · unfold functions_line
    rw [hdw]
    have h5 : List.take 5 ('0' :: 'x' :: hex ++ ' ' :: (List.replicate k ' ' ++ name)) ≠
        "File ".toList := by simp
    simp only [h5, if_false, hw]
    simp
  · exact function_entry_name_at_end st.current_file hex name w k hhex hname hname2

/-- C25, witness: the line `0x0000000000401000  _init` of a listing of
non-debugging symbols. -/
theorem functions_line_name_at_end_witness :
    ∃ f, functions_line { current_file := [], list := [] }
        ("0x".toList ++ "0000000000401000".toList ++ List.replicate (1 + 1) ' ' ++
          "_init".toList) = some { current_file := [], list := [f] } ∧
      f.name = none :=
  functions_line_name_at_end { current_file := [], list := [] } "0000000000401000".toList
    "_init".toList 1 (by decide) (by decide) (by decide)

/-! ## The name scan of the variable listing -/

theorem scan_back_le (line : List Char) (i : Nat) : scan_back line i ≤ i := by
  induction i with
  | zero => simp [scan_back]
  | succ i ih =>
    unfold scan_back
    split
    · omega
    · omega

theorem scan_back_reads_range (line : List Char) (i : Nat) :
    ∀ r ∈ scan_back_reads line i, 0 ≤ r ∧ r ≤ (i : Int) := by
  induction i with
  | zero => simp [scan_back_reads]
  | succ i ih =>
    intro r hr
    unfold scan_back_reads at hr
    rcases List.mem_cons.mp hr with e | hr
    · subst e; omega
    · split at hr
      · have := ih r hr
        omega
      · simp at hr

/-- When the `;` is not the first character of the line, the scan reads only
offsets between 0 and the offset before the `;`, and both lengths lie between
0 and the offset of the `;`. -/
theorem variable_name_scan_inside (before : Char) (line : List Char) (s : Nat) :
    (∀ r ∈ (variable_name_scan before line (s + 1)).reads, 0 ≤ r ∧ r ≤ (s : Int)) ∧
    0 ≤ (variable_name_scan before line (s + 1)).name_length ∧
    (variable_name_scan before line (s + 1)).name_length ≤ ((s + 1 : Nat) : Int) ∧
    0 ≤ (variable_name_scan before line (s + 1)).type_length ∧
    (variable_name_scan before line (s + 1)).type_length ≤ ((s + 1 : Nat) : Int) := by
  have hle := scan_back_le line s
  simp only [variable_name_scan]
  refine ⟨?_, ?_, ?_, ?_, ?_⟩
  · intro r hr
    rcases List.mem_append.mp hr with hr | hr
    · exact scan_back_reads_range line s r hr
    · simp at hr
      omega
  all_goals split <;> push_cast <;> omega

/-- The name and type of `variable_name_type` are the copies that `strndup`
makes with the offsets and lengths of `variable_name_scan`. -/
theorem variable_name_type_of_scan (before : Char) (line : List Char) (s : Nat) :
    variable_name_type (some before) line (s + 1) =
      some ((line.drop (variable_name_scan before line (s + 1)).name_start.toNat).take
              (variable_name_scan before line (s + 1)).name_length.toNat,
            line.take (variable_name_scan before line (s + 1)).type_length.toNat) := by
  simp only [variable_name_type, variable_name_scan]
  split <;> simp

/-- C27: for a line whose first character is `;` the scan reads the character
at offset -1, before the line; when that byte is the NUL left by `strtok`,
the name copy gets the length 1 and the type copy the length -1, not lengths
between 0 and the offset 0 of the `;`.  For the listing `int a;`, newline, `;`
the second record has the whole line `;` as its type, and for the text `;`
alone the read leaves the buffer. -/
theorem variable_name_scan_before_line :
    variable_name_scan (Char.ofNat 0) ";".toList 0 =
      { reads := [-1], name_start := -1, name_length := 1, type_length := -1 } ∧
    gmi_symbol_list_variables_parse "int a;\n;".toList =
      some [{ name := some "a".toList, type := some "int ".toList, file := none, line := 0,
              is_static := 0, is_global := 0, addr := 0 },
            { name := some [], type := some ";".toList, file := none, line := 0,
              is_static := 0, is_global := 0, addr := 0 }] ∧
    gmi_symbol_list_variables_parse ";".toList = none := by
  decide

/-! ## Memory write -/

theorem hex_data_loop_overflow (data : List Nat) :
    ∀ (n i : Nat) (acc : List Char), i ≤ 255 → 255 < i + n →
      hex_data_loop data n i acc = none := by
  intro n
  induction n with
  | zero => intro i acc h1 h2; omega
  | succ n ih =>
    intro i acc h1 h2
    unfold hex_data_loop
    cases data.get? i with
    | none => rfl
    | some b =>
      simp only
      split
      · exact ih (i + 1) _ (by omega) (by omega)
      · rfl

theorem hex_data_loop_fits (data : List Nat) :
    ∀ (n i : Nat) (acc : List Char), i + n ≤ 255 → i + n ≤ data.length →
      hex_data_loop data n i acc = some (acc ++ hex_text ((data.drop i).take n)) := by
  intro n
  induction n with
  | zero => intro i acc _ _; simp [hex_data_loop, hex_text]
  | succ n ih =>
    intro i acc h1 h2
    unfold hex_data_loop
    have hi : i < data.length := by omega
    have hget : data.get? i = some (data.get ⟨i, hi⟩) := List.get?_eq_get hi
    rw [hget]
    simp only
    rw [if_pos (by omega), ih (i + 1) _ (by omega) (by omega)]
    have hd : data.drop i = data.get ⟨i, hi⟩ :: data.drop (i + 1) :=
      List.drop_eq_getElem_cons hi
    rw [hd, List.take_succ_cons]
    simp [hex_text, format_02x]

theorem hex_text_length (data : List Nat) : (hex_text data).length = 2 * data.length := by
  induction data with
  | nil => rfl
  | cons b bs ih =>
    have e : hex_text (b :: bs) =
        Nat.digitChar (b % 256 / 16) :: Nat.digitChar (b % 16) :: hex_text bs := rfl
    rw [e]
    simp only [List.length_cons, ih]
    omega

/-- A size that is 0 or whose double, modulo 2^32, is 512 or more: 0 is
returned and nothing is sent. -/
theorem write_memory_rejected {σ : Type} (T : Transport σ)
    (done : mi_h (σ × List (List Char)) → Int × mi_h (σ × List (List Char)))
    (h : mi_h (σ × List (List Char))) (addr : List Char) (data : List Nat) (size : Nat)
    (hsize : size = 0 ∨ 512 ≤ size * 2 % 2 ^ 32) :
    gmi_data_write_memory (logged T) done (some h) (some addr) (some data) size =
      (some 0, some h) := by
  unfold gmi_data_write_memory
  rcases hsize with h0 | h1
  · simp [h0]
  · by_cases h0 : size = 0
    · simp [h0]
    · dsimp only
      rw [if_neg h0, if_pos h1]

/-- A size from 1 to 255 with that many bytes of data: one command is sent, and
its hexadecimal text is `hex_text` of the first `size` bytes, `2 * size`
characters. -/
theorem write_memory_sent {σ : Type} (T : Transport σ)
    (done : mi_h σ → Int × mi_h σ)
    (h : mi_h σ) (addr : List Char) (data : List Nat) (size : Nat)
    (h1 : 1 ≤ size) (h2 : size ≤ 255) (hdata : size ≤ data.length) :
    gmi_data_write_memory T done (some h) (some addr) (some data) size =
      (some (done (T.mi_send h
          (snprintf 1024 (write_memory_format size addr (hex_text (data.take size)))))).1,
       some (done (T.mi_send h
          (snprintf 1024 (write_memory_format size addr (hex_text (data.take size)))))).2) ∧
    (hex_text (data.take size)).length = 2 * size := by
  have hlen : (hex_text (data.take size)).length = 2 * size := by
    rw [hex_text_length, List.length_take, Nat.min_eq_left hdata]
  refine ⟨?_, hlen⟩
  unfold gmi_data_write_memory
  have hmod : size * 2 % 2 ^ 32 = size * 2 := Nat.mod_eq_of_lt (by omega)
  have hloop := hex_data_loop_fits data size 0 [] (by omega) (by omega)
  simp only [List.drop_zero, List.nil_append] at hloop
  simp only [hloop, hmod]
  rw [if_neg (by omega), if_neg (by omega)]
  have ht : (hex_text (data.take size)).take (size * 2) = hex_text (data.take size) :=
    List.take_of_length_le (by omega)
  simp only [ht]

/-- A size of 256 or more that passes the check (its double is below 512 modulo
2^32, so the size is at least 2^31): the conversion loop leaves `hex_data`. -/
theorem write_memory_large_size {σ : Type} (T : Transport σ)
    (done : mi_h σ → Int × mi_h σ) (h : mi_h σ) (addr : List Char) (data : List Nat)
    (size : Nat) (h1 : 256 ≤ size) (h2 : size * 2 % 2 ^ 32 < 512) :
    (gmi_data_write_memory T done (some h) (some addr) (some data) size).1 = none := by
  unfold gmi_data_write_memory
  have hloop := hex_data_loop_overflow data size 0 [] (by omega) (by omega)
  simp only [hloop]
  rw [if_neg (by omega), if_neg (by omega)]

/-- C26: the size 2147483648 passes the check `size * 2 >= sizeof(hex_data)`,
because `size * 2` is 0 modulo 2^32, and the conversion loop then writes
behind `hex_data[511]` (or reads behind the data): the call does not return 0
without sending, it has no defined behaviour. -/
theorem write_memory_size_wraps {σ : Type} (T : Transport σ)
    (done : mi_h σ → Int × mi_h σ) (h : mi_h σ) (addr : List Char) (data : List Nat) :
    2147483648 * 2 % 2 ^ 32 = 0 ∧
    (gmi_data_write_memory T done (some h) (some addr) (some data) 2147483648).1 = none :=
  ⟨by norm_num, write_memory_large_size T done h addr data 2147483648 (by norm_num) (by norm_num)⟩

/-! ## Deallocation -/

theorem owned_blocks_cons {α : Type} (self : α → Nat) (strings : α → List (Option Nat))
    (n : α) (chain : List α) (freed : List Nat)
    (h : freed.Perm (owned_blocks self strings chain)) :
    ((strings n).reduceOption ++ freed ++ [self n]).Perm
      (owned_blocks self strings (n :: chain)) := by
  unfold owned_blocks at h ⊢
  simp only [List.map_cons, List.flatMap_cons]
  rw [List.perm_iff_count] at h ⊢
  intro a
  have := h a
  simp only [List.count_append, List.count_cons, List.count_nil] at this ⊢
  omega

theorem reduceOption_free1 (a : Option Nat) : free a = [a].reduceOption := by
  cases a <;> rfl

theorem reduceOption_free2 (a b : Option Nat) : free a ++ free b = [a, b].reduceOption := by
  cases a <;> cases b <;> rfl

theorem reduceOption_free3 (a b c : Option Nat) :
    free a ++ free b ++ free c = [a, b, c].reduceOption := by
  cases a <;> cases b <;> cases c <;> rfl

theorem reduceOption_free4 (a b c d : Option Nat) :
    free a ++ free b ++ free c ++ free d = [a, b, c, d].reduceOption := by
  cases a <;> cases b <;> cases c <;> cases d <;> rfl

/-- C23: for each of the seven record kinds and every chain, the blocks passed
to `free` by the chain-deallocation function are, up to order, the nodes of
the chain together with the strings held by the non-null string fields of each
node: every node and every owned string is released exactly as often as it
occurs in the chain, and nothing else is; on the null chain nothing is
released. -/
theorem chain_free_releases_owned_blocks :
    (∀ chain : List catch_node,
      (mi_free_catch chain).Perm
        (owned_blocks (fun c => c.self) (fun c => [c.condition, c.event]) chain)) ∧
    (∀ chain : List source_line_node,
      (mi_free_source_line chain).Perm
        (owned_blocks (fun l => l.self) (fun l => [l.text]) chain)) ∧
    (∀ chain : List symbol_node,
      (mi_free_symbol chain).Perm
        (owned_blocks (fun s => s.self) (fun s => [s.name, s.type, s.file, s.linkage_name])
          chain)) ∧
    (∀ chain : List line_info_node,
      (mi_free_line_info chain).Perm
        (owned_blocks (fun l => l.self) (fun l => [l.file]) chain)) ∧
    (∀ chain : List function_node,
      (mi_free_function chain).Perm
        (owned_blocks (fun f => f.self)
          (fun f => [f.name, f.file, f.return_type, f.signature]) chain)) ∧
    (∀ chain : List type_info_node,
      (mi_free_type_info chain).Perm
        (owned_blocks (fun t => t.self) (fun t => [t.name, t.kind, t.file, t.members])
          chain)) ∧
    (∀ chain : List variable_node,
      (mi_free_variable chain).Perm
        (owned_blocks (fun v => v.self) (fun v => [v.name, v.type, v.file]) chain)) ∧
    mi_free_catch [] = [] ∧ mi_free_source_line [] = [] ∧ mi_free_symbol [] = [] ∧
    mi_free_line_info [] = [] ∧ mi_free_function [] = [] ∧ mi_free_type_info [] = [] ∧
    mi_free_variable [] = [] := by
  refine ⟨?_, ?_, ?_, ?_, ?_, ?_, ?_, rfl, rfl, rfl, rfl, rfl, rfl, rfl⟩
  · intro chain
    induction chain with
    | nil => exact List.Perm.refl _
    | cons c next ih =>
      have := owned_blocks_cons (fun c : catch_node => c.self)
        (fun c => [c.condition, c.event]) c next _ ih
      rw [← reduceOption_free2] at this
      exact this
  · intro chain
    induction chain with
    | nil => exact List.Perm.refl _
    | cons c next ih =>
      have := owned_blocks_cons (fun l : source_line_node => l.self)
        (fun l => [l.text]) c next _ ih
      rw [← reduceOption_free1] at this
      exact this
  · intro chain
    induction chain with
    | nil => exact List.Perm.refl _
    | cons c next ih =>
      have := owned_blocks_cons (fun s : symbol_node => s.self)
        (fun s => [s.name, s.type, s.file, s.linkage_name]) c next _ ih
      rw [← reduceOption_free4] at this
      exact this
  · intro chain
    induction chain with
    | nil => exact List.Perm.refl _
    | cons c next ih =>
      have := owned_blocks_cons (fun l : line_info_node => l.self)
        (fun l => [l.file]) c next _ ih
      rw [← reduceOption_free1] at this
      exact this
  · intro chain
    induction chain with
    | nil => exact List.Perm.refl _
    | cons c next ih =>
      have := owned_blocks_cons (fun f : function_node => f.self)
        (fun f => [f.name, f.file, f.return_type, f.signature]) c next _ ih
      rw [← reduceOption_free4] at this
      exact this
  · intro chain
    induction chain with
    | nil => exact List.Perm.refl _
    | cons c next ih =>
      have := owned_blocks_cons (fun t : type_info_node => t.self)
        (fun t => [t.name, t.kind, t.file, t.members]) c next _ ih
      rw [← reduceOption_free4] at this
      exact this
  · intro chain
    induction chain with
    | nil => exact List.Perm.refl _
    | cons c next ih =>
      have := owned_blocks_cons (fun v : variable_node => v.self)
        (fun v => [v.name, v.type, v.file]) c next _ ih
      rw [← reduceOption_free3] at this
      exact this

/-! ## Failing allocation -/

theorem strtok_none (b : Option Char) (save : List Char)
    (h : save.dropWhile (· = '\n') = []) : strtok b save = none := by
  unfold strtok
  simp [h]

theorem strtok_some (b : Option Char) (save : List Char)
    (h : save.dropWhile (· = '\n') ≠ []) :
    ∃ tok b1 save1, strtok b save = some (tok, b1, save1) ∧
      tok.text = (save.dropWhile (· = '\n')).takeWhile (· ≠ '\n') ∧
      tok.before = (if (save.dropWhile (· = '\n')).length < save.length then some '\n' else b) ∧
      b1 ≠ none ∧
      save1.length < save.length ∧
      text_lines save = tok.text :: text_lines save1 := by
  have hhead : (save.dropWhile (· = '\n')).head? ≠ some '\n' := by
    intro hh
    have := List.head?_dropWhile_not (fun c : Char => decide (c = '\n')) save
    rw [hh] at this
    simp at this
  refine ⟨_, _, _, by unfold strtok; simp only [h, if_false]; rfl, rfl, rfl, ?_, ?_, ?_⟩
  · split
    · cases hd : save.dropWhile (· = '\n') with
      | nil => exact absurd hd h
      | cons y ys =>
        have hy : y ≠ '\n' := by
          rw [hd] at hhead; simpa using hhead
        simp [List.takeWhile_cons, hy, List.getLast?_eq_none_iff]
    · simp
  · have h1 : ((save.dropWhile (· = '\n')).dropWhile (· ≠ '\n')).tail.length ≤
        ((save.dropWhile (· = '\n')).dropWhile (· ≠ '\n')).length := by simp
    have h3 := (List.dropWhile_sublist (fun c : Char => decide (c = '\n')) (l := save)).length_le
    have h4 : ((save.dropWhile (· = '\n')).dropWhile (· ≠ '\n')).length <
        (save.dropWhile (· = '\n')).length := by
      cases hd : save.dropWhile (· = '\n') with
      | nil => exact absurd hd h
      | cons y ys =>
        have hy : y ≠ '\n' := by
          rw [hd] at hhead; simpa using hhead
        simp only [List.dropWhile_cons, hy, ne_eq, not_false_eq_true, decide_True, if_true,
          List.length_cons]
        have := (List.dropWhile_sublist (fun c : Char => decide (c ≠ '\n')) (l := ys)).length_le
        simp only [ne_eq] at this
        omega
    omega
  · rw [← text_lines_dropWhile save, text_lines_token _ h hhead]

theorem source_list_rounds_eq (alloc : Nat → Bool) :
    ∀ (rounds calls : Nat) (b : Option Char) (save : List Char) (list : List mi_source_line),
      save.length < rounds →
      source_list_rounds alloc rounds calls (strtok b save) list =
        lines_until_failure alloc source_list_line calls (text_lines save) list := by
  intro rounds
  induction rounds with
  | zero => intro _ _ _ _ h; omega
  | succ n ih =>
    intro calls b save list hlen
    by_cases hs : save.dropWhile (· = '\n') = []
    · rw [strtok_none b save hs, ← text_lines_dropWhile save, hs, text_lines_nil]
      rfl
    · obtain ⟨tok, b1, save1, htok, _, _, _, hlt, hlines⟩ := strtok_some b save hs
      rw [htok, hlines]
      unfold source_list_rounds lines_until_failure
      split
      · exact ih _ b1 save1 _ (by omega)
      · rfl

theorem functions_rounds_stuck :
    ∀ (rounds calls : Nat) (tok : Token) (b : Option Char) (save : List Char)
      (st : functions_state), is_entry_line tok.text = true →
      functions_rounds (fun _ => false) rounds calls (some (tok, b, save)) st =
        Outcome.running := by
  intro rounds
  induction rounds with
  | zero => intro _ _ _ _ _ _; rfl
  | succ n ih =>
    intro calls tok b save st h
    have h0 := h
    simp only [is_entry_line, decide_eq_true_eq] at h0
    have hnot : ¬ (tok.text.dropWhile is_blank).take 5 = "File ".toList := by
      intro hf
      cases hl : tok.text.dropWhile is_blank with
      | nil => rw [hl] at hf; simp at hf
      | cons x xs =>
        rw [hl] at hf h0
        simp at h0
        simp at hf
        rw [h0.1] at hf
        exact absurd hf.1 (by decide)
    unfold functions_rounds
    simp only [hnot, if_false, h0, and_self, if_true]
    exact ih _ tok b save st h

theorem variables_rounds_stuck :
    ∀ (rounds calls : Nat) (tok : Token) (b : Option Char) (save : List Char)
      (st : variables_state),
      (tok.text.dropWhile is_blank).take 5 ≠ "File ".toList →
      tok.text.dropWhile is_blank ≠ [] →
      (tok.text.dropWhile is_blank).head? ≠ some 'N' →
      variables_rounds (fun _ => false) rounds calls (some (tok, b, save)) st =
        Outcome.running := by
  intro rounds
  induction rounds with
  | zero => intro _ _ _ _ _ _ _ _; rfl
  | succ n ih =>
    intro calls tok b save st h1 h2 h3
    unfold variables_rounds
    simp only [h1, if_false, h2, h3, ne_eq, not_false_eq_true, and_self, if_true]
    exact ih _ tok b save st h1 h2 h3

theorem functions_rounds_all_succeed :
    ∀ (rounds calls : Nat) (b : Option Char) (save : List Char) (st st1 : functions_state),
      strtok_loop (fun st tok => functions_line st tok.text) rounds b save st = some st1 →
      functions_rounds (fun _ => true) rounds calls (strtok b save) st =
        Outcome.returned st1.list := by
  intro rounds
  induction rounds with
  | zero => intro _ _ _ _ _ h; simp [strtok_loop] at h
  | succ n ih =>
    intro calls b save st st1 h
    unfold strtok_loop at h
    cases hs : strtok b save with
    | none =>
      rw [hs] at h
      simp only [Option.some.injEq] at h
      subst h
      rfl
    | some r =>
      obtain ⟨tok, b1, save1⟩ := r
      rw [hs] at h
      simp only at h
      unfold functions_rounds
      cases hb : functions_line st tok.text with
      | none => rw [hb] at h; simp at h
      | some st2 =>
        rw [hb] at h
        simp only at h
        simp only [if_true]
        split
        · exact ih _ _ _ _ _ h
        · split
          · exact ih _ _ _ _ _ h
          · rename_i h1 h2
            have : st2 = st := by
              unfold functions_line at hb
              simp only [h1, if_false, h2] at hb
              exact (Option.some.inj hb).symm
            rw [← this]
            exact ih _ _ _ _ _ h

theorem variables_rounds_all_succeed :
    ∀ (rounds calls : Nat) (b : Option Char) (save : List Char) (st st1 : variables_state),
      strtok_loop variables_line rounds b save st = some st1 →
      variables_rounds (fun _ => true) rounds calls (strtok b save) st =
        Outcome.returned st1.list := by
  intro rounds
  induction rounds with
  | zero => intro _ _ _ _ _ h; simp [strtok_loop] at h
  | succ n ih =>
    intro calls b save st st1 h
    unfold strtok_loop at h
    cases hs : strtok b save with
    | none =>
      rw [hs] at h
      simp only [Option.some.injEq] at h
      subst h
      rfl
    | some r =>
      obtain ⟨tok, b1, save1⟩ := r
      rw [hs] at h
      simp only at h
      unfold variables_rounds
      cases hb : variables_line st tok with
      | none => rw [hb] at h; simp at h
      | some st2 =>
        rw [hb] at h
        simp only at h
        simp only [if_true]
        split
        · exact ih _ _ _ _ _ h
        · split
          · exact ih _ _ _ _ _ h
          · rename_i h1 h2
            have : st2 = st := by
              unfold variables_line at hb
              simp only [h1, if_false, h2] at hb
              exact (Option.some.inj hb).symm
            rw [← this]
            exact ih _ _ _ _ _ h

/-- C22: when `mi_alloc_function` fails at every call, the loop of
`gmi_symbol_list_functions` on the captured text `0x401136 main (void)` is
still running after any number of rounds (`continue` skips the `strtok` call,
so the same line is tried again), and so is the loop of
`gmi_symbol_list_variables` on `int a;`; when only the first allocation for
the second entry fails, `gmi_symbol_list_functions` returns the complete chain
of both entries; `gmi_source_list` with the same failure releases the chain
built so far and returns NULL. -/
theorem alloc_failure_retries_line :
    (∀ rounds, gmi_symbol_list_functions_rounds (fun _ => false) rounds
        "0x401136 main (void)".toList = Outcome.running) ∧
    (∀ rounds, gmi_symbol_list_variables_rounds (fun _ => false) rounds
        "int a;".toList = Outcome.running) ∧
    gmi_symbol_list_functions_rounds (fun n => decide (n ≠ 1)) 4
        "0x401136 main (void)\n0x401150 helper (int)".toList =
      Outcome.returned
        [{ name := some "main".toList, file := none, line := 0, addr := 0x401136,
           return_type := none, signature := none, is_static := 0 },
         { name := some "helper".toList, file := none, line := 0, addr := 0x401150,
           return_type := none, signature := none, is_static := 0 }] ∧
    gmi_source_list_rounds (fun n => decide (n ≠ 1)) 4 "1\tint a;\n2\tint b;".toList =
      Outcome.failed
        [{ line_num := 1, text := some "int a;".toList, has_breakpoint := 0, is_current := 0 }] := by
  refine ⟨?_, ?_, by decide, by decide⟩
  · intro rounds
    have h : strtok none "0x401136 main (void)".toList =
        some (⟨none, "0x401136 main (void)".toList⟩, some ')', []) := by decide
    unfold gmi_symbol_list_functions_rounds
    rw [h]
    exact functions_rounds_stuck _ _ _ _ _ _ (by decide)
  · intro rounds
    have h : strtok none "int a;".toList = some (⟨none, "int a;".toList⟩, some ';', []) := by
      decide
    unfold gmi_symbol_list_variables_rounds
    rw [h]
    exact variables_rounds_stuck _ _ _ _ _ _ (by decide) (by decide) (by decide)

/-! ## Variable listing: which lines give a record -/

theorem strchr_isSome_iff (s : List Char) (c : Char) : (strchr s c).isSome ↔ c ∈ s := by
  induction s with
  | nil => simp [strchr]
  | cons x xs ih =>
    unfold strchr
    by_cases hx : x = c
    · simp [hx]
    · have hx' : ¬ c = x := fun e => hx e.symm
      simp [hx, hx', ih]

theorem strchr_zero (s : List Char) (c : Char) (h : strchr s c = some 0) : s.head? = some c := by
  cases s with
  | nil => simp [strchr] at h
  | cons x xs =>
    unfold strchr at h
    by_cases hx : x = c
    · simp [hx]
    · simp [hx] at h

theorem mem_dropWhile_blank (tok : List Char) (c : Char) (hc : is_blank c = false) :
    c ∈ tok.dropWhile is_blank ↔ c ∈ tok := by
  induction tok with
  | nil => simp
  | cons x xs ih =>
    by_cases hx : is_blank x = true
    · have hne : c ≠ x := by
        intro e
        rw [e, hx] at hc
        exact absurd hc (by decide)
      simp [List.dropWhile_cons, hx, ih, hne]
    · simp [List.dropWhile_cons, hx]

theorem dropWhile_eq_self_of_length {α : Type} (p : α → Bool) (l : List α)
    (h : ¬ (l.dropWhile p).length < l.length) : l.dropWhile p = l := by
  cases l with
  | nil => rfl
  | cons x xs =>
    by_cases hx : p x = true
    · exfalso
      apply h
      simp only [List.dropWhile_cons, hx, if_true, List.length_cons]
      have := (List.dropWhile_sublist p (l := xs)).length_le
      omega
    · simp [List.dropWhile_cons, hx]

/-- One round of the variable loop, for a header that fits and a token that is
not a `;` at the very start of the buffer: a variable line with a `;` appends
one record, any other token leaves the chain as it is. -/
theorem variables_line_cases (st : variables_state) (tok : Token)
    (hfit : is_file_header tok.text = true → header_fits tok.text = true)
    (hb : tok.before = none → tok.text.head? ≠ some ';') :
    (is_variable_line tok.text = false ∧
      ∃ st1, variables_line st tok = some st1 ∧ st1.list = st.list) ∨
    (is_variable_line tok.text = true ∧
      ∃ v, variables_line st tok = some { st with list := st.list ++ [v] }) := by
  by_cases hh : is_file_header tok.text = true
  · left
    have hh' : (tok.text.dropWhile is_blank).take 5 = "File ".toList := by
      simpa [is_file_header] using hh
    refine ⟨by simp [is_variable_line, hh], ?_⟩
    have hf := hfit hh
    unfold variables_line
    simp only [hh', if_true]
    unfold header_fits at hf
    unfold file_header
    cases hc : strchr ((tok.text.dropWhile is_blank).drop 5) ':' with
    | none => exact ⟨_, rfl, rfl⟩
    | some n =>
      rw [hc] at hf
      have hn : n < 512 := by simpa using hf
      simp only [hn, if_true, Option.map_some']
      exact ⟨_, rfl, rfl⟩
  · have hh' : (tok.text.dropWhile is_blank).take 5 ≠ "File ".toList := by
      simpa [is_file_header] using hh
    have hh0 : is_file_header tok.text = false := by simpa using hh
    have hsemi : is_blank ';' = false := by decide
    by_cases hN : (tok.text.dropWhile is_blank).head? = some 'N'
    · left
      refine ⟨by simp [is_variable_line, hN], st, ?_, rfl⟩
      unfold variables_line
      simp only [hh', if_false, hN, ne_eq, not_true_eq_false, and_false]
    · cases hc : strchr (tok.text.dropWhile is_blank) ';' with
      | none =>
        left
        have hnot : ';' ∉ tok.text := by
          rw [← mem_dropWhile_blank tok.text ';' hsemi, ← strchr_isSome_iff, hc]
          simp
        refine ⟨by simp [is_variable_line, hnot], st, ?_, rfl⟩
        unfold variables_line
        simp only [hh', if_false, hc]
        split <;> rfl
      | some semicolon =>
        right
        have hin : ';' ∈ tok.text := by
          rw [← mem_dropWhile_blank tok.text ';' hsemi, ← strchr_isSome_iff, hc]
          rfl
        have hne : tok.text.dropWhile is_blank ≠ [] := by
          intro e
          rw [e] at hc
          simp [strchr] at hc
        refine ⟨by simp [is_variable_line, hh0, hN, hin], ?_⟩
        obtain ⟨nt, hnt⟩ : ∃ nt, variable_name_type
            (if (tok.text.dropWhile is_blank).length < tok.text.length then
               (tok.text.takeWhile is_blank).getLast?
             else tok.before) (tok.text.dropWhile is_blank) semicolon = some nt := by
          cases semicolon with
          | succ s => exact ⟨_, rfl⟩
          | zero =>
            have hhead := strchr_zero _ _ hc
            obtain ⟨c, hcb⟩ : ∃ c, (if (tok.text.dropWhile is_blank).length < tok.text.length then
               (tok.text.takeWhile is_blank).getLast? else tok.before) = some c := by
              split
              · rename_i hlt
                have hne2 : tok.text.takeWhile is_blank ≠ [] := by
                  intro e
                  have := List.takeWhile_append_dropWhile is_blank tok.text
                  rw [e, List.nil_append] at this
                  rw [this] at hlt
                  omega
                cases hg : (tok.text.takeWhile is_blank).getLast? with
                | none => exact absurd (List.getLast?_eq_none_iff.mp hg) hne2
                | some c => exact ⟨c, rfl⟩
              · rename_i hlt
                have hself := dropWhile_eq_self_of_length is_blank tok.text hlt
                cases hbe : tok.before with
                | none =>
                  rw [hself] at hhead
                  exact absurd hhead (hb hbe)
                | some c => exact ⟨c, rfl⟩
            rw [hcb]
            unfold variable_name_type
            simp only
            split
            · exact ⟨_, rfl⟩
            · exact ⟨_, rfl⟩
        refine ⟨{ mi_alloc_variable with
            name := some nt.1
            type := some nt.2
            file := if st.current_file ≠ [] then some st.current_file else none
            is_static :=
              if (strstr (tok.text.dropWhile is_blank) "static".toList).isSome then 1
              else 0 }, ?_⟩
        unfold variables_line
        simp only [hh', if_false, hne, hN, ne_eq, not_false_eq_true, and_self, if_true, hc, hnt,
          Option.map_some']

/-- The variable loop over a text whose headers fit and whose first token is
not a `;` at the very start of the buffer: it ends within the fuel, and the
records appended are one for each variable line with a `;`, in order. -/
theorem variables_loop :
    ∀ (fuel : Nat) (b : Option Char) (save : List Char) (st : variables_state),
      save.length < fuel →
      (b = none → save.head? ≠ some ';') →
      (∀ l ∈ text_lines save, is_file_header l = true → header_fits l = true) →
      ∃ st1 recs, strtok_loop variables_line fuel b save st = some st1 ∧
        st1.list = st.list ++ recs ∧
        List.Forall₂ variable_record_of recs ((text_lines save).filter is_variable_line) := by
  intro fuel
  induction fuel with
  | zero => intro _ _ _ h; omega
  | succ n ih =>
    intro b save st hlen hb hfit
    by_cases hs : save.dropWhile (· = '\n') = []
    · refine ⟨st, [], ?_, by simp, ?_⟩
      · unfold strtok_loop
        rw [strtok_none b save hs]
      · rw [← text_lines_dropWhile save, hs, text_lines_nil]
        exact List.Forall₂.nil
    · obtain ⟨tok, b1, save1, htok, htext, hbefore, hb1, hlt, hlines⟩ := strtok_some b save hs
      have hfit1 : ∀ l ∈ text_lines save1, is_file_header l = true → header_fits l = true :=
        fun l hl => hfit l (by rw [hlines]; exact List.mem_cons_of_mem _ hl)
      have hfit0 : is_file_header tok.text = true → header_fits tok.text = true :=
        hfit tok.text (by rw [hlines]; exact List.mem_cons_self _ _)
      have hb0 : tok.before = none → tok.text.head? ≠ some ';' := by
        intro hnone
        rw [hbefore] at hnone
        by_cases hlt2 : (save.dropWhile (· = '\n')).length < save.length
        · rw [if_pos hlt2] at hnone
          exact absurd hnone (by simp)
        · rw [if_neg hlt2] at hnone
          have hself := dropWhile_eq_self_of_length (fun c : Char => decide (c = '\n')) save hlt2
          rw [htext, hself]
          cases hsave : save with
          | nil => simp
          | cons x xs =>
            have hx := hb hnone
            rw [hsave] at hx
            by_cases hxn : x = '\n'
            · simp [List.takeWhile_cons, hxn]
            · simp only [List.takeWhile_cons, ne_eq, hxn, not_false_eq_true, decide_True, if_true]
              simpa using hx
      unfold strtok_loop
      rw [htok, hlines]
      simp only
      rcases variables_line_cases st tok hfit0 hb0 with ⟨hv, s1, hs1, hlist⟩ | ⟨hv, v, hv1⟩
      · obtain ⟨s2, recs, h2, h3, h4⟩ := ih b1 save1 s1 (by omega)
          (fun e => absurd e hb1) hfit1
        refine ⟨s2, recs, ?_, ?_, ?_⟩
        · rw [hs1]; exact h2
        · rw [h3, hlist]
        · rw [List.filter_cons_of_neg (by simp [hv])]; exact h4
      · obtain ⟨s2, recs, h2, h3, h4⟩ := ih b1 save1 { st with list := st.list ++ [v] }
          (by omega) (fun e => absurd e hb1) hfit1
        refine ⟨s2, v :: recs, ?_, ?_, ?_⟩
        · rw [hv1]; exact h2
        · rw [h3]; simp
        · rw [List.filter_cons_of_pos hv]
          exact List.Forall₂.cons ⟨st, tok.before, hv1⟩ h4

/-- C21 (amended): for every captured text that does not begin with `;` and in
which the name of every `File ` header has at most 511 characters,
`gmi_symbol_list_variables` returns a chain that has exactly one record, in
encounter order, for each line that behind its leading spaces and tabs is not
a `File ` header and does not begin with `N`, and that contains a `;`; no
other line gives a record. -/
theorem variables_chain (output : List Char)
    (hfit : ∀ l ∈ text_lines output, is_file_header l = true → header_fits l = true)
    (hfirst : output.head? ≠ some ';') :
    ∃ chain, gmi_symbol_list_variables_parse output = some chain ∧
      List.Forall₂ variable_record_of chain ((text_lines output).filter is_variable_line) := by
  obtain ⟨st1, recs, h1, h2, h3⟩ := variables_loop (output.length + 1) none output
    { current_file := [], list := [] } (Nat.lt_succ_self _) (fun _ => hfirst) hfit
  refine ⟨recs, ?_, h3⟩
  unfold gmi_symbol_list_variables_parse
  rw [h1]
  simp [h2]

/-- C21, witness: a listing with a header, a static variable, the heading of
the non-debugging symbols and a pointer variable. -/
theorem variables_chain_witness :
    ∃ chain, gmi_symbol_list_variables_parse
        "File main.c:\nstatic int counter;\nNon-debugging symbols:\nchar *name;".toList =
          some chain ∧
      List.Forall₂ variable_record_of chain
        ((text_lines
          "File main.c:\nstatic int counter;\nNon-debugging symbols:\nchar *name;".toList).filter
            is_variable_line) :=
  variables_chain
    "File main.c:\nstatic int counter;\nNon-debugging symbols:\nchar *name;".toList
    (by decide) (by decide)

/-- C21, counterexample: the line `Node *head;` is not a `File ` header and
contains a `;`, yet the chain is empty: the branch for variable lines is
guarded by `line[0] != 'N'`. -/
theorem variables_line_starting_with_N_dropped :
    is_file_header "Node *head;".toList = false ∧ ';' ∈ "Node *head;".toList ∧
    gmi_symbol_list_variables_parse "Node *head;".toList = some [] := by
  decide

/-! ## Source listing: line numbers -/

theorem sscanf_d_leading_integer (line : List Char) :
    sscanf_d line = (leading_integer line).map fun n => to_int32 (clamp_long n) := by
  unfold sscanf_d scan_int leading_integer
  simp only
  by_cases hneg : (line.dropWhile isspace).head? = some '-'
  · simp only [hneg, true_or, if_true, decide_True]
    split <;> rfl
  · simp only [hneg, false_or, if_false, decide_False, Bool.false_eq_true]
    split <;> split <;> rfl

theorem sscanf_d_in_range (line : List Char) (h : line_number_in_range line = true) :
    sscanf_d line = leading_integer line := by
  rw [sscanf_d_leading_integer]
  unfold line_number_in_range at h
  cases hl : leading_integer line with
  | none => rfl
  | some n =>
    rw [hl] at h
    have hn : -(2 ^ 31) ≤ n ∧ n < 2 ^ 31 := by simpa using h
    simp only [Option.map_some', Option.some.injEq]
    unfold to_int32 clamp_long
    omega

/-- C7 (amended): for every captured text in which every integer that begins a
line lies in the range of `int`, `gmi_source_list` returns a chain with exactly
one record, in order of appearance, for each newline-separated non-empty line
that begins with an integer, with `line_num` equal to that integer; a line that
does not begin with an integer gives no record and does not end the scan. -/
theorem source_list_records (output : List Char)
    (hrange : ∀ l ∈ text_lines output, line_number_in_range l = true) :
    ∃ chain, gmi_source_list_parse output = some chain ∧
      chain.map (fun r => r.line_num) = (text_lines output).filterMap leading_integer := by
  obtain ⟨chain, h1, h2⟩ := source_list_stored_numbers output
  refine ⟨chain, h1, ?_⟩
  rw [h2]
  apply List.filterMap_congr
  intro l hl
  exact sscanf_d_in_range l (hrange l hl)

/-- C7, witness: the listing of the specification, with the line `---` between
two numbered lines. -/
theorem source_list_records_witness :
    ∃ chain, gmi_source_list_parse "42\tint x = 10;\n---\n43\treturn x;".toList = some chain ∧
      chain.map (fun r => r.line_num) =
        (text_lines "42\tint x = 10;\n---\n43\treturn x;".toList).filterMap leading_integer :=
  source_list_records "42\tint x = 10;\n---\n43\treturn x;".toList (by decide)

/-- C7, counterexample: the line `2147483648`, tab, `int x;` begins with the
integer 2147483648, and its record has the line number -2147483648: `%d`
stores into an `int`. -/
theorem source_list_line_number_wraps :
    leading_integer "2147483648\tint x;".toList = some 2147483648 ∧
    gmi_source_list_parse "2147483648\tint x;".toList =
      some [{ line_num := -2147483648, text := some "int x;".toList, has_breakpoint := 0,
              is_current := 0 }] := by
  decide

end Libmigdb
